import Mathlib

/-!
# zrougamed/todo: the update loop of the terminal task list

A shallow embedding of `src/todo.go`: the task store, the interaction state
machine (`model.Update` on key events), the tick scheduler (`model.Update` on
`TickMsg`), `model.applySort` and the start-up code of `main`.

Conventions of the embedding

* `time.Time` is an `Int`: nanoseconds counted from the zero instant
  `time.Time{}`, so `IsZero` is `= 0`.  `time.Duration` is an `Int` of
  nanoseconds.  `Time.Sub` saturates in Go; the code only compares the
  difference with 200 ms and 290 ms, and saturation does not change those
  comparisons, so plain subtraction is used.
* One event reads the clock several times; the embedding gives every event a
  single instant `Env.now`.
* Go `int`, `int64` are `Int` (no wrap-around is modelled: the values are list
  positions, catalogue indices and identifiers).
* A slice is a `List`; an index expression outside the slice is the fault
  `Fault.indexOutOfRange` (a Go run-time panic).
* `rand.Intn(AnimCount)` reads the next element of `Env.draws`; a retry loop
  that uses up the supplied draws without leaving is `Fault.drawsExhausted`.
* `saveModel`, `updateStyles` and the text input widget are external
  collaborators: the first two do not change the model, the widget is the
  record `TextInput` with the library's key handling passed in `Env`.
-/

namespace Todo

/-! ## Configuration -/

/-- One `time.Millisecond`, in nanoseconds. -/
def millisecond : Int := 1000000

/-- Constant `checkAnimDuration = 290 * time.Millisecond`. -/
def checkAnimDuration : Int := 290 * millisecond

/-- Constant `deleteAnimDuration = 200 * time.Millisecond`. -/
def deleteAnimDuration : Int := 200 * millisecond

/-- Constant `fps`. -/
def fps : Int := 60

/-- Type `Theme`: a name and seven colours. -/
structure Theme where
  Name : String
  Bg : String
  Fg : String
  Dim : String
  Accent : String
  Secondary : String
  Success : String
  Warning : String
deriving DecidableEq, Repr

/-- Variable `themes`, the theme catalogue. -/
def themes : List Theme :=
  [ ⟨"Catppuccin", "#000000", "#cdd6f4", "#6c7086", "#cba6f7", "#f5c2e7", "#a6e3a1", "#f38ba8"⟩,
    ⟨"Nord", "#2e3440", "#eceff4", "#4c566a", "#88c0d0", "#81a1c1", "#a3be8c", "#bf616a"⟩,
    ⟨"Gruvbox", "#282828", "#ebdbb2", "#928374", "#fabd2f", "#fe8019", "#b8bb26", "#fb4934"⟩,
    ⟨"Dracula", "#282a36", "#f8f8f2", "#6272a4", "#bd93f9", "#ff79c6", "#50fa7b", "#ff5555"⟩,
    ⟨"Tokyo Night", "#1a1b26", "#c0caf5", "#565f89", "#7aa2f7", "#bb9af7", "#9ece6a", "#f7768e"⟩,
    ⟨"Rose Pine", "#191724", "#e0def4", "#6e6a86", "#ebbcba", "#c4a7e7", "#31748f", "#eb6f92"⟩,
    ⟨"Everforest", "#272e33", "#d3c6aa", "#859289", "#a7c080", "#7fbbb3", "#a7c080", "#e67e80"⟩,
    ⟨"One Dark", "#282c34", "#abb2bf", "#5c6370", "#61afef", "#c678dd", "#98c379", "#e06c75"⟩,
    ⟨"Solarized", "#002b36", "#839496", "#586e75", "#268bd2", "#2aa198", "#859900", "#dc322f"⟩,
    ⟨"Kanagawa", "#1f1f28", "#dcd7ba", "#727169", "#7e9cd8", "#957fb8", "#76946a", "#c34043"⟩ ]

/-! ## Types -/

/-- Type `AppState`; the program only ever assigns the four constants. -/
inductive AppState where
  | StateBrowse
  | StateEditing
  | StateCreating
  | StateSettingTime
deriving DecidableEq, Repr

/-- Type `SortMode int`; the value is read from the data file, so it is any
integer. -/
abbrev SortMode := Int

/-- Constant `SortOff`. -/
def SortOff : SortMode := 0

/-- Constant `SortTodoFirst`. -/
def SortTodoFirst : SortMode := 1

/-- Constant `SortDoneFirst`. -/
def SortDoneFirst : SortMode := 2

/-- Constant `AnimSparkle`, the first of the 30 effect identifiers. -/
def AnimSparkle : Int := 0

/-- Constant `AnimCount`. -/
def AnimCount : Int := 30

/-- Type `Task`. -/
structure Task where
  ID : Int
  Title : String
  Done : Bool
  DueAt : Int
  Notified : Bool
  IsAnimatingCheck : Bool
  IsDeleting : Bool
  AnimType : Int
  AnimStart : Int
deriving DecidableEq, Repr

/-- Type `AppData`, the persisted record. -/
structure AppData where
  ThemeIndex : Int
  SortMode : SortMode
  Tasks : List Task
deriving DecidableEq, Repr

/-- The part of `textinput.Model` the program reads and writes. -/
structure TextInput where
  value : String
  placeholder : String
  width : Int
  charLimit : Int
  prompt : String
  focused : Bool
  pos : Int
deriving DecidableEq, Repr

/-- Type `model`. -/
structure model where
  tasks : List Task
  state : AppState
  sortMode : SortMode
  themeIndex : Int
  lastAnim : Int
  cursor : Int
  width : Int
  height : Int
  textInput : TextInput
deriving DecidableEq, Repr

/-- The messages `Update` distinguishes: `tea.KeyMsg` (by its `String()`),
`tea.WindowSizeMsg` and `TickMsg`; `other` is any message of another type. -/
inductive Msg where
  | key (k : String)
  | windowSize (w h : Int)
  | tick
  | other
deriving DecidableEq, Repr

/-- The commands `Update` hands back: `tickCmd()`, `textinput.Blink`,
`tea.Quit` and the command of the text input widget.  A returned `nil` is the
empty list and `tea.Batch(cmds...)` is the list `cmds`. -/
inductive Cmd where
  | tick
  | blink
  | quit
  | input
deriving DecidableEq, Repr

/-- Run-time failures of one event. -/
inductive Fault where
  | indexOutOfRange
  | drawsExhausted
deriving DecidableEq, Repr

/-- What one event reads from outside the model: the clock, the outcomes of
`rand.Intn(AnimCount)` in the order they are drawn, `time.ParseDuration`
(`none` is a parse error) and the key handling of the text input widget. -/
structure Env where
  now : Int
  draws : List Nat
  parseDuration : String → Option Int
  inputUpdate : TextInput → String → TextInput

/-- What `Update` returns, with the titles passed to `beeep.Notify` during the
event, in call order. -/
structure Result where
  next : model
  cmds : List Cmd
  alerts : List String
deriving DecidableEq, Repr

/-! ## Persistence -/

/-- Offset of the Unix epoch from the zero instant, in nanoseconds. -/
def unixEpoch : Int := 62135596800 * 1000000000

/-- Method `Time.UnixNano`. -/
def UnixNano (t : Int) : Int := t - unixEpoch

/-- The seven onboarding tasks of `loadData`. -/
def hints : List Task :=
  [ ⟨1, "Press 'n' to add a new task", false, 0, false, false, false, 0, 0⟩,
    ⟨2, "Press 'e' to edit the selected task", false, 0, false, false, false, 0, 0⟩,
    ⟨3, "Press 'd' to delete a task", false, 0, false, false, false, 0, 0⟩,
    ⟨4, "Press 'space' to check/uncheck", true, 0, false, false, false, 0, 0⟩,
    ⟨5, "Press '@' to set a timer notification", false, 0, false, false, false, 0, 0⟩,
    ⟨6, "Press 's' to cycle sort modes", false, 0, false, false, false, 0, 0⟩,
    ⟨7, "Press 't' to change the color theme", false, 0, false, false, false, 0, 0⟩ ]

/-- The value `defaultData` of `loadData`. -/
def defaultData : AppData := ⟨0, SortOff, hints⟩

/-- What `json.Unmarshal` makes of a stored task: the four fields tagged
`json:"-"` are not read and keep their zero values. -/
def decodeTask (t : Task) : Task :=
  { t with IsAnimatingCheck := false, IsDeleting := false, AnimType := 0, AnimStart := 0 }

/-- The loop of `loadData` that gives a task without identifier the identifier
`time.Now().UnixNano() + int64(i)`; `i` is the position of the first task. -/
def assignIDs (now : Int) : Nat → List Task → List Task
  | _, [] => []
  | i, t :: ts =>
    (if t.ID = 0 then { t with ID := UnixNano now + (i : Int) } else t) :: assignIDs now (i + 1) ts

/-- Function `loadData`.  `file` is the content of the data file as decoded by
`json.Unmarshal`, `none` when the file cannot be read or decoded. -/
def loadData (file : Option AppData) (now : Int) : AppData :=
  match file with
  | none => defaultData
  | some d => { d with Tasks := assignIDs now 0 (d.Tasks.map decodeTask) }

/-- Function `saveModel`: the record written to the data file. -/
def saveModel (m : model) : AppData :=
  ⟨m.themeIndex, m.sortMode, m.tasks.filter (fun t => !t.IsDeleting)⟩

/-! ## Sorting -/

/-- The comparison closure of `applySort`. -/
def less (mode : SortMode) (t1 t2 : Task) : Bool :=
  if mode = SortTodoFirst then
    if t1.Done ≠ t2.Done then !t1.Done else decide (t1.ID < t2.ID)
  else if mode = SortDoneFirst then
    if t1.Done ≠ t2.Done then t1.Done else decide (t1.ID < t2.ID)
  else decide (t1.ID < t2.ID)

/-- Library function `sort.SliceStable`: the stable sort by a strict
comparison, here by insertion (an element is placed behind the elements that
are less than it and in front of all the others). -/
def sliceStable {α : Type} (lt : α → α → Bool) (l : List α) : List α :=
  l.insertionSort (fun a b => lt b a = false)

/-- Method `model.applySort`. -/
def applySort (m : model) : model :=
  let ts := sliceStable (less m.sortMode) m.tasks
  let c := if m.cursor ≥ (ts.length : Int) ∧ (ts.length : Int) > 0
           then (ts.length : Int) - 1 else m.cursor
  { m with tasks := ts, cursor := c }

/-! ## Update -/

/-- The index expression `m.tasks[i]` as a read. -/
def taskAt (ts : List Task) (i : Int) : Except Fault Task :=
  if 0 ≤ i then
    match ts[i.toNat]? with
    | some t => .ok t
    | none => .error .indexOutOfRange
  else .error .indexOutOfRange

/-- Assignments through the index expression `m.tasks[i]`: the element is
replaced by `f` of it. -/
def modifyAt (ts : List Task) (i : Int) (f : Task → Task) : Except Fault (List Task) :=
  match taskAt ts i with
  | .ok t => .ok (ts.set i.toNat (f t))
  | .error e => .error e

/-- The selection `newAnim := rand.Intn(AnimCount); for newAnim == m.lastAnim
{ newAnim = rand.Intn(AnimCount) }`: the first draw that differs from
`lastAnim`. -/
def forceUnique (lastAnim : Int) : List Nat → Except Fault Int
  | [] => .error .drawsExhausted
  | d :: ds => if (d : Int) = lastAnim then forceUnique lastAnim ds else .ok (d : Int)

/-- Method `textinput.Model.Blur`. -/
def TextInput.Blur (ti : TextInput) : TextInput := { ti with focused := false }

/-- Method `textinput.Model.Focus`. -/
def TextInput.Focus (ti : TextInput) : TextInput := { ti with focused := true }

/-- Method `textinput.Model.SetValue` (the widget's sanitising of the text and
its character limit are left out). -/
def TextInput.SetValue (ti : TextInput) (s : String) : TextInput := { ti with value := s }

/-- The loop variables of the `TickMsg` case: the slice `m.tasks`, `m.cursor`,
`needsTick`, and the titles passed to `beeep.Notify` so far. -/
structure TickState where
  tasks : List Task
  cursor : Int
  needsTick : Bool
  alerts : List String
deriving DecidableEq, Repr

/-- The first `if` of the loop body, on the task `x` found at index `i`: a
task whose deletion animation is over is cut out of the slice and the cursor
follows; a task still deleting asks for another tick. -/
def deleteStep (now : Int) (i : Nat) (x : Task) (s : TickState) : TickState :=
  if x.IsDeleting then
    if now - x.AnimStart > deleteAnimDuration then
      let ts := s.tasks.eraseIdx i
      let c := if s.cursor ≥ (ts.length : Int) ∧ s.cursor > 0 then s.cursor - 1 else s.cursor
      { s with tasks := ts, cursor := c }
    else { s with needsTick := true }
  else s

/-- The second `if` of the loop body on the task `t` points to: a check
animation that is over is cleared, one that is not asks for another tick. -/
def checkStep (now : Int) (t : Task) (needsTick : Bool) : Task × Bool :=
  if t.IsAnimatingCheck then
    if now - t.AnimStart > checkAnimDuration then
      ({ t with IsAnimatingCheck := false }, needsTick)
    else (t, true)
  else (t, needsTick)

/-- The third `if` of the loop body on the task `t` points to: an unresolved
deadline asks for another tick, and is notified once it has passed. -/
def timerStep (now : Int) (t : Task) (needsTick : Bool) (alerts : List String) :
    Task × Bool × List String :=
  if !t.Done ∧ ¬ t.DueAt = 0 then
    if now > t.DueAt ∧ !t.Notified then
      ({ t with Notified := true }, true, alerts ++ [t.Title])
    else (t, true, alerts)
  else (t, needsTick, alerts)

/-- One pass of the loop body at index `i`.  `t := &m.tasks[i]` addresses slot
`i` of the backing array for the whole pass.  When the first `if` cuts the task
out, `append(m.tasks[:i], m.tasks[i+1:]...)` moves the later tasks one slot
down in place: slot `i` then holds the task that followed, or, when the removed
task was the last of the slice, still the removed task itself, now outside the
slice.  The second and third `if` read and write through `t`; a write to a slot
outside the slice does not reach `m.tasks`. -/
def tickBody (now : Int) (i : Nat) (s : TickState) : Except Fault TickState :=
  match s.tasks[i]? with
  | none => .error .indexOutOfRange
  | some x =>
    let s1 := deleteStep now i x s
    let t1 := s1.tasks.getD i x
    let r2 := checkStep now t1 s1.needsTick
    let r3 := timerStep now r2.1 r2.2 s1.alerts
    .ok { tasks := s1.tasks.set i r3.1, cursor := s1.cursor,
          needsTick := r3.2.1, alerts := r3.2.2 }

/-- The loop `for i := len(m.tasks) - 1; i >= 0; i--`: `tickLoop now n`
runs the passes for `i = n - 1, ..., 0`. -/
def tickLoop (now : Int) : Nat → TickState → Except Fault TickState
  | 0, s => .ok s
  | i + 1, s =>
    match tickBody now i s with
    | .ok s1 => tickLoop now i s1
    | .error e => .error e

/-- The `enter` key in `StateSettingTime`. -/
def commitDeadline (env : Env) (m : model) : Except Fault Result :=
  let val := m.textInput.value
  let ts :=
    if val ≠ "" then
      match env.parseDuration val with
      | some dur => modifyAt m.tasks m.cursor
          (fun t => { t with DueAt := env.now + dur, Notified := false })
      | none => modifyAt m.tasks m.cursor (fun t => { t with DueAt := 0 })
    else modifyAt m.tasks m.cursor (fun t => { t with DueAt := 0 })
  match ts with
  | .ok ts =>
    .ok ⟨{ m with tasks := ts, state := .StateBrowse, textInput := m.textInput.Blur }, [.tick], []⟩
  | .error e => .error e

/-- The `enter` key in `StateCreating` with a non-empty buffer. -/
def commitCreate (env : Env) (m : model) : Result :=
  let val := m.textInput.value
  let m1 := { m with tasks := m.tasks ++ [⟨UnixNano env.now, val, false, 0, false, false, false, 0, 0⟩] }
  let m2 := if m1.sortMode ≠ SortOff then applySort m1 else m1
  let m3 := { m2 with state := .StateBrowse, textInput := m2.textInput.Blur }
  let m4 := if m3.sortMode = SortOff then { m3 with cursor := (m3.tasks.length : Int) - 1 } else m3
  ⟨m4, [], []⟩

/-- The `enter` key in `StateEditing` with a non-empty buffer. -/
def commitEdit (m : model) : Except Fault Result :=
  match modifyAt m.tasks m.cursor (fun t => { t with Title := m.textInput.value }) with
  | .ok ts =>
    .ok ⟨{ m with tasks := ts, state := .StateBrowse, textInput := m.textInput.Blur }, [], []⟩
  | .error e => .error e

/-- Key events while the state is one of the three text-entry states. -/
def updateInput (env : Env) (k : String) (m : model) : Except Fault Result :=
  if k = "enter" then
    if m.state = .StateSettingTime then commitDeadline env m
    else if m.textInput.value = "" then
      .ok ⟨{ m with state := .StateBrowse, textInput := m.textInput.Blur }, [], []⟩
    else if m.state = .StateCreating then .ok (commitCreate env m)
    else commitEdit m
  else if k = "esc" then
    .ok ⟨{ m with state := .StateBrowse, textInput := m.textInput.Blur }, [], []⟩
  else .ok ⟨{ m with textInput := env.inputUpdate m.textInput k }, [.input], []⟩

/-- The `d` key. -/
def deleteCommand (env : Env) (m : model) : Except Fault Result :=
  if m.tasks.length > 0 then
    match modifyAt m.tasks m.cursor (fun t => { t with IsDeleting := true, AnimStart := env.now }) with
    | .ok ts => .ok ⟨{ m with tasks := ts }, [.tick], []⟩
    | .error e => .error e
  else .ok ⟨m, [], []⟩

/-- The body of the space and `enter` case on the selected task `t0`: the
task as the case leaves it, the new value of `m.lastAnim` and the commands
appended to `cmds`. -/
def toggleTask (env : Env) (lastAnim : Int) (t0 : Task) : Except Fault (Task × Int × List Cmd) :=
  let t := { t0 with Done := !t0.Done }
  if t.Done then
    match forceUnique lastAnim env.draws with
    | .error e => .error e
    | .ok newAnim =>
      .ok ({ t with IsAnimatingCheck := true, AnimStart := env.now, AnimType := newAnim },
           newAnim, [.tick])
  else .ok ({ t with IsAnimatingCheck := false }, lastAnim, [])

/-- The space and `enter` keys in `StateBrowse`. -/
def toggleCommand (env : Env) (m : model) : Except Fault Result :=
  if m.tasks.length > 0 then
    match taskAt m.tasks m.cursor with
    | .error e => .error e
    | .ok t0 =>
      match toggleTask env m.lastAnim t0 with
      | .error e => .error e
      | .ok (t1, la, cmds) =>
        .ok ⟨applySort { m with tasks := m.tasks.set m.cursor.toNat t1, lastAnim := la }, cmds, []⟩
  else .ok ⟨m, [], []⟩

/-- Key events in `StateBrowse`. -/
def updateBrowse (env : Env) (k : String) (m : model) : Except Fault Result :=
  if k = "q" ∨ k = "ctrl+c" then .ok ⟨m, [.quit], []⟩
  else if k = "up" ∨ k = "k" then
    .ok ⟨if m.cursor > 0 then { m with cursor := m.cursor - 1 } else m, [], []⟩
  else if k = "down" ∨ k = "j" then
    .ok ⟨if m.cursor < (m.tasks.length : Int) - 1 then { m with cursor := m.cursor + 1 } else m, [], []⟩
  else if k = "t" then
    let idx := Int.tmod (m.themeIndex + 1) (themes.length : Int)
    match (if 0 ≤ idx then themes[idx.toNat]? else none) with
    | some _ => .ok ⟨{ m with themeIndex := idx }, [], []⟩
    | none => .error .indexOutOfRange
  else if k = "s" then
    .ok ⟨applySort { m with sortMode := Int.tmod (m.sortMode + 1) 3 }, [], []⟩
  else if k = "n" then
    .ok ⟨{ m with state := .StateCreating,
                  textInput := (({ m.textInput with placeholder := "Task name..." }).SetValue "").Focus,
                  cursor := (m.tasks.length : Int) }, [.blink], []⟩
  else if k = "e" then
    if m.tasks.length > 0 then
      match taskAt m.tasks m.cursor with
      | .ok t =>
        let ti := (m.textInput.SetValue t.Title).Focus
        .ok ⟨{ m with state := .StateEditing,
                      textInput := { ti with pos := (ti.value.utf8ByteSize : Int) } }, [.blink], []⟩
      | .error e => .error e
    else .ok ⟨m, [], []⟩
  else if k = "@" then
    if m.tasks.length > 0 then
      .ok ⟨{ m with state := .StateSettingTime,
                    textInput := (({ m.textInput with placeholder := "e.g. 10m, 1h2s, 10s..." }).SetValue "").Focus },
           [.blink], []⟩
    else .ok ⟨m, [], []⟩
  else if k = "d" then deleteCommand env m
  else if k = " " ∨ k = "enter" then toggleCommand env m
  else .ok ⟨m, [], []⟩

/-- The `TickMsg` case. -/
def updateTick (env : Env) (m : model) : Except Fault Result :=
  match tickLoop env.now m.tasks.length ⟨m.tasks, m.cursor, false, []⟩ with
  | .ok s =>
    .ok ⟨{ m with tasks := s.tasks, cursor := s.cursor }, if s.needsTick then [.tick] else [], s.alerts⟩
  | .error e => .error e

/-- Method `model.Update`. -/
def Update (env : Env) (msg : Msg) (m : model) : Except Fault Result :=
  match msg with
  | .key k =>
    if m.state = .StateEditing ∨ m.state = .StateCreating ∨ m.state = .StateSettingTime then
      updateInput env k m
    else updateBrowse env k m
  | .windowSize w h =>
    .ok ⟨{ m with width := w, height := h, textInput := { m.textInput with width := w - 10 } }, [], []⟩
  | .tick => updateTick env m
  | .other => .ok ⟨m, [], []⟩

/-! ## Start-up -/

/-- The text input `ti` built at the top of `main`. -/
def newTextInput : TextInput := ⟨"", "", 50, 256, "", false, 0⟩

/-- The model `main` hands to the program: `initialModel` after the theme
index check, the look-up `themes[initialModel.themeIndex]` and `applySort`. -/
def initialModel (data : AppData) : Except Fault model :=
  let m : model := ⟨data.Tasks, .StateBrowse, data.SortMode, data.ThemeIndex, 0, 0, 0, 0, newTextInput⟩
  let m1 := if m.themeIndex ≥ (themes.length : Int) then { m with themeIndex := 0 } else m
  match (if 0 ≤ m1.themeIndex then themes[m1.themeIndex.toNat]? else none) with
  | some _ => .ok (applySort m1)
  | none => .error .indexOutOfRange

/-- The model a run starts from, given the decoded data file and the time of
start-up. -/
def startModel (file : Option AppData) (now : Int) : Except Fault model :=
  initialModel (loadData file now)

/-- A run of the event loop: the events are handled one after the other, each
with its own environment; the first fault ends the run. -/
def run : List (Env × Msg) → model → Except Fault model
  | [], m => .ok m
  | (env, msg) :: rest, m =>
    match Update env msg m with
    | .ok r => run rest r.next
    | .error e => .error e

/-! ## The tick loop, task by task -/

/-- Whether the first `if` of the loop body cuts the task out: it is deleting
and its deletion animation is over. -/
def expired (now : Int) (x : Task) : Bool :=
  x.IsDeleting && decide (now - x.AnimStart > deleteAnimDuration)

/-- The task the second and third `if` of the loop body leave behind. -/
def settle (now : Int) (t : Task) : Task :=
  (timerStep now (checkStep now t false).1 false []).1

/-- Whether the second or the third `if` of the loop body sets `needsTick`. -/
def asksTick (now : Int) (t : Task) : Bool :=
  (checkStep now t false).2 || (timerStep now (checkStep now t false).1 false []).2.1

/-- The titles the third `if` of the loop body passes to `beeep.Notify`. -/
def alertsOf (now : Int) (t : Task) : List String :=
  (timerStep now (checkStep now t false).1 false []).2.2

/-- The task at the head of the part of the slice the loop has passed is as
the loop body leaves a task: passing over it again changes nothing. -/
def HeadSettled (now : Int) (suf : List Task) (nt : Bool) : Prop :=
  ∀ y, suf.head? = some y →
    settle now y = y ∧ (asksTick now y = true → nt = true) ∧ alertsOf now y = []

/-- One pass of the loop body seen from the task `x` it starts on: `n` tasks
stand in front of `x`, and `s.tasks` are the tasks behind it, already passed.
A task that is cut out leaves the tasks behind it as they are; when none is
behind it, the second and third `if` still run on the task cut out. -/
def pass (now : Int) (n : Nat) (x : Task) (s : TickState) : TickState :=
  if expired now x then
    let c := if s.cursor ≥ ((n + s.tasks.length : Nat) : Int) ∧ s.cursor > 0
             then s.cursor - 1 else s.cursor
    match s.tasks with
    | [] => ⟨[], c, s.needsTick || asksTick now x, s.alerts ++ alertsOf now x⟩
    | y :: suf => ⟨y :: suf, c, s.needsTick, s.alerts⟩
  else
    ⟨settle now x :: s.tasks, s.cursor, (s.needsTick || x.IsDeleting) || asksTick now x,
     s.alerts ++ alertsOf now x⟩

/-- The passes over a stretch of the slice given last task first. -/
def sweep (now : Int) : List Task → TickState → TickState
  | [], s => s
  | x :: rp, s => sweep now rp (pass now rp.length x s)

/-! ## Sample inputs -/

/-- An environment with the clock at `now` and the given draws, in which no
text parses as a duration and the text input ignores its keys. -/
def sampleEnv (now : Int) (draws : List Nat) : Env :=
  ⟨now, draws, fun _ => none, fun ti _ => ti⟩

/-- A model in browse state with the given tasks and cursor, sorting off. -/
def sampleModel (ts : List Task) (cursor : Int) : model :=
  ⟨ts, .StateBrowse, SortOff, 0, 0, cursor, 0, 0, newTextInput⟩

/-- A done task whose check animation started at the instant 0. -/
def checkingTask : Task := ⟨1, "water the plants", true, 0, false, true, false, 3, 0⟩

/-! ## The effect selections of a run -/

/-- The effect identifier a message makes `Update` record: the `AnimType`
written to the selected task when the message is the space or `enter` key in
browse state and the selected task is not done, so that the toggle sets
`Done = true`. -/
def completion (env : Env) (msg : Msg) (m : model) : Option Int :=
  match msg with
  | .key k =>
    if m.state = .StateBrowse ∧ (k = " " ∨ k = "enter") ∧ m.tasks.length > 0 then
      match taskAt m.tasks m.cursor with
      | .ok t0 =>
        if t0.Done = false then
          match toggleTask env m.lastAnim t0 with
          | .ok r => some r.1.AnimType
          | .error _ => none
        else none
      | .error _ => none
    else none
  | _ => none

/-- The effect identifiers recorded in the course of a run, in order; the run
ends at the first fault. -/
def recorded : List (Env × Msg) → model → List Int
  | [], _ => []
  | (env, msg) :: rest, m =>
    match Update env msg m with
    | .error _ => []
    | .ok r => (completion env msg m).toList ++ recorded rest r.next

/-! ## Animation flags along a run -/

/-- No task of the list is check-animating and deleting at once. -/
def Exclusive (ts : List Task) : Prop :=
  ∀ t ∈ ts, ¬ (t.IsAnimatingCheck = true ∧ t.IsDeleting = true)

/-- An event that starts no animation: `lastAnim` is kept, and every task of
the new list is either free of both animation flags or has the deleting flag
of a task of the old list and is check-animating only if that task was. -/
def Calm (m : model) (r : Result) : Prop :=
  r.next.lastAnim = m.lastAnim ∧
    ∀ t1 ∈ r.next.tasks, (t1.IsAnimatingCheck = false ∧ t1.IsDeleting = false) ∨
      ∃ t ∈ m.tasks, t1.IsDeleting = t.IsDeleting ∧
        (t1.IsAnimatingCheck = true → t.IsAnimatingCheck = true)

/-- The models a run can reach from a start model when every event handled
satisfies the side condition `G` on the model it arrives in. -/
inductive Reach (G : model → Msg → Prop) : model → Prop where
  | start (file : Option AppData) (now : Int) (m : model) :
      startModel file now = .ok m → Reach G m
  | step (env : Env) (msg : Msg) (m : model) (r : Result) :
      Reach G m → G m msg → Update env msg m = .ok r → Reach G r.next

/-- No side condition: every key, resize and tick event is allowed. -/
def Always (_ : model) (_ : Msg) : Prop := True

/-- The side condition under which the two animation flags exclude each other:
in browse state the `d` key is not pressed on a check-animating task, and the
space and `enter` keys are not pressed on a deleting task that is not done,
which they would complete. -/
def Unhurried (m : model) (msg : Msg) : Prop :=
  m.state = .StateBrowse → ∀ t, taskAt m.tasks m.cursor = .ok t →
    (msg = .key "d" → t.IsAnimatingCheck = false) ∧
    ((msg = .key " " ∨ msg = .key "enter") → t.Done = false → t.IsDeleting = false)

/-- A run on the onboarding tasks: complete the first task (the draw 0 is
rejected, 3 is taken), move down, complete the second task (3 is rejected
twice, 7 is taken). -/
def sampleRun : List (Env × Msg) :=
  [(sampleEnv 5 [0, 3], .key " "), (sampleEnv 6 [], .key "down"),
   (sampleEnv 7 [3, 3, 7], .key " ")]

/-- The first onboarding task. -/
def firstHint : Task := ⟨1, "Press 'n' to add a new task", false, 0, false, false, false, 0, 0⟩

/-- The default start model after the `s` key: incomplete-first order, the
done onboarding task last. -/
def sortedHints : model := applySort { sampleModel hints 0 with sortMode := SortTodoFirst }

/-- The task a completing toggle at the instant `now` with effect `a` makes of
`t`. -/
def completed (t : Task) (now a : Int) : Task :=
  { t with Done := true, IsAnimatingCheck := true, AnimStart := now, AnimType := a }

/-- An environment with the clock at `now` whose text input answers every key
by holding the text `s`. -/
def typingEnv (now : Int) (s : String) : Env :=
  ⟨now, [], fun _ => none, fun ti _ => ti.SetValue s⟩

/-- A data file with one task, which is done. -/
def doneTaskFile : AppData := ⟨0, SortOff, [⟨1, "call home", true, 0, false, false, false, 0, 0⟩]⟩

/-- A data file with one task. -/
def oneTaskFile : AppData := ⟨0, SortOff, [⟨1, "call home", false, 0, false, false, false, 0, 0⟩]⟩

/-- Whether the third `if` of the loop body notifies for the task: it is not
done, has a deadline, the deadline has passed and no notification was sent. -/
def due (now : Int) (t : Task) : Bool :=
  !t.Done && !decide (t.DueAt = 0) && decide (now > t.DueAt) && !t.Notified

/-- A task deleted at the instant 0 whose deadline, the instant 10, will have
passed unnotified. -/
def dyingDueTask : Task := ⟨1, "pay rent", false, 10, false, false, true, 0, 0⟩

/-- A task with the deadline at the instant 10. -/
def timedTask : Task := ⟨1, "pay rent", false, 10, false, false, false, 0, 0⟩

/-! ## Renderers: strings, numbers, styles

* A Go `string` is the byte sequence of its UTF-8 encoding: `len(text)` is the
  number of bytes, `text[i]` a byte, `string(text[i])` the one-character string
  of the character whose code point is the byte, and `range text` walks the
  characters with the byte offset of each.
* A `float64` is an exact fraction `Frac` (no rounding is modelled);
  `math.Floor` followed by `int` is `Frac.floor`, the conversion `int(x)` is
  `Frac.trunc` (towards zero).
* A rendering is the list of the pieces written to the `strings.Builder`, each
  with the style it was rendered in; `Style.Render` keeps the text as it is
  (tab expansion, wrapping and the escape sequences of lipgloss are left out).
* `rand.New(...)` is an `Rng`, a stream of raw values; `Intn(n)` is the next
  value modulo `n`, `Float32()` and `Float64()` are the next value modulo
  `2^24` over `2^24` and modulo `2^53` over `2^53`.
-/

/-- A `float64` as an exact fraction with a positive denominator. -/
structure Frac where
  num : Int
  den : Int
deriving Repr

/-- Conversion `float64(n)`. -/
def Frac.ofInt (n : Int) : Frac := ⟨n, 1⟩

/-- Product of two `float64`. -/
def Frac.mul (a b : Frac) : Frac := ⟨a.num * b.num, a.den * b.den⟩

/-- Quotient of two `float64`, the divisor positive. -/
def Frac.div (a b : Frac) : Frac := ⟨a.num * b.den, a.den * b.num⟩

/-- Comparison `a < b` of two `float64`. -/
def Frac.lt (a b : Frac) : Bool := decide (a.num * b.den < b.num * a.den)

/-- Calls `int(math.Floor(a))`. -/
def Frac.floor (a : Frac) : Int := Int.fdiv a.num a.den

/-- Conversion `int(a)`, which truncates towards zero. -/
def Frac.trunc (a : Frac) : Int := Int.tdiv a.num a.den

/-- Method `Duration.Seconds`. -/
def Seconds (d : Int) : Frac := ⟨d, 1000000000⟩

/-- The generator `r`: the stream of its raw values. -/
abbrev Rng := Nat → Nat

/-- The generator after one draw. -/
def Rng.next (r : Rng) : Rng := fun k => r (k + 1)

/-- Method `Rand.Intn`. -/
def Rng.Intn (r : Rng) (n : Nat) : Nat × Rng := (r 0 % n, r.next)

/-- Method `Rand.Float32`. -/
def Rng.Float32 (r : Rng) : Frac × Rng := (⟨((r 0 % 16777216 : Nat) : Int), 16777216⟩, r.next)

/-- Method `Rand.Float64`. -/
def Rng.Float64 (r : Rng) : Frac × Rng :=
  (⟨((r 0 % 9007199254740992 : Nat) : Int), 9007199254740992⟩, r.next)

/-- Library functions the renderers call: `unicode.ToUpper`, `unicode.ToLower`
and the sign test `math.Sin(x) > 0`. -/
structure Lib where
  upper : Char → Char
  lower : Char → Char
  sinPositive : Frac → Bool

/-- Function `strings.ToUpper`. -/
def ToUpper (lib : Lib) (s : String) : String := s.map lib.upper

/-- Function `strings.ToLower`. -/
def ToLower (lib : Lib) (s : String) : String := s.map lib.lower

/-- The bytes of a Go string. -/
def goBytes (s : String) : List Nat :=
  s.data.flatMap (fun c => (String.utf8EncodeChar c).map UInt8.toNat)

/-- Conversion `string(b)` of a byte: the character with that code point. -/
def byteString (b : Nat) : String := String.singleton (Char.ofNat b)

/-- The characters of a list with the byte offset of each, the first at
offset `i`. -/
def runesFrom : Nat → List Char → List (Nat × Char)
  | _, [] => []
  | i, c :: cs => (i, c) :: runesFrom (i + c.utf8Size) cs

/-- What `for i, char := range text` walks through. -/
def runes (s : String) : List (Nat × Char) := runesFrom 0 s.data

/-- An index expression `table[i]` on a slice or string constant. -/
def elemAt {α : Type} (table : List α) (i : Int) : Except Fault α :=
  if 0 ≤ i then
    match table[i.toNat]? with
    | some a => .ok a
    | none => .error .indexOutOfRange
  else .error .indexOutOfRange

/-- Type `lipgloss.Style`, as far as the renderers set it. -/
structure Style where
  fg : Option String
  bg : Option String
  bold : Bool
  strike : Bool
deriving DecidableEq, Repr

/-- Function `lipgloss.NewStyle`. -/
def NewStyle : Style := ⟨none, none, false, false⟩

/-- Method `Style.Foreground`. -/
def Style.Foreground (s : Style) (c : String) : Style := { s with fg := some c }

/-- Method `Style.Background`. -/
def Style.Background (s : Style) (c : String) : Style := { s with bg := some c }

/-- Method `Style.Bold`. -/
def Style.Bold (s : Style) (b : Bool) : Style := { s with bold := b }

/-- Method `Style.Strikethrough`. -/
def Style.Strikethrough (s : Style) (b : Bool) : Style := { s with strike := b }

/-- One write to the `strings.Builder`: the text and the style it was rendered
in, `none` for a text written as it is. -/
structure Piece where
  style : Option Style
  text : String
deriving DecidableEq, Repr

/-- Method `Style.Render`. -/
def Style.Render (s : Style) (str : String) : Piece := ⟨some s, str⟩

/-- A text written without a style. -/
def raw (str : String) : Piece := ⟨none, str⟩

/-- The number of characters a rendering shows. -/
def visible (out : List Piece) : Nat := (out.map (fun p => p.text.length)).sum

/-- Variable `strikeStyle` as `updateStyles` sets it for the theme. -/
def strikeStyle (t : Theme) : Style := (NewStyle.Foreground t.Dim).Strikethrough true

/-- A loop that draws from the generator: the body is run on each item in
turn, the generator handed on; the first fault ends the loop. -/
def forEach {α : Type} (body : α → Rng → Except Fault (List Piece × Rng)) :
    List α → Rng → Except Fault (List Piece)
  | [], _ => .ok []
  | x :: xs, r =>
    match body x r with
    | .error e => .error e
    | .ok (ps, r1) =>
      match forEach body xs r1 with
      | .error e => .error e
      | .ok rest => .ok (ps ++ rest)

/-- A loop `for i := 0; i < len(text); i++` that neither draws nor fails: the
body is run on each index, from `i` on, and the byte at it. -/
def forBytes (body : Int → Nat → List Piece) : Int → List Nat → List Piece
  | _, [] => []
  | i, b :: bs => body i b ++ forBytes body (i + 1) bs

/-! ## Renderers: the effects -/

/-- The 30 effect identifiers, in the order of the constant block. -/
inductive Effect where
  | AnimSparkle | AnimMatrix | AnimWipeRight | AnimWipeLeft | AnimRainbow
  | AnimWave | AnimBinary | AnimDissolve | AnimFlip | AnimPulse
  | AnimTypewriter | AnimParticle | AnimRedact | AnimChaos | AnimConverge
  | AnimBounce | AnimSpin | AnimZipper | AnimEraser | AnimGlitch
  | AnimMoons | AnimBraille | AnimHex | AnimReverse | AnimCaseFlip
  | AnimWide | AnimTraffic | AnimCenterStrike | AnimLoading | AnimSlider
deriving DecidableEq, Repr

/-- The constant block: the effect with value `n` is the `n`-th of the list. -/
def effects : List Effect :=
  [.AnimSparkle, .AnimMatrix, .AnimWipeRight, .AnimWipeLeft, .AnimRainbow,
   .AnimWave, .AnimBinary, .AnimDissolve, .AnimFlip, .AnimPulse,
   .AnimTypewriter, .AnimParticle, .AnimRedact, .AnimChaos, .AnimConverge,
   .AnimBounce, .AnimSpin, .AnimZipper, .AnimEraser, .AnimGlitch,
   .AnimMoons, .AnimBraille, .AnimHex, .AnimReverse, .AnimCaseFlip,
   .AnimWide, .AnimTraffic, .AnimCenterStrike, .AnimLoading, .AnimSlider]

/-- The value of an effect constant. -/
def Effect.id (e : Effect) : Int := (effects.indexOf e : Nat)

/-- The case of `switch t.AnimType` a value selects, `none` for the values
without a case. -/
def effectOf (animType : Int) : Option Effect :=
  if 0 ≤ animType then effects[animType.toNat]? else none

/-- Case `AnimSparkle`. -/
def sparkle (theme : Theme) (text : String) (r : Rng) : Except Fault (List Piece) :=
  forEach (fun b r =>
    let f := r.Float32
    if f.1.lt ⟨4, 10⟩ then
      let k := f.2.Intn 6
      match elemAt ["*", "+", "°", ".", "x", "o"] k.1 with
      | .error e => .error e
      | .ok char =>
        let c := k.2.Intn 2
        let col := if c.1 = 0 then theme.Secondary else theme.Accent
        .ok ([(NewStyle.Foreground col).Render char], c.2)
    else .ok ([(NewStyle.Foreground theme.Dim).Render (byteString b)], f.2)) (goBytes text) r

/-- Case `AnimMatrix`. -/
def matrix (theme : Theme) (text : String) (r : Rng) : Except Fault (List Piece) :=
  forEach (fun (_ : Nat) r =>
    let k := r.Intn (goBytes "H3LL0W0RLD$#@!%*&^").length
    match elemAt (goBytes "H3LL0W0RLD$#@!%*&^") k.1 with
    | .error e => .error e
    | .ok c => .ok ([(NewStyle.Foreground theme.Success).Render (byteString c)], k.2))
    (goBytes text) r

/-- Case `AnimWipeRight`. -/
def wipeRight (theme : Theme) (progress : Frac) (text : String) : List Piece :=
  let idx := (progress.mul (Frac.ofInt (goBytes text).length)).floor
  forBytes (fun i b =>
    (if i < idx then [(strikeStyle theme).Render (byteString b)] else []) ++
    (if i = idx then
      [((NewStyle.Background theme.Secondary).Foreground theme.Bg).Render (byteString b)]
     else []) ++
    (if i > idx then [raw (byteString b)] else [])) 0 (goBytes text)

/-- Case `AnimWipeLeft`. -/
def wipeLeft (theme : Theme) (progress : Frac) (text : String) : List Piece :=
  let idx := ((goBytes text).length : Int) - 1
    - (progress.mul (Frac.ofInt (goBytes text).length)).floor
  forBytes (fun i b =>
    (if i > idx then [(strikeStyle theme).Render (byteString b)] else []) ++
    (if i = idx then
      [((NewStyle.Background theme.Accent).Foreground theme.Bg).Render (byteString b)]
     else []) ++
    (if i < idx then [raw (byteString b)] else [])) 0 (goBytes text)

/-- Case `AnimRainbow`. -/
def rainbow (theme : Theme) (text : String) (r : Rng) : Except Fault (List Piece) :=
  forEach (fun (ic : Nat × Char) r =>
    let k := r.Intn 7
    match elemAt [theme.Accent, theme.Secondary, theme.Success, theme.Warning,
                  "#FF0000", "#00FF00", "#0000FF"] k.1 with
    | .error e => .error e
    | .ok c => .ok ([(NewStyle.Foreground c).Render (String.singleton ic.2)], k.2))
    (runes text) r

/-- Case `AnimWave`. -/
def wave (theme : Theme) (elapsed : Frac) (text : String) (r : Rng) :
    Except Fault (List Piece) :=
  let offset := (elapsed.mul (Frac.ofInt 30)).trunc
  forEach (fun (ic : Nat × Char) r =>
    let cIdx := Int.tmod ((ic.1 : Int) + offset) 4
    match elemAt [theme.Accent, theme.Secondary, theme.Success, theme.Fg] cIdx with
    | .error e => .error e
    | .ok c => .ok ([(NewStyle.Foreground c).Render (String.singleton ic.2)], r))
    (runes text) r

/-- Case `AnimBinary`. -/
def binary (theme : Theme) (text : String) (r : Rng) : Except Fault (List Piece) :=
  forEach (fun (_ : Nat) r =>
    let k := r.Intn 2
    let bit := if k.1 = 1 then "1" else "0"
    .ok ([(NewStyle.Foreground theme.Success).Render bit], k.2)) (goBytes text) r

/-- Case `AnimDissolve`. -/
def dissolve (theme : Theme) (progress : Frac) (text : String) (r : Rng) :
    Except Fault (List Piece) :=
  forEach (fun b r =>
    let f := r.Float64
    if f.1.lt (progress.mul ⟨15, 10⟩) then
      .ok ([(strikeStyle theme).Render (byteString b)], f.2)
    else .ok ([raw (byteString b)], f.2)) (goBytes text) r

/-- Case `AnimFlip`. -/
def flip (lib : Lib) (theme : Theme) (text : String) (r : Rng) : Except Fault (List Piece) :=
  forEach (fun (ic : Nat × Char) r =>
    let s := String.singleton ic.2
    let f := r.Float32
    if f.1.lt ⟨3, 10⟩ then
      let s1 := if ToUpper lib s = s then ToLower lib s else ToUpper lib s
      .ok ([(NewStyle.Foreground theme.Secondary).Render s1], f.2)
    else .ok ([raw s], f.2)) (runes text) r

/-- Case `AnimPulse`. -/
def pulse (lib : Lib) (theme : Theme) (elapsed : Frac) (text : String) (r : Rng) :
    Except Fault (List Piece) :=
  let phase := lib.sinPositive (elapsed.mul (Frac.ofInt 40))
  let col := if phase then theme.Accent else theme.Fg
  forEach (fun (ic : Nat × Char) r =>
    .ok ([((NewStyle.Foreground col).Bold phase).Render (String.singleton ic.2)], r))
    (runes text) r

/-- Case `AnimTypewriter`. -/
def typewriter (theme : Theme) (progress : Frac) (text : String) : List Piece :=
  let visibleChars := ((Frac.ofInt (goBytes text).length).mul progress).trunc
  forBytes (fun i b =>
    if i ≤ visibleChars then [(NewStyle.Foreground theme.Success).Render (byteString b)]
    else [raw " "]) 0 (goBytes text)

/-- Case `AnimParticle`. -/
def particle (theme : Theme) (text : String) (r : Rng) : Except Fault (List Piece) :=
  forEach (fun b r =>
    let f := r.Float32
    if f.1.lt ⟨5, 10⟩ then .ok ([(NewStyle.Foreground theme.Secondary).Render "."], f.2)
    else .ok ([(NewStyle.Foreground theme.Accent).Render (byteString b)], f.2)) (goBytes text) r

/-- Case `AnimRedact`. -/
def redact (theme : Theme) (text : String) (r : Rng) : Except Fault (List Piece) :=
  forEach (fun b r =>
    let f := r.Float32
    if f.1.lt ⟨5, 10⟩ then
      let k := f.2.Intn 4
      match elemAt ["█", "▓", "▒", "░"] k.1 with
      | .error e => .error e
      | .ok char => .ok ([(NewStyle.Foreground theme.Warning).Render char], k.2)
    else .ok ([(NewStyle.Foreground theme.Dim).Render (byteString b)], f.2)) (goBytes text) r

/-- Case `AnimChaos`. -/
def chaos (theme : Theme) (text : String) (r : Rng) : Except Fault (List Piece) :=
  forEach (fun b r =>
    let f := r.Float32
    if f.1.lt ⟨5, 10⟩ then
      let k := f.2.Intn (goBytes "!@#$%^&*()_+").length
      match elemAt (goBytes "!@#$%^&*()_+") k.1 with
      | .error e => .error e
      | .ok c => .ok ([(NewStyle.Foreground theme.Secondary).Render (byteString c)], k.2)
    else .ok ([raw (byteString b)], f.2)) (goBytes text) r

/-- Case `AnimConverge`. -/
def converge (theme : Theme) (progress : Frac) (text : String) : List Piece :=
  let len : Int := (goBytes text).length
  let mid := Int.tdiv len 2
  let fill := ((Frac.ofInt mid).mul progress).trunc
  forBytes (fun i b =>
    if i < fill ∨ i ≥ len - fill then [(strikeStyle theme).Render (byteString b)]
    else [(NewStyle.Foreground theme.Accent).Render (byteString b)]) 0 (goBytes text)

/-- Case `AnimBounce`. -/
def bounce (theme : Theme) (elapsed : Frac) (text : String) (r : Rng) :
    Except Fault (List Piece) :=
  forEach (fun (ic : Nat × Char) r =>
    let k := r.Intn 2
    let first :=
      if k.1 = 0 then (NewStyle.Foreground theme.Accent).Render (String.singleton ic.2)
      else (NewStyle.Foreground theme.Secondary).Render (String.singleton ic.2)
    let second :=
      if Int.tmod (ic.1 : Int) 2 = Int.tmod ((elapsed.mul (Frac.ofInt 10)).trunc) 2
      then [raw ""] else []
    .ok (first :: second, k.2)) (runes text) r

/-- Case `AnimSpin`. -/
def spin (theme : Theme) (elapsed : Frac) (text : String) (r : Rng) :
    Except Fault (List Piece) :=
  let spinIdx := Int.tmod ((elapsed.mul (Frac.ofInt 20)).trunc) 4
  forEach (fun (_ : Nat × Char) r =>
    match elemAt ["-", "\\", "|", "/"] spinIdx with
    | .error e => .error e
    | .ok s => .ok ([(NewStyle.Foreground theme.Success).Render s], r)) (runes text) r

/-- Case `AnimZipper`. -/
def zipper (theme : Theme) (progress : Frac) (text : String) : List Piece :=
  let len : Int := (goBytes text).length
  let mid := Int.tdiv len 2
  let zipperPos := (progress.mul (Frac.ofInt mid)).trunc
  forBytes (fun i b =>
    let distFromEdge := if i ≥ mid then len - 1 - i else i
    if distFromEdge < zipperPos then [(strikeStyle theme).Render (byteString b)]
    else [((NewStyle.Background theme.Accent).Foreground theme.Bg).Render (byteString b)])
    0 (goBytes text)

/-- Case `AnimEraser`. -/
def eraser (theme : Theme) (progress : Frac) (text : String) (r : Rng) :
    Except Fault (List Piece) :=
  forEach (fun b r =>
    let f := r.Float64
    if f.1.lt progress then .ok ([raw " "], f.2)
    else .ok ([(NewStyle.Foreground theme.Dim).Render (byteString b)], f.2)) (goBytes text) r

/-- Case `AnimGlitch`. -/
def glitch (theme : Theme) (text : String) (r : Rng) : Except Fault (List Piece) :=
  forEach (fun b r =>
    let f := r.Float32
    if f.1.lt ⟨3, 10⟩ then
      let k := f.2.Intn (goBytes "¡¢£¤¥¦§¨©ª«¬®¯°±²³´µ¶·¸¹º»¼½¾¿").length
      match elemAt (goBytes "¡¢£¤¥¦§¨©ª«¬®¯°±²³´µ¶·¸¹º»¼½¾¿") k.1 with
      | .error e => .error e
      | .ok c =>
        .ok ([((NewStyle.Foreground theme.Warning).Background theme.Dim).Render (byteString c)],
             k.2)
    else .ok ([raw (byteString b)], f.2)) (goBytes text) r

/-- Case `AnimMoons`. -/
def moons (theme : Theme) (text : String) (r : Rng) : Except Fault (List Piece) :=
  forEach (fun b r =>
    let f := r.Float32
    if f.1.lt ⟨3, 10⟩ then
      let k := f.2.Intn 4
      match elemAt ["◐", "◓", "◑", "◒"] k.1 with
      | .error e => .error e
      | .ok phase => .ok ([(NewStyle.Foreground theme.Secondary).Render phase], k.2)
    else .ok ([(NewStyle.Foreground theme.Dim).Render (byteString b)], f.2)) (goBytes text) r

/-- Case `AnimBraille`. -/
def braille (theme : Theme) (text : String) (r : Rng) : Except Fault (List Piece) :=
  forEach (fun b r =>
    let f := r.Float32
    if f.1.lt ⟨4, 10⟩ then
      let k := f.2.Intn 255
      .ok ([(NewStyle.Foreground theme.Accent).Render
              (String.singleton (Char.ofNat (0x2800 + k.1)))], k.2)
    else .ok ([raw (byteString b)], f.2)) (goBytes text) r

/-- Case `AnimHex`. -/
def hex (theme : Theme) (text : String) (r : Rng) : Except Fault (List Piece) :=
  forEach (fun (_ : Nat) r =>
    let k := r.Intn (goBytes "0123456789ABCDEF").length
    match elemAt (goBytes "0123456789ABCDEF") k.1 with
    | .error e => .error e
    | .ok c => .ok ([(NewStyle.Foreground theme.Success).Render (byteString c)], k.2))
    (goBytes text) r

/-- Case `AnimReverse`: the loop `for i := len(text) - 1; i >= 0; i--`. -/
def reverse (theme : Theme) (text : String) : List Piece :=
  (goBytes text).reverse.map (fun b => (NewStyle.Foreground theme.Warning).Render (byteString b))

/-- Case `AnimCaseFlip`. -/
def caseFlip (lib : Lib) (theme : Theme) (text : String) (r : Rng) :
    Except Fault (List Piece) :=
  forEach (fun (ic : Nat × Char) r =>
    let s := String.singleton ic.2
    let k := r.Intn 2
    let s1 := if k.1 = 0 then ToUpper lib s else ToLower lib s
    .ok ([(NewStyle.Foreground theme.Accent).Render s1], k.2)) (runes text) r

/-- Case `AnimWide`. -/
def wide (theme : Theme) (text : String) (r : Rng) : Except Fault (List Piece) :=
  forEach (fun (ic : Nat × Char) r =>
    .ok ([(NewStyle.Foreground theme.Secondary).Render (String.singleton ic.2 ++ " ")], r))
    (runes text) r

/-- Case `AnimTraffic`. -/
def traffic (theme : Theme) (elapsed : Frac) (text : String) : Except Fault (List Piece) :=
  let cIdx := Int.tmod ((elapsed.mul (Frac.ofInt 10)).trunc) 3
  match elemAt [theme.Warning, "#FFFF00", theme.Success] cIdx with
  | .error e => .error e
  | .ok c => .ok [(NewStyle.Foreground c).Render text]

/-- Case `AnimCenterStrike`. -/
def centerStrike (theme : Theme) (progress : Frac) (text : String) : List Piece :=
  let len : Int := (goBytes text).length
  let mid := Int.tdiv len 2
  let strikeWidth := (progress.mul (Frac.ofInt mid)).trunc
  forBytes (fun i b =>
    let dist : Int := (i - mid).natAbs
    if dist < strikeWidth then [(strikeStyle theme).Render (byteString b)]
    else [raw (byteString b)]) 0 (goBytes text)

/-- Case `AnimLoading`. -/
def loading (theme : Theme) (progress : Frac) (text : String) : List Piece :=
  let fill := (progress.mul (Frac.ofInt (goBytes text).length)).trunc
  forBytes (fun i _ =>
    if i < fill then [(NewStyle.Foreground theme.Success).Render "█"]
    else [(NewStyle.Foreground theme.Dim).Render "▒"]) 0 (goBytes text)

/-- Case `AnimSlider`. -/
def slider (theme : Theme) (text : String) (r : Rng) : Except Fault (List Piece) :=
  forEach (fun b r =>
    let f := r.Float32
    if f.1.lt ⟨3, 10⟩ then .ok ([(NewStyle.Foreground theme.Accent).Render "^"], f.2)
    else .ok ([raw (byteString b)], f.2)) (goBytes text) r

/-- The value of `progress`: `elapsed / total`, cut off at 1. -/
def progressOf (elapsed : Frac) : Frac :=
  let total := Seconds checkAnimDuration
  let progress := elapsed.div total
  if (Frac.ofInt 1).lt progress then Frac.ofInt 1 else progress

/-- Function `renderCheckAnim`.  `now` is the clock reading of `time.Since`,
`r` the generator seeded at the call. -/
def renderCheckAnim (lib : Lib) (now : Int) (r : Rng) (t : Task) (theme : Theme) :
    Except Fault (List Piece) :=
  let elapsed := Seconds (now - t.AnimStart)
  let progress := progressOf elapsed
  let text := t.Title
  let fallBack := (NewStyle.Foreground theme.Success).Render text
  match effectOf t.AnimType with
  | some .AnimSparkle => sparkle theme text r
  | some .AnimMatrix => matrix theme text r
  | some .AnimWipeRight => .ok (wipeRight theme progress text)
  | some .AnimWipeLeft => .ok (wipeLeft theme progress text)
  | some .AnimRainbow => rainbow theme text r
  | some .AnimWave => wave theme elapsed text r
  | some .AnimBinary => binary theme text r
  | some .AnimDissolve => dissolve theme progress text r
  | some .AnimFlip => flip lib theme text r
  | some .AnimPulse => pulse lib theme elapsed text r
  | some .AnimTypewriter => .ok (typewriter theme progress text)
  | some .AnimParticle => particle theme text r
  | some .AnimRedact => redact theme text r
  | some .AnimChaos => chaos theme text r
  | some .AnimConverge => .ok (converge theme progress text)
  | some .AnimBounce => bounce theme elapsed text r
  | some .AnimSpin => spin theme elapsed text r
  | some .AnimZipper => .ok (zipper theme progress text)
  | some .AnimEraser => eraser theme progress text r
  | some .AnimGlitch => glitch theme text r
  | some .AnimMoons => moons theme text r
  | some .AnimBraille => braille theme text r
  | some .AnimHex => hex theme text r
  | some .AnimReverse => .ok (reverse theme text)
  | some .AnimCaseFlip => caseFlip lib theme text r
  | some .AnimWide => wide theme text r
  | some .AnimTraffic => traffic theme elapsed text
  | some .AnimCenterStrike => .ok (centerStrike theme progress text)
  | some .AnimLoading => .ok (loading theme progress text)
  | some .AnimSlider => slider theme text r
  | none => .ok [fallBack]

/-- Function `renderDeleteAnim`. -/
def renderDeleteAnim (r : Rng) (text : String) (theme : Theme) : Except Fault (List Piece) :=
  forEach (fun (_ : Nat) r =>
    let k := r.Intn 2
    let bit := if k.1 = 1 then "1" else "0"
    .ok ([((NewStyle.Foreground theme.Warning).Bold true).Render bit], k.2)) (goBytes text) r

/-! ## Sample inputs of the renderers -/

/-- A library with the ASCII case mappings and a sine that is never
positive. -/
def sampleLib : Lib := ⟨Char.toUpper, Char.toLower, fun _ => false⟩

/-- The first theme of the catalogue. -/
def sampleTheme : Theme :=
  ⟨"Catppuccin", "#000000", "#cdd6f4", "#6c7086", "#cba6f7", "#f5c2e7", "#a6e3a1", "#f38ba8"⟩

/-- A task that is check-animating since the instant 0 with the given title
and effect. -/
def animTask (title : String) (e : Effect) : Task :=
  ⟨1, title, true, 0, false, true, false, e.id, 0⟩

/-! ## Renderers: resolved positions -/

/-- The effects that are driven by `progress` alone. -/
def Effect.progressDriven : Effect → Bool
  | .AnimWipeRight | .AnimWipeLeft | .AnimTypewriter | .AnimConverge | .AnimZipper
  | .AnimCenterStrike | .AnimLoading => true
  | _ => false

/-- The rendering of a progress-driven effect as a function of `progress`. -/
def progressOut (e : Effect) (theme : Theme) (progress : Frac) (text : String) : List Piece :=
  match e with
  | .AnimWipeRight => wipeRight theme progress text
  | .AnimWipeLeft => wipeLeft theme progress text
  | .AnimTypewriter => typewriter theme progress text
  | .AnimConverge => converge theme progress text
  | .AnimZipper => zipper theme progress text
  | .AnimCenterStrike => centerStrike theme progress text
  | .AnimLoading => loading theme progress text
  | _ => []

/-- A piece rendered struck through. -/
def Piece.struck (p : Piece) : Bool :=
  match p.style with
  | some s => s.strike
  | none => false

/-- A piece in the resolved form of the effect: struck through for the wipes,
converge, zipper and centre strike, revealed (rendered in a style, not blanked)
for the typewriter, filled (the full block) for the loading bar. -/
def resolved (e : Effect) (p : Piece) : Bool :=
  match e with
  | .AnimTypewriter => p.style.isSome
  | .AnimLoading => p.text == "█"
  | _ => p.struck

/-- The condition under which the loop of a progress-driven effect writes the
resolved form at index `i` of a text of `n` bytes. -/
def resolvedAt (e : Effect) (progress : Frac) (n : Int) (i : Int) : Prop :=
  match e with
  | .AnimWipeRight => i < (progress.mul (Frac.ofInt n)).floor
  | .AnimWipeLeft => i > n - 1 - (progress.mul (Frac.ofInt n)).floor
  | .AnimTypewriter => i ≤ ((Frac.ofInt n).mul progress).trunc
  | .AnimConverge =>
    i < ((Frac.ofInt (Int.tdiv n 2)).mul progress).trunc ∨
      i ≥ n - ((Frac.ofInt (Int.tdiv n 2)).mul progress).trunc
  | .AnimZipper =>
    (if i ≥ Int.tdiv n 2 then n - 1 - i else i) < (progress.mul (Frac.ofInt (Int.tdiv n 2))).trunc
  | .AnimCenterStrike =>
    (((i - Int.tdiv n 2).natAbs : Nat) : Int) < (progress.mul (Frac.ofInt (Int.tdiv n 2))).trunc
  | .AnimLoading => i < (progress.mul (Frac.ofInt n)).trunc
  | _ => False

/-- Three tasks of which the first and the last were deleted at the instant 0. -/
def dyingEnds : List Task :=
  [⟨1, "a", false, 0, false, false, true, 0, 0⟩, ⟨2, "b", false, 0, false, false, false, 0, 0⟩,
   ⟨3, "c", false, 0, false, false, true, 0, 0⟩]

/-- A done task deleted at the instant 0 while its check animation was
running. -/
def dyingCheckTask : Task := ⟨1, "pay rent", true, 0, false, true, true, 3, 0⟩

/-- An environment with the clock at `now` in which every text parses as the
duration `dur` and the text input answers every key by holding the text `s`. -/
def parsingEnv (now : Int) (s : String) (dur : Int) : Env :=
  ⟨now, [], fun _ => some dur, fun ti _ => ti.SetValue s⟩

/-! ## The ticks in flight -/

/-- The number of `tickCmd()` among the commands an event hands back.  Each is
a `tea.Tick` timer of its own, which sends one `TickMsg` when it fires;
`tea.Batch` runs all the commands it is given. -/
def ticksOf (cmds : List Cmd) : Nat := cmds.count Cmd.tick

/-- The model together with the number of ticks pending: scheduled by a
handler and not yet handled as `TickMsg`. -/
structure Pending where
  m : model
  ticks : Nat
deriving DecidableEq, Repr

/-- One event of the event loop with the pending ticks counted.  A `TickMsg`
arrives only when a tick is pending, and that tick is no longer pending once
the message is handled; the ticks among the commands handed back are pending
from then on.  `none` when the event cannot arrive or `Update` fails. -/
def deliver (env : Env) (msg : Msg) (p : Pending) : Option Pending :=
  if msg = .tick ∧ p.ticks = 0 then none
  else
    match Update env msg p.m with
    | .ok r => some ⟨r.next, (if msg = .tick then p.ticks - 1 else p.ticks) + ticksOf r.cmds⟩
    | .error _ => none

/-- The events of a run delivered one after the other. -/
def deliverAll : List (Env × Msg) → Pending → Option Pending
  | [], p => some p
  | (env, msg) :: rest, p =>
    match deliver env msg p with
    | some p1 => deliverAll rest p1
    | none => none

/-- The three events that set a deadline of one hour on the selected task:
`@`, a key that puts `1h` in the buffer, `enter`. -/
def deadlineKeys : List (Env × Msg) :=
  [(parsingEnv 5 "1h" 3600000000000, .key "@"), (parsingEnv 5 "1h" 3600000000000, .key "x"),
   (parsingEnv 5 "1h" 3600000000000, .key "enter")]

/-- The default start model after `deadlineKeys`. -/
def timedHints : model :=
  { sampleModel (hints.set 0 { firstHint with DueAt := 3600000000005 }) 0 with
    textInput := ⟨"1h", "e.g. 10m, 1h2s, 10s...", 50, 256, "", false, 0⟩ }

/-! ## The theme index -/

/-- The look-up `currentTheme := themes[m.themeIndex]` at the top of `View`. -/
def currentTheme (m : model) : Except Fault Theme := elemAt themes m.themeIndex

/-- The theme index selects an entry of the catalogue. -/
def ThemeOk (m : model) : Prop := 0 ≤ m.themeIndex ∧ m.themeIndex < (themes.length : Int)

/-- A data file that holds the onboarding tasks and the theme index `-1`. -/
def negativeThemeFile : AppData := ⟨-1, SortOff, hints⟩

/-- The messages whose handlers can hand back `tickCmd()` apart from `TickMsg`
itself: the `d` key, and the space and `enter` keys (the toggle in browse
state; `enter` also commits the deadline in `StateSettingTime`). -/
def schedules (msg : Msg) : Bool :=
  decide (msg = .key "d" ∨ msg = .key " " ∨ msg = .key "enter")

/-- The number of `d`, space and `enter` keys among the events of a run. -/
def scheduling (es : List (Env × Msg)) : Nat := (es.filter (fun e => schedules e.2)).length

/-- Two deletions in a row on the onboarding tasks: `d`, `down`, `d`. -/
def twoDeletes : List (Env × Msg) :=
  [(sampleEnv 0 [], .key "d"), (sampleEnv 1 [], .key "down"), (sampleEnv 2 [], .key "d")]

/-! # Theorems -/

/-! ## Sorting: the comparison is a strict weak order -/

theorem less_asymm (mode : SortMode) (a b : Task) :
    less mode b a = false ∨ less mode a b = false := by
  unfold less
  cases ha : a.Done <;> cases hb : b.Done <;> split_ifs <;> simp_all <;> omega

theorem less_negTrans (mode : SortMode) (a b c : Task)
    (hab : less mode b a = false) (hbc : less mode c b = false) : less mode c a = false := by
  unfold less at *
  cases ha : a.Done <;> cases hb : b.Done <;> cases hc : c.Done <;>
    simp only [ha, hb, hc] at hab hbc ⊢ <;> split_ifs at hab hbc ⊢ <;> simp_all <;> omega

theorem sliceStable_sorted (mode : SortMode) (l : List Task) :
    (sliceStable (less mode) l).Sorted (fun a b => less mode b a = false) := by
  haveI : IsTotal Task (fun a b => less mode b a = false) := ⟨less_asymm mode⟩
  haveI : IsTrans Task (fun a b => less mode b a = false) := ⟨less_negTrans mode⟩
  unfold sliceStable
  exact List.sorted_insertionSort _ l

theorem sliceStable_idem (mode : SortMode) (l : List Task) :
    sliceStable (less mode) (sliceStable (less mode) l) = sliceStable (less mode) l :=
  List.Sorted.insertionSort_eq (sliceStable_sorted mode l)

theorem sliceStable_perm {α : Type} (lt : α → α → Bool) (l : List α) :
    (sliceStable lt l).Perm l :=
  List.perm_insertionSort _ l

theorem sliceStable_length {α : Type} (lt : α → α → Bool) (l : List α) :
    (sliceStable lt l).length = l.length :=
  (sliceStable_perm lt l).length_eq

/-- Inserting `a` puts it in front of every element of its class `p` when no
element of the class is less than `a`. -/
theorem filter_orderedInsert {α : Type} (lt : α → α → Bool) (p : α → Bool) (a : α)
    (hp : ∀ b, p b = true → p a = true → lt b a = false) (l : List α) :
    (l.orderedInsert (fun x y => lt y x = false) a).filter p = (a :: l).filter p := by
  induction l with
  | nil => simp
  | cons b l ih =>
    by_cases hba : lt b a = false
    · simp [List.orderedInsert, hba]
    · have hrest : (b :: l.orderedInsert (fun x y => lt y x = false) a).filter p
          = (a :: b :: l).filter p := by
        by_cases hb : p b = true
        · by_cases ha : p a = true
          · exact absurd (hp b hb ha) hba
          · simp [List.filter_cons, hb, ha, ih] 
        · by_cases ha : p a = true <;> simp [List.filter_cons, ha, hb, ih]
      simpa [List.orderedInsert, hba] using hrest

theorem filter_sliceStable {α : Type} (lt : α → α → Bool) (p : α → Bool)
    (hp : ∀ a b, p b = true → p a = true → lt b a = false) (l : List α) :
    (sliceStable lt l).filter p = l.filter p := by
  induction l with
  | nil => simp [sliceStable]
  | cons a l ih =>
    have h := filter_orderedInsert lt p a (fun b => hp a b) (sliceStable lt l)
    unfold sliceStable at h ih ⊢
    exact h.trans (by simp [List.filter_cons, ih])

theorem applySort_tasks (m : model) :
    (applySort m).tasks = sliceStable (less m.sortMode) m.tasks := rfl

theorem applySort_sortMode (m : model) : (applySort m).sortMode = m.sortMode := rfl

/-- C7: sorting is idempotent.  For every model (any task list, any sort mode,
among them off, incomplete-first and complete-first) a second `applySort`
leaves the task order of the first as it is; the whole model is in fact left
unchanged. -/
theorem applySort_idempotent (m : model) :
    (applySort (applySort m)).tasks = (applySort m).tasks ∧
      applySort (applySort m) = applySort m := by
  have ht : (applySort (applySort m)).tasks = (applySort m).tasks := by
    simp only [applySort_tasks, applySort_sortMode, sliceStable_idem]
  refine ⟨ht, ?_⟩
  have hlen : (sliceStable (less m.sortMode) (sliceStable (less m.sortMode) m.tasks)).length
      = (sliceStable (less m.sortMode) m.tasks).length := by rw [sliceStable_idem]
  simp only [applySort, sliceStable_idem]
  congr 1
  split_ifs <;> rfl

/-- C8: what `applySort` produces.  The result is a permutation of the input;
in incomplete-first mode no done task stands in front of a not-done task, in
complete-first mode no not-done task stands in front of a done task; in every
mode two tasks of the same completion status stand in ascending order of `ID`;
and the tasks of one completion status and one `ID` stand in the order they had
in the input (stability). -/
theorem applySort_spec (m : model) :
    (applySort m).tasks.Perm m.tasks ∧
      (applySort { m with sortMode := SortTodoFirst }).tasks.Pairwise
        (fun a b => ¬ (a.Done = true ∧ b.Done = false)) ∧
      (applySort { m with sortMode := SortDoneFirst }).tasks.Pairwise
        (fun a b => ¬ (a.Done = false ∧ b.Done = true)) ∧
      (applySort m).tasks.Pairwise (fun a b => a.Done = b.Done → a.ID ≤ b.ID) ∧
      ∀ (d : Bool) (k : Int),
        (applySort m).tasks.filter (fun t => t.Done == d && t.ID == k)
          = m.tasks.filter (fun t => t.Done == d && t.ID == k) := by
  refine ⟨sliceStable_perm _ _, ?_, ?_, ?_, ?_⟩
  · refine List.Pairwise.imp ?_ (sliceStable_sorted SortTodoFirst m.tasks)
    intro a b h ⟨ha, hb⟩
    simp [less, ha, hb] at h
  · refine List.Pairwise.imp ?_ (sliceStable_sorted SortDoneFirst m.tasks)
    intro a b h ⟨ha, hb⟩
    simp [less, ha, hb, SortTodoFirst, SortDoneFirst] at h
  · refine List.Pairwise.imp ?_ (sliceStable_sorted m.sortMode m.tasks)
    intro a b h hab
    unfold less at h
    simp only [hab, ne_eq, not_true_eq_false, if_false, ite_self, decide_eq_false_iff_not] at h
    omega
  · intro d k
    refine filter_sliceStable _ _ ?_ m.tasks
    intro a b hb ha
    simp only [Bool.and_eq_true, beq_iff_eq] at ha hb
    unfold less
    have h1 : b.Done = a.Done := by rw [hb.1, ha.1]
    have h2 : ¬ b.ID < a.ID := by rw [hb.2, ha.2]; omega
    simp [h1, h2]

/-! ## List positions -/

theorem getElem?_mid (p : List Task) (x : Task) (suf : List Task) :
    (p ++ x :: suf)[p.length]? = some x := by
  rw [List.getElem?_append_right (le_refl _)]
  simp

theorem eraseIdx_mid (p : List Task) (x : Task) (suf : List Task) :
    (p ++ x :: suf).eraseIdx p.length = p ++ suf := by
  rw [List.eraseIdx_append_of_length_le (le_refl _)]
  simp

theorem getD_mid (p : List Task) (x y : Task) (suf : List Task) :
    (p ++ y :: suf).getD p.length x = y := by
  rw [List.getD_eq_getElem?_getD, getElem?_mid]
  rfl

theorem getD_end (p : List Task) (x : Task) :
    p.getD p.length x = x := by
  simp [List.getD_eq_getElem?_getD]

theorem set_mid (p : List Task) (x t : Task) (suf : List Task) :
    (p ++ x :: suf).set p.length t = p ++ t :: suf := by
  rw [List.set_append_right _ _ (le_refl _)]
  simp

theorem set_end (p : List Task) (t : Task) :
    p.set p.length t = p :=
  List.set_eq_of_length_le (le_refl _)

/-! ## The tick loop -/

theorem steps_eq (now : Int) (t : Task) (nt : Bool) (al : List String) :
    timerStep now (checkStep now t nt).1 (checkStep now t nt).2 al
      = (settle now t, nt || asksTick now t, al ++ alertsOf now t) := by
  unfold settle asksTick alertsOf timerStep checkStep
  cases nt <;> split_ifs <;> simp_all

theorem settle_idem (now : Int) (t : Task) : settle now (settle now t) = settle now t := by
  by_cases h1 : t.IsAnimatingCheck = true <;>
  by_cases h2 : now - t.AnimStart > checkAnimDuration <;>
  by_cases h3 : t.Done = true <;> by_cases h4 : t.DueAt = 0 <;>
  by_cases h5 : now > t.DueAt <;> by_cases h6 : t.Notified = true <;>
  simp [settle, timerStep, checkStep, h1, h2, h3, h4, h5, h6]

theorem asksTick_settle (now : Int) (t : Task) (h : asksTick now (settle now t) = true) :
    asksTick now t = true := by
  revert h
  by_cases h1 : t.IsAnimatingCheck = true <;>
  by_cases h2 : now - t.AnimStart > checkAnimDuration <;>
  by_cases h3 : t.Done = true <;> by_cases h4 : t.DueAt = 0 <;>
  by_cases h5 : now > t.DueAt <;> by_cases h6 : t.Notified = true <;>
  simp [asksTick, settle, timerStep, checkStep, h1, h2, h3, h4, h5, h6]

theorem alertsOf_settle (now : Int) (t : Task) : alertsOf now (settle now t) = [] := by
  by_cases h1 : t.IsAnimatingCheck = true <;>
  by_cases h2 : now - t.AnimStart > checkAnimDuration <;>
  by_cases h3 : t.Done = true <;> by_cases h4 : t.DueAt = 0 <;>
  by_cases h5 : now > t.DueAt <;> by_cases h6 : t.Notified = true <;>
  simp [alertsOf, settle, timerStep, checkStep, h1, h2, h3, h4, h5, h6]

theorem tickBody_keep (now : Int) (p : List Task) (x : Task) (suf : List Task) (c : Int)
    (nt : Bool) (al : List String) (hx : expired now x = false) :
    tickBody now p.length ⟨p ++ x :: suf, c, nt, al⟩
      = .ok ⟨p ++ settle now x :: suf, c, (nt || x.IsDeleting) || asksTick now x,
             al ++ alertsOf now x⟩ := by
  unfold tickBody
  simp only [getElem?_mid]
  have hd : deleteStep now p.length x ⟨p ++ x :: suf, c, nt, al⟩
      = ⟨p ++ x :: suf, c, nt || x.IsDeleting, al⟩ := by
    unfold deleteStep
    unfold expired at hx
    cases hdel : x.IsDeleting <;> simp_all
  simp only [hd, getD_mid, steps_eq, set_mid]

theorem deleteStep_cut (now : Int) (p : List Task) (x : Task) (suf : List Task) (c : Int)
    (nt : Bool) (al : List String) (hx : expired now x = true) :
    deleteStep now p.length x ⟨p ++ x :: suf, c, nt, al⟩
      = ⟨p ++ suf,
         if c ≥ ((p ++ suf).length : Int) ∧ c > 0 then c - 1 else c, nt, al⟩ := by
  unfold expired at hx
  simp only [Bool.and_eq_true, decide_eq_true_eq] at hx
  unfold deleteStep
  simp only [hx.1, hx.2, if_true, eraseIdx_mid]

theorem tickBody_cut_mid (now : Int) (p : List Task) (x y : Task) (suf : List Task) (c : Int)
    (nt : Bool) (al : List String) (hx : expired now x = true) :
    tickBody now p.length ⟨p ++ x :: y :: suf, c, nt, al⟩
      = .ok ⟨p ++ settle now y :: suf,
             if c ≥ ((p ++ y :: suf).length : Int) ∧ c > 0 then c - 1 else c,
             nt || asksTick now y, al ++ alertsOf now y⟩ := by
  unfold tickBody
  simp only [getElem?_mid, deleteStep_cut now p x (y :: suf) c nt al hx, getD_mid, steps_eq,
    set_mid]

theorem tickBody_cut_last (now : Int) (p : List Task) (x : Task) (c : Int)
    (nt : Bool) (al : List String) (hx : expired now x = true) :
    tickBody now p.length ⟨p ++ [x], c, nt, al⟩
      = .ok ⟨p, if c ≥ (p.length : Int) ∧ c > 0 then c - 1 else c,
             nt || asksTick now x, al ++ alertsOf now x⟩ := by
  unfold tickBody
  have h := deleteStep_cut now p x [] c nt al hx
  simp only [List.append_nil] at h
  simp only [getElem?_mid, h, getD_end, steps_eq, set_end]

/-- The index loop over the front `pre` of the slice is the sweep over `pre`,
last task first, as long as the task behind `pre` is settled. -/
theorem tickLoop_eq_sweep (now : Int) (pre : List Task) :
    ∀ (suf : List Task) (c : Int) (nt : Bool) (al : List String), HeadSettled now suf nt →
      tickLoop now pre.length ⟨pre ++ suf, c, nt, al⟩
        = .ok (sweep now pre.reverse ⟨suf, c, nt, al⟩) := by
  induction pre using List.reverseRecOn with
  | nil => intro suf c nt al _; rfl
  | append_singleton p x ih =>
    intro suf c nt al hs
    have hlen : (p ++ [x]).length = p.length + 1 := by simp
    have hcat : p ++ [x] ++ suf = p ++ x :: suf := by simp
    rw [hlen, hcat, List.reverse_append, List.reverse_singleton, List.singleton_append]
    show (match tickBody now p.length ⟨p ++ x :: suf, c, nt, al⟩ with
          | .ok s1 => tickLoop now p.length s1
          | .error e => .error e) = _
    simp only [sweep, List.length_reverse]
    cases hx : expired now x with
    | false =>
      rw [tickBody_keep now p x suf c nt al hx]
      simp only [pass, hx, Bool.false_eq_true, if_false]
      apply ih
      intro y hy
      simp only [List.head?_cons, Option.some.injEq] at hy
      subst hy
      refine ⟨settle_idem now x, ?_, alertsOf_settle now x⟩
      intro h
      simp [asksTick_settle now x h]
    | true =>
      cases suf with
      | nil =>
        rw [tickBody_cut_last now p x c nt al hx]
        simp only [pass, hx, if_true, List.length_nil, Nat.add_zero]
        have := ih [] (if c ≥ (p.length : Int) ∧ c > 0 then c - 1 else c)
          (nt || asksTick now x) (al ++ alertsOf now x) (by intro y hy; simp at hy)
        simpa using this
      | cons y suf =>
        rw [tickBody_cut_mid now p x y suf c nt al hx]
        obtain ⟨h1, h2, h3⟩ := hs y rfl
        have hnt : (nt || asksTick now y) = nt := by
          cases hq : asksTick now y
          · simp
          · simp [h2 hq]
        simp only [pass, hx, if_true, h1, hnt, h3, List.append_nil, List.length_append,
          List.length_cons]
        exact ih (y :: suf) _ nt al hs

theorem sweep_tasks (now : Int) (rp : List Task) :
    ∀ s : TickState, (sweep now rp s).tasks
      = ((rp.reverse.filter (fun x => !expired now x)).map (settle now)) ++ s.tasks := by
  induction rp with
  | nil => intro s; simp [sweep]
  | cons x rp ih =>
    intro s
    simp only [sweep, ih, List.reverse_cons, List.filter_append, List.map_append,
      List.append_assoc]
    congr 1
    cases hx : expired now x with
    | false => simp [pass, hx]
    | true =>
      cases hs : s.tasks <;> simp [pass, hx, hs]

theorem sweep_needsTick_mono (now : Int) (rp : List Task) :
    ∀ s : TickState, s.needsTick = true → (sweep now rp s).needsTick = true := by
  induction rp with
  | nil => intro s h; exact h
  | cons x rp ih =>
    intro s h
    apply ih
    cases hx : expired now x with
    | false => simp [pass, hx, h]
    | true => cases hs : s.tasks <;> simp [pass, hx, hs, h]

theorem sweep_needsTick_of_mem (now : Int) (rp : List Task) :
    ∀ (s : TickState) (x : Task), x ∈ rp → expired now x = false →
      (x.IsDeleting = true ∨ asksTick now x = true) → (sweep now rp s).needsTick = true := by
  induction rp with
  | nil => intro s x hx; simp at hx
  | cons y rp ih =>
    intro s x hx hexp hask
    rcases List.mem_cons.1 hx with rfl | hmem
    · refine sweep_needsTick_mono now rp (pass now rp.length x s) ?_
      rcases hask with h | h <;> simp [pass, hexp, h]
    · exact ih _ x hmem hexp hask

theorem updateTick_eq (env : Env) (m : model) :
    updateTick env m
      = .ok ⟨{ m with tasks := (sweep env.now m.tasks.reverse ⟨[], m.cursor, false, []⟩).tasks,
                      cursor := (sweep env.now m.tasks.reverse ⟨[], m.cursor, false, []⟩).cursor },
             if (sweep env.now m.tasks.reverse ⟨[], m.cursor, false, []⟩).needsTick
             then [.tick] else [],
             (sweep env.now m.tasks.reverse ⟨[], m.cursor, false, []⟩).alerts⟩ := by
  have h := tickLoop_eq_sweep env.now m.tasks [] m.cursor false []
    (by intro y hy; simp at hy)
  rw [List.append_nil] at h
  unfold updateTick
  rw [h]

theorem updateTick_tasks (env : Env) (m : model) :
    (sweep env.now m.tasks.reverse ⟨[], m.cursor, false, []⟩).tasks
      = (m.tasks.filter (fun x => !expired env.now x)).map (settle env.now) := by
  rw [sweep_tasks]
  simp

theorem settle_fields (now : Int) (t : Task) :
    (settle now t).ID = t.ID ∧ (settle now t).Title = t.Title ∧ (settle now t).Done = t.Done ∧
      (settle now t).DueAt = t.DueAt ∧ (settle now t).IsDeleting = t.IsDeleting ∧
      (settle now t).AnimType = t.AnimType ∧ (settle now t).AnimStart = t.AnimStart := by
  by_cases h1 : t.IsAnimatingCheck = true <;>
  by_cases h2 : now - t.AnimStart > checkAnimDuration <;>
  by_cases h3 : t.Done = true <;> by_cases h4 : t.DueAt = 0 <;>
  by_cases h5 : now > t.DueAt <;> by_cases h6 : t.Notified = true <;>
  simp [settle, timerStep, checkStep, h1, h2, h3, h4, h5, h6]

theorem settle_check (now : Int) (t : Task) :
    (settle now t).IsAnimatingCheck
      = (t.IsAnimatingCheck && !decide (now - t.AnimStart > checkAnimDuration)) := by
  by_cases h1 : t.IsAnimatingCheck = true <;>
  by_cases h2 : now - t.AnimStart > checkAnimDuration <;>
  by_cases h3 : t.Done = true <;> by_cases h4 : t.DueAt = 0 <;>
  by_cases h5 : now > t.DueAt <;> by_cases h6 : t.Notified = true <;>
  simp [settle, timerStep, checkStep, h1, h2, h3, h4, h5, h6]

theorem asksTick_eq (now : Int) (t : Task) :
    asksTick now t
      = ((t.IsAnimatingCheck && !decide (now - t.AnimStart > checkAnimDuration))
          || (!t.Done && !decide (t.DueAt = 0))) := by
  by_cases h1 : t.IsAnimatingCheck = true <;>
  by_cases h2 : now - t.AnimStart > checkAnimDuration <;>
  by_cases h3 : t.Done = true <;> by_cases h4 : t.DueAt = 0 <;>
  by_cases h5 : now > t.DueAt <;> by_cases h6 : t.Notified = true <;>
  simp [asksTick, timerStep, checkStep, h1, h2, h3, h4, h5, h6]

theorem sweep_idle (now : Int) (rp : List Task) :
    ∀ s : TickState,
      (∀ t ∈ rp, t.IsDeleting = false ∧ t.IsAnimatingCheck = false ∧
        ¬ (t.Done = false ∧ t.DueAt ≠ 0)) →
      sweep now rp s = ⟨rp.reverse ++ s.tasks, s.cursor, s.needsTick, s.alerts⟩ := by
  induction rp with
  | nil => intro s _; simp [sweep]
  | cons x rp ih =>
    intro s h
    obtain ⟨hd, hc, hu⟩ := h x (List.mem_cons_self x rp)
    have hexp : expired now x = false := by simp [expired, hd]
    have hask : asksTick now x = false := by
      rw [asksTick_eq]
      by_cases h3 : x.Done = true <;> by_cases h4 : x.DueAt = 0 <;> simp_all
    have hset : settle now x = x := by
      by_cases h3 : x.Done = true <;> by_cases h4 : x.DueAt = 0 <;>
        simp_all [settle, timerStep, checkStep]
    have hal : alertsOf now x = [] := by
      by_cases h3 : x.Done = true <;> by_cases h4 : x.DueAt = 0 <;>
        simp_all [alertsOf, timerStep, checkStep]
    simp only [sweep]
    rw [ih _ (fun t ht => h t (List.mem_cons_of_mem x ht))]
    simp [pass, hexp, hask, hset, hal, hd]

/-- C3: the scheduler stops by itself.  When no task of the store is deleting,
none is check-animating and none has an unresolved deadline (not done, `DueAt`
set), a tick returns the model as it is (task list and cursor among the rest),
schedules no further tick and notifies nothing. -/
theorem tick_idle_stops (env : Env) (m : model)
    (h : ∀ t ∈ m.tasks, t.IsDeleting = false ∧ t.IsAnimatingCheck = false ∧
      ¬ (t.Done = false ∧ t.DueAt ≠ 0)) :
    Update env .tick m = .ok ⟨m, [], []⟩ := by
  show updateTick env m = _
  rw [updateTick_eq, sweep_idle env.now m.tasks.reverse _
    (fun t ht => h t (List.mem_reverse.1 ht))]
  simp

/-- C4: no pending task is missed.  A tick never fails, and when the store it
leaves contains a task that is deleting, or check-animating, or has an
unresolved deadline (not done, `DueAt` set), the tick schedules a further
tick. -/
theorem tick_reschedules_pending (env : Env) (m : model) :
    ∃ r, Update env .tick m = .ok r ∧
      ((∃ t ∈ r.next.tasks, t.IsDeleting = true ∨ t.IsAnimatingCheck = true ∨
          (t.Done = false ∧ t.DueAt ≠ 0)) → r.cmds = [.tick]) := by
  refine ⟨_, updateTick_eq env m, ?_⟩
  rintro ⟨t, ht, hp⟩
  simp only [updateTick_tasks, List.mem_map, List.mem_filter, Bool.not_eq_true'] at ht
  obtain ⟨x, ⟨hx, hexp⟩, rfl⟩ := ht
  obtain ⟨_, _, hDone, hDue, hDel, _, _⟩ := settle_fields env.now x
  have hn : (sweep env.now m.tasks.reverse ⟨[], m.cursor, false, []⟩).needsTick = true := by
    apply sweep_needsTick_of_mem env.now _ _ x (List.mem_reverse.2 hx) hexp
    rcases hp with h | h | ⟨h3, h4⟩
    · left; rw [← hDel]; exact h
    · right
      rw [settle_check] at h
      rw [asksTick_eq, h]; rfl
    · right
      rw [hDone] at h3
      rw [hDue] at h4
      rw [asksTick_eq]
      simp [h3, h4]
  simp [hn]

/-- C5: what a tick removes.  A tick never fails, and the task list it leaves
is the list before the tick without the tasks that are deleting with
`now - AnimStart > deleteAnimDuration`, in the original order; a deleting task
with `now - AnimStart <= deleteAnimDuration` stays.  The tasks that stay are as
the other two steps of the tick leave them (`settle`), which keep the
identifier, title, completion flag, deadline, deleting flag, effect and
animation start of every task. -/
theorem tick_removes_expired (env : Env) (m : model) :
    ∃ r, Update env .tick m = .ok r ∧
      r.next.tasks
        = (m.tasks.filter (fun t =>
            !(t.IsDeleting && decide (env.now - t.AnimStart > deleteAnimDuration)))).map
              (settle env.now) ∧
      ∀ t : Task, (settle env.now t).ID = t.ID ∧ (settle env.now t).Title = t.Title ∧
        (settle env.now t).Done = t.Done ∧ (settle env.now t).DueAt = t.DueAt ∧
        (settle env.now t).IsDeleting = t.IsDeleting ∧
        (settle env.now t).AnimType = t.AnimType ∧
        (settle env.now t).AnimStart = t.AnimStart :=
  ⟨_, updateTick_eq env m, updateTick_tasks env m, settle_fields env.now⟩

/-- Witness of C3 on the onboarding tasks. -/
theorem tick_idle_stops_witness :
    (∀ t ∈ (sampleModel hints 0).tasks, t.IsDeleting = false ∧ t.IsAnimatingCheck = false ∧
      ¬ (t.Done = false ∧ t.DueAt ≠ 0)) ∧
    Update (sampleEnv 5 []) .tick (sampleModel hints 0) = .ok ⟨sampleModel hints 0, [], []⟩ :=
  ⟨by decide, tick_idle_stops (sampleEnv 5 []) (sampleModel hints 0) (by decide)⟩

/-- C6 as stated fails at the boundary: a check animation that started at the
instant 0 has run for at least `checkAnimDuration` at the instant
`checkAnimDuration`, and a tick at that instant leaves the task check-animating
(the model is returned as it is, with a further tick scheduled). -/
theorem check_kept_at_duration :
    (sampleEnv checkAnimDuration []).now - checkingTask.AnimStart ≥ checkAnimDuration ∧
      checkingTask.IsAnimatingCheck = true ∧
      Update (sampleEnv checkAnimDuration []) .tick (sampleModel [checkingTask] 0)
        = .ok ⟨sampleModel [checkingTask] 0, [.tick], []⟩ :=
  ⟨by decide, rfl, rfl⟩

/-- C6, amended: a tick never fails, and for every task that is check-animating
before the tick and is not removed by it, the tick clears `IsAnimatingCheck`
if and only if more than `checkAnimDuration` has elapsed since `AnimStart`,
that is `now - AnimStart > checkAnimDuration`.  The tasks left by the tick and
the tasks it does not remove are paired off in order. -/
theorem tick_clears_check (env : Env) (m : model) :
    ∃ r, Update env .tick m = .ok r ∧
      List.Forall₂
        (fun t t1 => t.IsAnimatingCheck = true →
          (t1.IsAnimatingCheck = false ↔ env.now - t.AnimStart > checkAnimDuration))
        (m.tasks.filter (fun t =>
          !(t.IsDeleting && decide (env.now - t.AnimStart > deleteAnimDuration))))
        r.next.tasks := by
  refine ⟨_, updateTick_eq env m, ?_⟩
  show List.Forall₂ _ _ (sweep env.now m.tasks.reverse ⟨[], m.cursor, false, []⟩).tasks
  rw [updateTick_tasks, List.forall₂_map_right_iff]
  show List.Forall₂ _ (m.tasks.filter (fun x => !expired env.now x)) _
  rw [List.forall₂_same]
  intro t _ ht
  rw [settle_check, ht]
  simp

/-! ## Effect selection -/

theorem forceUnique_ok (last : Int) (ds : List Nat) (a : Int) (h : forceUnique last ds = .ok a) :
    a ≠ last ∧ ∃ d ∈ ds, a = (d : Int) := by
  induction ds with
  | nil => simp [forceUnique] at h
  | cons d ds ih =>
    unfold forceUnique at h
    split_ifs at h with hd
    · obtain ⟨h1, d1, hd1, h2⟩ := ih h
      exact ⟨h1, d1, List.mem_cons_of_mem d hd1, h2⟩
    · simp only [Except.ok.injEq] at h
      subst h
      exact ⟨hd, d, List.mem_cons_self d ds, rfl⟩

theorem forceUnique_of_mem (last : Int) (ds : List Nat) (h : ∃ d ∈ ds, (d : Int) ≠ last) :
    ∃ a, forceUnique last ds = .ok a := by
  induction ds with
  | nil => simp at h
  | cons d ds ih =>
    unfold forceUnique
    split_ifs with hd
    · obtain ⟨e, he, hne⟩ := h
      rcases List.mem_cons.1 he with rfl | hmem
      · exact absurd hd hne
      · exact ih ⟨e, hmem, hne⟩
    · exact ⟨_, rfl⟩

theorem completion_spec (env : Env) (msg : Msg) (m : model) (a : Int)
    (h : completion env msg m = some a) :
    a ≠ m.lastAnim ∧ ∃ d ∈ env.draws, a = (d : Int) := by
  unfold completion at h
  split at h
  · split_ifs at h
    split at h
    · rename_i t0 _
      split_ifs at h with hdone
      unfold toggleTask at h
      simp only [hdone, Bool.not_false, if_true] at h
      split at h
      · rename_i r hr
        split at hr
        · simp at hr
        · rename_i newAnim hf
          simp only [Except.ok.injEq] at hr
          subst hr
          simp only [Option.some.injEq] at h
          subst h
          exact forceUnique_ok _ _ _ hf
      · simp at h
    · simp at h
  · simp at h

/-! ## Events that start no animation -/

theorem taskAt_mem (ts : List Task) (i : Int) (t : Task) (h : taskAt ts i = .ok t) :
    t ∈ ts ∧ 0 ≤ i ∧ i.toNat < ts.length ∧ ts[i.toNat]? = some t := by
  unfold taskAt at h
  split_ifs at h with hi
  split at h
  · rename_i t0 ht
    simp only [Except.ok.injEq] at h
    subst h
    obtain ⟨hlt, hget⟩ := List.getElem?_eq_some_iff.1 ht
    exact ⟨List.getElem?_mem ht, hi, hlt, ht⟩
  · simp at h

theorem modifyAt_mem (ts : List Task) (i : Int) (f : Task → Task) (ts1 : List Task)
    (h : modifyAt ts i f = .ok ts1) :
    ∀ t1 ∈ ts1, t1 ∈ ts ∨ ∃ t ∈ ts, taskAt ts i = .ok t ∧ t1 = f t := by
  unfold modifyAt at h
  split at h
  · rename_i t ht
    simp only [Except.ok.injEq] at h
    subst h
    intro t1 ht1
    rcases List.mem_or_eq_of_mem_set ht1 with h1 | h1
    · exact Or.inl h1
    · exact Or.inr ⟨t, (taskAt_mem ts i t ht).1, ht, h1⟩
  · simp at h

theorem calm_of_tasks_eq (m : model) (r : Result) (h1 : r.next.lastAnim = m.lastAnim)
    (h2 : r.next.tasks = m.tasks) : Calm m r := by
  refine ⟨h1, fun t1 ht1 => Or.inr ⟨t1, h2 ▸ ht1, rfl, id⟩⟩

theorem calm_of_modifyAt (m : model) (r : Result) (f : Task → Task)
    (h1 : r.next.lastAnim = m.lastAnim)
    (h2 : modifyAt m.tasks m.cursor f = .ok r.next.tasks)
    (hf : ∀ t, (f t).IsDeleting = t.IsDeleting ∧ (f t).IsAnimatingCheck = t.IsAnimatingCheck) :
    Calm m r := by
  refine ⟨h1, fun t1 ht1 => Or.inr ?_⟩
  rcases modifyAt_mem _ _ _ _ h2 t1 ht1 with h | ⟨t, ht, _, rfl⟩
  · exact ⟨t1, h, rfl, id⟩
  · exact ⟨t, ht, (hf t).1, fun h => (hf t).2 ▸ h⟩

theorem calm_of_perm (m : model) (r : Result) (h1 : r.next.lastAnim = m.lastAnim)
    (h2 : r.next.tasks.Perm m.tasks) : Calm m r := by
  refine ⟨h1, fun t1 ht1 => Or.inr ⟨t1, h2.mem_iff.1 ht1, rfl, id⟩⟩

theorem commitDeadline_calm (env : Env) (m : model) (r : Result)
    (h : commitDeadline env m = .ok r) : Calm m r := by
  unfold commitDeadline at h
  dsimp only at h
  split at h
  · rename_i ts hts
    simp only [Except.ok.injEq] at h
    subst h
    split_ifs at hts
    · split at hts
      · exact calm_of_modifyAt m _ _ rfl hts (fun t => ⟨rfl, rfl⟩)
      · exact calm_of_modifyAt m _ _ rfl hts (fun t => ⟨rfl, rfl⟩)
    · exact calm_of_modifyAt m _ _ rfl hts (fun t => ⟨rfl, rfl⟩)
  · simp at h

theorem commitEdit_calm (m : model) (r : Result)
    (h : commitEdit m = .ok r) : Calm m r := by
  unfold commitEdit at h
  split at h
  · rename_i ts hts
    simp only [Except.ok.injEq] at h
    subst h
    exact calm_of_modifyAt m _ _ rfl hts (fun t => ⟨rfl, rfl⟩)
  · simp at h

theorem commitCreate_tasks (env : Env) (m : model) :
    (commitCreate env m).next.lastAnim = m.lastAnim ∧
    (commitCreate env m).next.tasks.Perm
      (m.tasks ++ [⟨UnixNano env.now, m.textInput.value, false, 0, false, false, false, 0, 0⟩]) := by
  unfold commitCreate
  dsimp only
  by_cases hs : m.sortMode = SortOff
  · simp [hs]
  · simp only [hs, ne_eq, not_false_eq_true, if_true, applySort_sortMode, if_false]
    exact ⟨rfl, sliceStable_perm _ _⟩

theorem commitCreate_calm (env : Env) (m : model) : Calm m (commitCreate env m) := by
  obtain ⟨h1, h2⟩ := commitCreate_tasks env m
  refine ⟨h1, fun t1 ht1 => ?_⟩
  rcases List.mem_append.1 (h2.mem_iff.1 ht1) with h | h
  · exact Or.inr ⟨t1, h, rfl, id⟩
  · simp only [List.mem_singleton] at h
    subst h
    exact Or.inl ⟨rfl, rfl⟩

theorem updateInput_calm (env : Env) (k : String) (m : model) (r : Result)
    (h : updateInput env k m = .ok r) : Calm m r := by
  unfold updateInput at h
  split_ifs at h
  · exact commitDeadline_calm env m r h
  · simp only [Except.ok.injEq] at h; subst h; exact calm_of_tasks_eq _ _ rfl rfl
  · simp only [Except.ok.injEq] at h; subst h; exact commitCreate_calm env m
  · exact commitEdit_calm m r h
  · simp only [Except.ok.injEq] at h; subst h; exact calm_of_tasks_eq _ _ rfl rfl
  · simp only [Except.ok.injEq] at h; subst h; exact calm_of_tasks_eq _ _ rfl rfl

theorem updateTick_calm (env : Env) (m : model) (r : Result)
    (h : updateTick env m = .ok r) : Calm m r := by
  rw [updateTick_eq] at h
  simp only [Except.ok.injEq] at h
  subst h
  refine ⟨rfl, fun t1 ht1 => Or.inr ?_⟩
  simp only [updateTick_tasks, List.mem_map, List.mem_filter] at ht1
  obtain ⟨x, ⟨hx, _⟩, rfl⟩ := ht1
  refine ⟨x, hx, (settle_fields env.now x).2.2.2.2.1, fun hc => ?_⟩
  rw [settle_check] at hc
  simp only [Bool.and_eq_true] at hc
  exact hc.1

theorem toggleTask_ok (env : Env) (la : Int) (t0 t1 : Task) (la1 : Int) (cmds : List Cmd)
    (h : toggleTask env la t0 = .ok (t1, la1, cmds)) :
    (t0.Done = false ∧ forceUnique la env.draws = .ok la1 ∧ cmds = [.tick] ∧
        t1 = { t0 with Done := true, IsAnimatingCheck := true, AnimStart := env.now,
                       AnimType := la1 }) ∨
      (t0.Done = true ∧ la1 = la ∧ cmds = [] ∧
        t1 = { t0 with Done := false, IsAnimatingCheck := false }) := by
  unfold toggleTask at h
  cases hd : t0.Done with
  | false =>
    left
    simp only [hd, Bool.not_false, if_true] at h
    split at h
    · simp at h
    · rename_i newAnim hf
      simp only [Except.ok.injEq, Prod.mk.injEq] at h
      obtain ⟨h1, h2, h3⟩ := h
      subst h1 h2 h3
      exact ⟨rfl, hf, rfl, rfl⟩
  | true =>
    right
    simp only [hd, Bool.not_true, Bool.false_eq_true, if_false, Except.ok.injEq,
      Prod.mk.injEq] at h
    obtain ⟨h1, h2, h3⟩ := h
    subst h1 h2 h3
    exact ⟨rfl, rfl, rfl, rfl⟩

theorem toggleCommand_ok (env : Env) (m : model) (r : Result)
    (h : toggleCommand env m = .ok r) :
    (m.tasks.length = 0 ∧ r = ⟨m, [], []⟩) ∨
      ∃ t0 t1 la cmds, 0 < m.tasks.length ∧ taskAt m.tasks m.cursor = .ok t0 ∧
        toggleTask env m.lastAnim t0 = .ok (t1, la, cmds) ∧
        r = ⟨applySort { m with tasks := m.tasks.set m.cursor.toNat t1, lastAnim := la },
             cmds, []⟩ := by
  unfold toggleCommand at h
  split_ifs at h with hlen
  · right
    split at h
    · simp at h
    · rename_i t0 ht0
      split at h
      · simp at h
      · rename_i t1 la cmds htt
        simp only [Except.ok.injEq] at h
        exact ⟨t0, t1, la, cmds, hlen, ht0, htt, h.symm⟩
  · left
    simp only [Except.ok.injEq] at h
    exact ⟨by omega, h.symm⟩

theorem deleteCommand_ok (env : Env) (m : model) (r : Result)
    (h : deleteCommand env m = .ok r) :
    (m.tasks.length = 0 ∧ r = ⟨m, [], []⟩) ∨
      ∃ ts, 0 < m.tasks.length ∧
        modifyAt m.tasks m.cursor
          (fun t => { t with IsDeleting := true, AnimStart := env.now }) = .ok ts ∧
        r = ⟨{ m with tasks := ts }, [.tick], []⟩ := by
  unfold deleteCommand at h
  split_ifs at h with hlen
  · right
    split at h
    · rename_i ts hts
      simp only [Except.ok.injEq] at h
      exact ⟨ts, hlen, hts, h.symm⟩
    · simp at h
  · left
    simp only [Except.ok.injEq] at h
    exact ⟨by omega, h.symm⟩

theorem updateBrowse_calm (env : Env) (k : String) (m : model) (r : Result)
    (hd : k ≠ "d") (hs : k ≠ " ") (he : k ≠ "enter")
    (h : updateBrowse env k m = .ok r) : Calm m r := by
  unfold updateBrowse at h
  by_cases h1 : k = "q" ∨ k = "ctrl+c"
  · rw [if_pos h1] at h
    simp only [Except.ok.injEq] at h; subst h; exact calm_of_tasks_eq _ _ rfl rfl
  rw [if_neg h1] at h
  by_cases h2 : k = "up" ∨ k = "k"
  · rw [if_pos h2] at h
    simp only [Except.ok.injEq] at h; subst h
    exact calm_of_tasks_eq _ _ (by dsimp only; split_ifs <;> rfl) (by dsimp only; split_ifs <;> rfl)
  rw [if_neg h2] at h
  by_cases h3 : k = "down" ∨ k = "j"
  · rw [if_pos h3] at h
    simp only [Except.ok.injEq] at h; subst h
    exact calm_of_tasks_eq _ _ (by dsimp only; split_ifs <;> rfl) (by dsimp only; split_ifs <;> rfl)
  rw [if_neg h3] at h
  by_cases h4 : k = "t"
  · rw [if_pos h4] at h
    dsimp only at h
    split at h
    · simp only [Except.ok.injEq] at h; subst h; exact calm_of_tasks_eq _ _ rfl rfl
    · simp at h
  rw [if_neg h4] at h
  by_cases h5 : k = "s"
  · rw [if_pos h5] at h
    simp only [Except.ok.injEq] at h; subst h
    exact calm_of_perm _ _ rfl (sliceStable_perm _ _)
  rw [if_neg h5] at h
  by_cases h6 : k = "n"
  · rw [if_pos h6] at h
    simp only [Except.ok.injEq] at h; subst h; exact calm_of_tasks_eq _ _ rfl rfl
  rw [if_neg h6] at h
  by_cases h7 : k = "e"
  · rw [if_pos h7] at h
    split_ifs at h
    · split at h
      · simp only [Except.ok.injEq] at h; subst h; exact calm_of_tasks_eq _ _ rfl rfl
      · simp at h
    · simp only [Except.ok.injEq] at h; subst h; exact calm_of_tasks_eq _ _ rfl rfl
  rw [if_neg h7] at h
  by_cases h8 : k = "@"
  · rw [if_pos h8] at h
    split_ifs at h <;>
      (simp only [Except.ok.injEq] at h; subst h; exact calm_of_tasks_eq _ _ rfl rfl)
  rw [if_neg h8, if_neg hd, if_neg (by rintro (hk | hk) <;> contradiction)] at h
  simp only [Except.ok.injEq] at h; subst h; exact calm_of_tasks_eq _ _ rfl rfl

/-! ## The two animation flags -/

theorem exclusive_of_calm (m : model) (r : Result) (h : Calm m r) (hm : Exclusive m.tasks) :
    Exclusive r.next.tasks := by
  intro t1 ht1 ⟨hc, hd⟩
  rcases h.2 t1 ht1 with ⟨h1, _⟩ | ⟨t, ht, h1, h2⟩
  · rw [h1] at hc; exact Bool.false_ne_true hc
  · exact hm t ht ⟨h2 hc, h1 ▸ hd⟩

theorem assignIDs_flags (now : Int) (ts : List Task) :
    ∀ (i : Nat) (t1 : Task), t1 ∈ assignIDs now i ts →
      ∃ t ∈ ts, t1.IsAnimatingCheck = t.IsAnimatingCheck ∧ t1.IsDeleting = t.IsDeleting := by
  induction ts with
  | nil => intro i t1 h; simp [assignIDs] at h
  | cons t ts ih =>
    intro i t1 h
    simp only [assignIDs, List.mem_cons] at h
    rcases h with h | h
    · refine ⟨t, List.mem_cons_self t ts, ?_⟩
      subst h
      split_ifs <;> exact ⟨rfl, rfl⟩
    · obtain ⟨t0, ht0, h0⟩ := ih (i + 1) t1 h
      exact ⟨t0, List.mem_cons_of_mem t ht0, h0⟩

theorem loadData_flags (file : Option AppData) (now : Int) :
    ∀ t ∈ (loadData file now).Tasks, t.IsAnimatingCheck = false ∧ t.IsDeleting = false := by
  cases file with
  | none =>
    have hh : ∀ t ∈ hints, t.IsAnimatingCheck = false ∧ t.IsDeleting = false := by decide
    exact hh
  | some d =>
    intro t ht
    obtain ⟨t0, ht0, h1, h2⟩ := assignIDs_flags now _ 0 t ht
    simp only [List.mem_map] at ht0
    obtain ⟨t00, _, rfl⟩ := ht0
    exact ⟨h1, h2⟩

theorem initialModel_ok (data : AppData) (m : model) (h : initialModel data = .ok m) :
    m.tasks.Perm data.Tasks ∧ m.state = .StateBrowse ∧ m.lastAnim = 0 ∧
      m.sortMode = data.SortMode := by
  unfold initialModel at h
  dsimp only at h
  split at h
  · simp only [Except.ok.injEq] at h
    subst h
    refine ⟨?_, ?_, ?_, ?_⟩
    · refine (sliceStable_perm _ _).trans ?_
      split_ifs <;> exact List.Perm.refl _
    · simp only [applySort]; split_ifs <;> rfl
    · simp only [applySort]; split_ifs <;> rfl
    · simp only [applySort]; split_ifs <;> rfl
  · simp at h

theorem startModel_flags (file : Option AppData) (now : Int) (m : model)
    (h : startModel file now = .ok m) :
    ∀ t ∈ m.tasks, t.IsAnimatingCheck = false ∧ t.IsDeleting = false := by
  intro t ht
  exact loadData_flags file now t ((initialModel_ok _ m h).1.mem_iff.1 ht)

theorem updateBrowse_d (env : Env) (m : model) :
    updateBrowse env "d" m = deleteCommand env m := rfl

theorem updateBrowse_space (env : Env) (m : model) :
    updateBrowse env " " m = toggleCommand env m := rfl

theorem updateBrowse_enter (env : Env) (m : model) :
    updateBrowse env "enter" m = toggleCommand env m := rfl

theorem state_browse (m : model)
    (h : ¬ (m.state = .StateEditing ∨ m.state = .StateCreating ∨ m.state = .StateSettingTime)) :
    m.state = .StateBrowse := by
  cases hs : m.state <;> simp_all

theorem deleteCommand_exclusive (env : Env) (m : model) (r : Result)
    (hg : ∀ t, taskAt m.tasks m.cursor = .ok t → t.IsAnimatingCheck = false)
    (h : deleteCommand env m = .ok r) (hm : Exclusive m.tasks) : Exclusive r.next.tasks := by
  rcases deleteCommand_ok env m r h with ⟨_, rfl⟩ | ⟨ts, _, hts, rfl⟩
  · exact hm
  · intro t1 ht1 ⟨hc, hd⟩
    rcases modifyAt_mem _ _ _ _ hts t1 ht1 with h1 | ⟨t, _, hsel, rfl⟩
    · exact hm t1 h1 ⟨hc, hd⟩
    · have := hg t hsel
      simp only [this] at hc
      exact Bool.false_ne_true hc

theorem toggleCommand_exclusive (env : Env) (m : model) (r : Result)
    (hg : ∀ t, taskAt m.tasks m.cursor = .ok t → t.Done = false → t.IsDeleting = false)
    (h : toggleCommand env m = .ok r) (hm : Exclusive m.tasks) : Exclusive r.next.tasks := by
  rcases toggleCommand_ok env m r h with ⟨_, rfl⟩ | ⟨t0, t1, la, cmds, _, hsel, htt, rfl⟩
  · exact hm
  · intro t ht ⟨hc, hd⟩
    have ht' : t ∈ m.tasks.set m.cursor.toNat t1 :=
      (sliceStable_perm _ _).mem_iff.1 ht
    rcases List.mem_or_eq_of_mem_set ht' with h1 | rfl
    · exact hm t h1 ⟨hc, hd⟩
    · rcases toggleTask_ok env _ _ _ _ _ htt with ⟨hdone, _, _, rfl⟩ | ⟨_, _, _, rfl⟩
      · have hdel := hg t0 hsel hdone
        simp only [hdel] at hd
        exact Bool.false_ne_true hd
      · exact Bool.false_ne_true hc

theorem Update_exclusive (env : Env) (msg : Msg) (m : model) (r : Result)
    (hg : Unhurried m msg) (h : Update env msg m = .ok r) (hm : Exclusive m.tasks) :
    Exclusive r.next.tasks := by
  cases msg with
  | key k =>
    unfold Update at h
    dsimp only at h
    split_ifs at h with hst
    · exact exclusive_of_calm m r (updateInput_calm env k m r h) hm
    · have hb := state_browse m hst
      by_cases hd : k = "d"
      · subst hd
        exact deleteCommand_exclusive env m r (fun t ht => (hg hb t ht).1 rfl) h hm
      by_cases hs : k = " "
      · subst hs
        exact toggleCommand_exclusive env m r (fun t ht => (hg hb t ht).2 (Or.inl rfl)) h hm
      by_cases he : k = "enter"
      · subst he
        exact toggleCommand_exclusive env m r (fun t ht => (hg hb t ht).2 (Or.inr rfl)) h hm
      exact exclusive_of_calm m r (updateBrowse_calm env k m r hd hs he h) hm
  | windowSize w hh =>
    simp only [Update, Except.ok.injEq] at h
    subst h
    exact hm
  | tick => exact exclusive_of_calm m r (updateTick_calm env m r h) hm
  | other =>
    simp only [Update, Except.ok.injEq] at h
    subst h
    exact hm

theorem modifyAt_ok (ts : List Task) (i : Int) (f : Task → Task) (t : Task)
    (h : taskAt ts i = .ok t) : modifyAt ts i f = .ok (ts.set i.toNat (f t)) := by
  unfold modifyAt
  rw [h]

theorem Update_input (env : Env) (k : String) (m : model)
    (h : m.state = .StateEditing ∨ m.state = .StateCreating ∨ m.state = .StateSettingTime) :
    Update env (.key k) m = updateInput env k m := by
  unfold Update
  dsimp only
  rw [if_pos h]

theorem Update_browse (env : Env) (k : String) (m : model) (h : m.state = .StateBrowse) :
    Update env (.key k) m = updateBrowse env k m := by
  unfold Update
  dsimp only
  rw [if_neg (by simp [h])]

theorem deleteCommand_eq (env : Env) (m : model) (t : Task)
    (ht : taskAt m.tasks m.cursor = .ok t) :
    deleteCommand env m
      = .ok ⟨{ m with tasks := m.tasks.set m.cursor.toNat
                        { t with IsDeleting := true, AnimStart := env.now } },
             [.tick], []⟩ := by
  obtain ⟨_, _, hlt, _⟩ := taskAt_mem _ _ _ ht
  unfold deleteCommand
  rw [if_pos (by omega), modifyAt_ok _ _ _ t ht]

theorem toggleCommand_completing (env : Env) (m : model) (t : Task) (a : Int)
    (ht : taskAt m.tasks m.cursor = .ok t) (hd : t.Done = false)
    (ha : forceUnique m.lastAnim env.draws = .ok a) :
    toggleCommand env m
      = .ok ⟨applySort { m with
                tasks := m.tasks.set m.cursor.toNat
                  { t with Done := true, IsAnimatingCheck := true, AnimStart := env.now,
                           AnimType := a }
                lastAnim := a }, [.tick], []⟩ := by
  obtain ⟨_, _, hlt, _⟩ := taskAt_mem _ _ _ ht
  unfold toggleCommand
  rw [if_pos (by omega), ht]
  simp only [toggleTask, hd, Bool.not_false, if_true, ha]

theorem toggleCommand_undoing (env : Env) (m : model) (t : Task)
    (ht : taskAt m.tasks m.cursor = .ok t) (hd : t.Done = true) :
    toggleCommand env m
      = .ok ⟨applySort { m with
                tasks := m.tasks.set m.cursor.toNat
                  { t with Done := false, IsAnimatingCheck := false } }, [], []⟩ := by
  obtain ⟨_, _, hlt, _⟩ := taskAt_mem _ _ _ ht
  unfold toggleCommand
  rw [if_pos (by omega), ht]
  simp only [toggleTask, hd, Bool.not_true, Bool.false_eq_true, if_false]

/-- C1, amended: in every state reachable from a start model by key, resize and
tick events among which the `d` key is never pressed on a check-animating task
and the space and `enter` keys are never pressed on a deleting task that is not
done (a completing toggle), no task has both `IsAnimatingCheck` and
`IsDeleting` set.  What the commands do to the selected task `t`, in every
model in browse state: the `d` key sets `IsDeleting` and `AnimStart` and leaves
`IsAnimatingCheck` and the other fields as they are; the space and `enter`
keys on a task that is not done set `Done`, `IsAnimatingCheck`, `AnimStart`
and `AnimType` and leave `IsDeleting` as it is; on a done task they clear
`Done` and `IsAnimatingCheck` and leave `IsDeleting` as it is; after a toggle
the list is sorted. -/
theorem flags_exclusive_unhurried (m : model) (h : Reach Unhurried m) :
    Exclusive m.tasks ∧
    ∀ (env : Env) (m1 : model) (t : Task), m1.state = .StateBrowse →
      taskAt m1.tasks m1.cursor = .ok t →
      (∃ r, Update env (.key "d") m1 = .ok r ∧
        r.next.tasks = m1.tasks.set m1.cursor.toNat
          { t with IsDeleting := true, AnimStart := env.now }) ∧
      ∀ k, k = " " ∨ k = "enter" →
        (t.Done = false → ∀ a, forceUnique m1.lastAnim env.draws = .ok a →
          ∃ r, Update env (.key k) m1 = .ok r ∧
            r.next.tasks = sliceStable (less m1.sortMode)
              (m1.tasks.set m1.cursor.toNat
                { t with Done := true, IsAnimatingCheck := true, AnimStart := env.now,
                         AnimType := a })) ∧
        (t.Done = true →
          ∃ r, Update env (.key k) m1 = .ok r ∧
            r.next.tasks = sliceStable (less m1.sortMode)
              (m1.tasks.set m1.cursor.toNat
                { t with Done := false, IsAnimatingCheck := false })) := by
  constructor
  · induction h with
    | start file now m hs =>
      intro t ht ⟨hc, _⟩
      rw [(startModel_flags file now m hs t ht).1] at hc
      exact Bool.false_ne_true hc
    | step env msg m r _ hg hu ih => exact Update_exclusive env msg m r hg hu ih
  · intro env m1 t hb ht
    have hdel : Update env (.key "d") m1 = deleteCommand env m1 := by
      rw [Update_browse env "d" m1 hb, updateBrowse_d]
    refine ⟨⟨_, hdel.trans (deleteCommand_eq env m1 t ht), rfl⟩, ?_⟩
    · intro k hk
      have hu : Update env (.key k) m1 = toggleCommand env m1 := by
        rw [Update_browse env k m1 hb]
        rcases hk with rfl | rfl
        · exact updateBrowse_space env m1
        · exact updateBrowse_enter env m1
      constructor
      · intro hd a ha
        exact ⟨_, hu.trans (toggleCommand_completing env m1 t a ht hd ha), rfl⟩
      · intro hd
        exact ⟨_, hu.trans (toggleCommand_undoing env m1 t ht hd), rfl⟩

/-- C1 as stated fails.  From the default start model (the seven onboarding
tasks, cursor on the first), the space key completes the first task and starts
its check animation, and the `d` key pressed next sets `IsDeleting` on the same
task without clearing `IsAnimatingCheck`; likewise `d` followed by the space
key.  Both runs reach a model with a task that has the two flags set. -/
theorem flags_both_set :
    (∃ m, Reach Always m ∧ run [(sampleEnv 5 [3], .key " "), (sampleEnv 6 [], .key "d")]
        (sampleModel hints 0) = .ok m ∧ ¬ Exclusive m.tasks) ∧
    (∃ m, Reach Always m ∧ run [(sampleEnv 5 [], .key "d"), (sampleEnv 6 [3], .key " ")]
        (sampleModel hints 0) = .ok m ∧ ¬ Exclusive m.tasks) := by
  have h0 : Reach Always (sampleModel hints 0) := Reach.start none 0 _ rfl
  constructor
  · have h1 := Reach.step (sampleEnv 5 [3]) (.key " ") _ _ h0 trivial rfl
    have h2 := Reach.step (sampleEnv 6 []) (.key "d") _ _ h1 trivial rfl
    refine ⟨_, h2, rfl, fun hex => ?_⟩
    exact hex ⟨1, "Press 'n' to add a new task", true, 0, false, true, true, 3, 6⟩
      (List.mem_cons_self _ _) ⟨rfl, rfl⟩
  · have h1 := Reach.step (sampleEnv 5 []) (.key "d") _ _ h0 trivial rfl
    have h2 := Reach.step (sampleEnv 6 [3]) (.key " ") _ _ h1 trivial rfl
    refine ⟨_, h2, rfl, fun hex => ?_⟩
    exact hex ⟨1, "Press 'n' to add a new task", true, 0, false, true, true, 3, 6⟩
      (List.mem_cons_self _ _) ⟨rfl, rfl⟩

/-- Witness of the amended C1: from the data file with one done task, the `d`
key on the task, which is not check-animating, and then the space key on it,
which un-completes the deleting task. -/
theorem flags_exclusive_unhurried_witness :
    ∃ m, Reach Unhurried m ∧
      run [(sampleEnv 5 [], .key "d"), (sampleEnv 6 [], .key " ")]
        (sampleModel doneTaskFile.Tasks 0) = .ok m ∧
      m.tasks = [⟨1, "call home", false, 0, false, false, true, 0, 5⟩] ∧
      Exclusive m.tasks := by
  have h0 : Reach Unhurried (sampleModel doneTaskFile.Tasks 0) :=
    Reach.start (some doneTaskFile) 0 _ rfl
  have hg1 : Unhurried (sampleModel doneTaskFile.Tasks 0) (.key "d") := by
    intro _ t ht
    have h1 : taskAt (sampleModel doneTaskFile.Tasks 0).tasks
        (sampleModel doneTaskFile.Tasks 0).cursor
        = .ok ⟨1, "call home", true, 0, false, false, false, 0, 0⟩ := rfl
    rw [h1] at ht
    obtain rfl := Except.ok.inj ht
    exact ⟨fun _ => rfl, fun _ hd => absurd hd (by decide)⟩
  have h1 := Reach.step (sampleEnv 5 []) (.key "d") _ _ h0 hg1 rfl
  have hg2 : Unhurried
      (sampleModel [⟨1, "call home", true, 0, false, false, true, 0, 5⟩] 0) (.key " ") := by
    intro _ t ht
    have h2 : taskAt (sampleModel [⟨1, "call home", true, 0, false, false, true, 0, 5⟩] 0).tasks
        (sampleModel [⟨1, "call home", true, 0, false, false, true, 0, 5⟩] 0).cursor
        = .ok ⟨1, "call home", true, 0, false, false, true, 0, 5⟩ := rfl
    rw [h2] at ht
    obtain rfl := Except.ok.inj ht
    exact ⟨fun hk => absurd hk (by decide), fun _ hd => absurd hd (by decide)⟩
  have h2 := Reach.step (sampleEnv 6 []) (.key " ") _ _ h1 hg2 rfl
  exact ⟨_, h2, rfl, rfl, (flags_exclusive_unhurried _ h2).1⟩

/-- C2: the code at the failing input.  From the default start model the `n`
key moves the cursor to the append position 7; `esc`, or `enter` on the empty
buffer, returns to browse state and leaves the cursor there.  The model reached
is in browse state with 7 tasks and cursor 7, and on it the `d`, `e` and space
keys fail with an index out of range, as does `enter` after `@`. -/
theorem cursor_past_end_after_cancel :
    (∃ m, Reach Always m ∧
      run [(sampleEnv 5 [], .key "n"), (sampleEnv 6 [], .key "esc")] (sampleModel hints 0) = .ok m ∧
      m.state = .StateBrowse ∧ m.tasks.length = 7 ∧ m.cursor = 7 ∧
      Update (sampleEnv 7 [3]) (.key "d") m = .error .indexOutOfRange ∧
      Update (sampleEnv 7 [3]) (.key "e") m = .error .indexOutOfRange ∧
      Update (sampleEnv 7 [3]) (.key " ") m = .error .indexOutOfRange ∧
      run [(sampleEnv 7 [], .key "@"), (sampleEnv 8 [], .key "enter")] m
        = .error .indexOutOfRange) ∧
    (∃ m, Reach Always m ∧
      run [(sampleEnv 5 [], .key "n"), (sampleEnv 6 [], .key "enter")] (sampleModel hints 0) = .ok m ∧
      m.state = .StateBrowse ∧ m.tasks.length = 7 ∧ m.cursor = 7 ∧
      Update (sampleEnv 7 [3]) (.key "d") m = .error .indexOutOfRange) := by
  have h0 : Reach Always (sampleModel hints 0) := Reach.start none 0 _ rfl
  have h1 := Reach.step (sampleEnv 5 []) (.key "n") _ _ h0 trivial rfl
  constructor
  · have h2 := Reach.step (sampleEnv 6 []) (.key "esc") _ _ h1 trivial rfl
    exact ⟨_, h2, rfl, rfl, rfl, rfl, rfl, rfl, rfl, rfl⟩
  · have h2 := Reach.step (sampleEnv 6 []) (.key "enter") _ _ h1 trivial rfl
    exact ⟨_, h2, rfl, rfl, rfl, rfl, rfl⟩

/-! ## The selections of a run -/

theorem applySort_lastAnim (m : model) : (applySort m).lastAnim = m.lastAnim := rfl

theorem completion_toggle (env : Env) (k : String) (m : model) (r : Result)
    (hb : m.state = .StateBrowse) (hk : k = " " ∨ k = "enter")
    (h : toggleCommand env m = .ok r) :
    r.next.lastAnim = (completion env (.key k) m).getD m.lastAnim := by
  unfold completion
  rcases toggleCommand_ok env m r h with ⟨hlen, rfl⟩ | ⟨t0, t1, la, cmds, hlen, hsel, htt, rfl⟩
  · simp [hlen]
  · simp only [hb, hk, hlen, gt_iff_lt, and_self, if_true, hsel, htt]
    rcases toggleTask_ok env _ _ _ _ _ htt with ⟨hd, _, _, rfl⟩ | ⟨hd, rfl, _, _⟩
    · simp [hd, applySort_lastAnim]
    · simp [hd, applySort_lastAnim]

theorem completion_none_of_key (env : Env) (k : String) (m : model)
    (h : m.state ≠ .StateBrowse ∨ (k ≠ " " ∧ k ≠ "enter")) :
    completion env (.key k) m = none := by
  unfold completion
  rcases h with h | ⟨h1, h2⟩
  · simp [h]
  · simp [h1, h2]

theorem Update_lastAnim (env : Env) (msg : Msg) (m : model) (r : Result)
    (h : Update env msg m = .ok r) :
    r.next.lastAnim = (completion env msg m).getD m.lastAnim := by
  cases msg with
  | key k =>
    unfold Update at h
    dsimp only at h
    split_ifs at h with hst
    · have hnb : m.state ≠ .StateBrowse := by
        rcases hst with h1 | h1 | h1 <;> simp [h1]
      rw [completion_none_of_key env k m (Or.inl hnb)]
      exact (updateInput_calm env k m r h).1
    · have hb := state_browse m hst
      by_cases hs : k = " "
      · subst hs
        exact completion_toggle env " " m r hb (Or.inl rfl) h
      by_cases he : k = "enter"
      · subst he
        exact completion_toggle env "enter" m r hb (Or.inr rfl) h
      rw [completion_none_of_key env k m (Or.inr ⟨hs, he⟩)]
      by_cases hd : k = "d"
      · subst hd
        rcases deleteCommand_ok env m r h with ⟨_, rfl⟩ | ⟨ts, _, _, rfl⟩ <;> rfl
      · exact (updateBrowse_calm env k m r hd hs he h).1
  | windowSize w hh =>
    simp only [Update, Except.ok.injEq] at h
    subst h
    rfl
  | tick => exact (updateTick_calm env m r h).1
  | other =>
    simp only [Update, Except.ok.injEq] at h
    subst h
    rfl

theorem recorded_chain (events : List (Env × Msg)) :
    ∀ m : model, List.Chain (fun a b => a ≠ b) m.lastAnim (recorded events m) := by
  induction events with
  | nil => intro m; simp [recorded]
  | cons e events ih =>
    intro m
    obtain ⟨env, msg⟩ := e
    unfold recorded
    cases hu : Update env msg m with
    | error f => simp
    | ok r =>
      have hla := Update_lastAnim env msg m r hu
      cases hc : completion env msg m with
      | none =>
        rw [hc] at hla
        simp only [Option.getD_none] at hla
        simp only [Option.toList_none, List.nil_append]
        exact hla ▸ ih r.next
      | some a =>
        rw [hc] at hla
        simp only [Option.getD_some] at hla
        simp only [Option.toList_some, List.singleton_append]
        exact List.Chain.cons (Ne.symm (completion_spec env msg m _ hc).1) (hla ▸ ih r.next)

theorem recorded_mem_draws (events : List (Env × Msg)) :
    ∀ (m : model) (a : Int), a ∈ recorded events m →
      ∃ e ∈ events, ∃ d ∈ e.1.draws, a = (d : Int) := by
  induction events with
  | nil => intro m a h; simp [recorded] at h
  | cons e events ih =>
    intro m a h
    obtain ⟨env, msg⟩ := e
    unfold recorded at h
    cases hu : Update env msg m with
    | error f => simp [hu] at h
    | ok r =>
      simp only [hu, List.mem_append] at h
      rcases h with h | h
      · cases hc : completion env msg m with
        | none => simp [hc] at h
        | some b =>
          simp only [hc, Option.toList_some, List.mem_singleton] at h
          subst h
          obtain ⟨_, d, hd, rfl⟩ := completion_spec env msg m _ hc
          exact ⟨(env, msg), List.mem_cons_self _ _, d, hd, rfl⟩
      · obtain ⟨e, he, hd⟩ := ih r.next a h
        exact ⟨e, List.mem_cons_of_mem _ he, hd⟩

/-- The identifier `completion` reports is the one `Update` writes: the new
model holds a done, check-animating task with that `AnimType`, and `lastAnim`
is that identifier. -/
theorem completion_written (env : Env) (msg : Msg) (m : model) (r : Result) (a : Int)
    (hc : completion env msg m = some a) (hu : Update env msg m = .ok r) :
    r.next.lastAnim = a ∧ r.cmds = [.tick] ∧
      ∃ t ∈ r.next.tasks, t.AnimType = a ∧ t.Done = true ∧ t.IsAnimatingCheck = true ∧
        t.AnimStart = env.now := by
  have hla := Update_lastAnim env msg m r hu
  rw [hc] at hla
  refine ⟨hla, ?_⟩
  cases msg with
  | key k =>
    have hbk : m.state = .StateBrowse ∧ (k = " " ∨ k = "enter") := by
      by_contra hcon
      have : m.state ≠ .StateBrowse ∨ (k ≠ " " ∧ k ≠ "enter") := by
        by_cases hb : m.state = .StateBrowse
        · right
          constructor <;> intro hk <;> exact hcon ⟨hb, by simp [hk]⟩
        · exact Or.inl hb
      rw [completion_none_of_key env k m this] at hc
      simp at hc
    obtain ⟨hb, hk⟩ := hbk
    have htog : toggleCommand env m = .ok r := by
      have hst : ¬ (m.state = .StateEditing ∨ m.state = .StateCreating ∨
          m.state = .StateSettingTime) := by simp [hb]
      unfold Update at hu
      dsimp only at hu
      rw [if_neg hst] at hu
      rcases hk with rfl | rfl
      · exact hu
      · exact hu
    unfold completion at hc
    rcases toggleCommand_ok env m r htog with ⟨hlen, rfl⟩ | ⟨t0, t1, la, cmds, hlen, hsel, htt, rfl⟩
    · simp [hlen] at hc
    · simp only [hb, hk, hlen, gt_iff_lt, and_self, if_true, hsel, htt] at hc
      rcases toggleTask_ok env _ _ _ _ _ htt with ⟨hd, _, hcm, rfl⟩ | ⟨hd, rfl, _, _⟩
      · simp only [hd, if_true, Option.some.injEq] at hc
        subst hc
        exact ⟨hcm, _, (sliceStable_perm _ _).mem_iff.2
          (List.mem_set _ _ (taskAt_mem _ _ _ hsel).2.2.1 _), rfl, rfl, rfl, rfl⟩
      · simp [hd] at hc
  | windowSize w hh => simp [completion] at hc
  | tick => simp [completion] at hc
  | other => simp [completion] at hc

/-- C9: along every run (any sequence of events, the toggle-complete commands
among them) and for every outcome of the draws within the range of
`rand.Intn(AnimCount)`, each effect identifier recorded by a toggle that sets
`Done = true` lies in `[0, 30)`, the first differs from the `lastAnim` the run
starts with, and each later one differs from the one recorded before it. -/
theorem selections_differ (events : List (Env × Msg)) (m : model)
    (h : ∀ e ∈ events, ∀ d ∈ e.1.draws, (d : Int) < AnimCount) :
    (∀ a ∈ recorded events m, 0 ≤ a ∧ a < 30) ∧
      List.Chain (fun a b => a ≠ b) m.lastAnim (recorded events m) := by
  refine ⟨fun a ha => ?_, recorded_chain events m⟩
  obtain ⟨e, he, d, hd, rfl⟩ := recorded_mem_draws events m a ha
  exact ⟨Int.ofNat_nonneg d, h e he d hd⟩

/-- Witness of C9: on the sample run the draws 0 and 3, then 3, 3 and 7 record
the identifiers 3 and 7. -/
theorem selections_differ_witness :
    recorded sampleRun (sampleModel hints 0) = [3, 7] ∧
      ((∀ a ∈ recorded sampleRun (sampleModel hints 0), 0 ≤ a ∧ a < 30) ∧
        List.Chain (fun a b => a ≠ b) (sampleModel hints 0).lastAnim
          (recorded sampleRun (sampleModel hints 0))) :=
  ⟨rfl, selections_differ sampleRun (sampleModel hints 0) (by
    intro e he d hd
    simp only [sampleRun, sampleEnv, List.mem_cons, List.mem_singleton, List.not_mem_nil,
      or_false] at he
    rcases he with rfl | rfl | rfl <;> simp at hd <;> rcases hd with rfl | rfl <;> decide)⟩

/-- C10: the code at the failing input.  Every start model has
`lastAnim = 0 = AnimSparkle`, the selection never returns the `lastAnim` it is
given, so the first identifier a run records is never `AnimSparkle`; with the
draws 0, 0, 5 the first toggle-to-complete on the default start model records
5. -/
theorem first_selection_never_sparkle :
    (∀ file now m, startModel file now = .ok m → m.lastAnim = AnimSparkle) ∧
    (∀ lastAnim draws, forceUnique lastAnim draws ≠ .ok lastAnim) ∧
    (∀ file now m events, startModel file now = .ok m →
      (recorded events m).head? ≠ some AnimSparkle) ∧
    recorded [(sampleEnv 5 [0, 0, 5], .key " ")] (sampleModel hints 0) = [5] := by
  have h1 : ∀ file now m, startModel file now = .ok m → m.lastAnim = AnimSparkle :=
    fun file now m h => (initialModel_ok _ m h).2.2.1
  refine ⟨h1, ?_, ?_, rfl⟩
  · intro la ds h
    exact (forceUnique_ok la ds la h).1 rfl
  · intro file now m events hs hhead
    have hch := recorded_chain events m
    rw [h1 file now m hs] at hch
    cases hr : recorded events m with
    | nil => simp [hr] at hhead
    | cons a rest =>
      rw [hr] at hch hhead
      simp only [List.head?_cons, Option.some.injEq] at hhead
      exact (List.chain_cons.1 hch).1 hhead.symm

/-! ## Leaving the text-entry states -/

theorem commitDeadline_ok (env : Env) (m : model) (t : Task)
    (ht : taskAt m.tasks m.cursor = .ok t) :
    commitDeadline env m
      = .ok ⟨{ m with
                tasks := m.tasks.set m.cursor.toNat
                  (if m.textInput.value ≠ "" then
                    match env.parseDuration m.textInput.value with
                    | some dur => { t with DueAt := env.now + dur, Notified := false }
                    | none => { t with DueAt := 0 }
                   else { t with DueAt := 0 }),
                state := .StateBrowse, textInput := m.textInput.Blur }, [.tick], []⟩ := by
  unfold commitDeadline
  dsimp only
  by_cases hv : m.textInput.value = ""
  · simp [hv, modifyAt_ok _ _ _ _ ht]
  · cases hp : env.parseDuration m.textInput.value <;>
      simp [hv, hp, modifyAt_ok _ _ _ _ ht]

/-- C17: the `enter` key in `StateSettingTime` with a valid cursor on the task
`t`.  The event succeeds and the state becomes browse.  When the buffer is not
empty and parses as the duration `d`, the selected task becomes `t` with
`DueAt = now + d` and `Notified = false`; when the buffer is empty or does not
parse, it becomes `t` with `DueAt` unset (zero) and `Notified` as it was.  In
both cases every other field of the task, every other task, the length of the
list, the cursor, the sort mode, the theme index and `lastAnim` are
unchanged. -/
theorem deadline_commit (env : Env) (m : model) (t : Task)
    (hs : m.state = .StateSettingTime) (ht : taskAt m.tasks m.cursor = .ok t) :
    ∃ r, Update env (.key "enter") m = .ok r ∧ r.next.state = .StateBrowse ∧
      (∀ d, m.textInput.value ≠ "" → env.parseDuration m.textInput.value = some d →
        r.next.tasks = m.tasks.set m.cursor.toNat
          { t with DueAt := env.now + d, Notified := false }) ∧
      ((m.textInput.value = "" ∨ env.parseDuration m.textInput.value = none) →
        r.next.tasks = m.tasks.set m.cursor.toNat { t with DueAt := 0 }) ∧
      r.next.tasks.length = m.tasks.length ∧
      (∀ j, j ≠ m.cursor.toNat → r.next.tasks[j]? = m.tasks[j]?) ∧
      r.next.cursor = m.cursor ∧ r.next.sortMode = m.sortMode ∧
      r.next.themeIndex = m.themeIndex ∧ r.next.lastAnim = m.lastAnim := by
  have hu : Update env (.key "enter") m = commitDeadline env m := by
    rw [Update_input env "enter" m (Or.inr (Or.inr hs))]
    unfold updateInput
    rw [if_pos rfl, if_pos hs]
  refine ⟨_, hu.trans (commitDeadline_ok env m t ht), rfl, ?_, ?_, ?_, ?_, rfl, rfl, rfl, rfl⟩
  · intro d hv hp
    simp [hv, hp]
  · intro h
    rcases h with hv | hp
    · simp [hv]
    · simp [hp]
  · simp
  · intro j hj
    simp only [List.getElem?_set]
    rw [if_neg (Ne.symm hj)]

/-- Witness of C17: the first onboarding task in `StateSettingTime` with the
buffer `10m`, parsed as 600 seconds. -/
theorem deadline_commit_witness :
    ∃ r, Update ⟨5, [], fun _ => some 600000000000, fun ti _ => ti⟩ (.key "enter")
        { sampleModel hints 0 with state := .StateSettingTime,
                                   textInput := newTextInput.SetValue "10m" } = .ok r ∧
      r.next.tasks[0]? = some ⟨1, "Press 'n' to add a new task", false, 600000000005, false,
        false, false, 0, 0⟩ := by
  obtain ⟨r, hr, _, h1, _⟩ := deadline_commit ⟨5, [], fun _ => some 600000000000, fun ti _ => ti⟩
    { sampleModel hints 0 with state := .StateSettingTime,
                               textInput := newTextInput.SetValue "10m" }
    ⟨1, "Press 'n' to add a new task", false, 0, false, false, false, 0, 0⟩ rfl rfl
  refine ⟨r, hr, ?_⟩
  rw [h1 600000000000 (by decide) rfl]
  rfl

/-- C18: cancelling a text entry.  In any of the three text-entry states `esc`
returns the model with only the state set to browse and the text input
blurred, whatever the buffer holds; in `StateCreating` and `StateEditing` the
`enter` key on an empty buffer does the same.  The task list (every task and
the order), the sort mode, the theme index and everything else are as before,
and no command is issued. -/
theorem cancel_keeps_store (env : Env) (m : model)
    (h : m.state = .StateEditing ∨ m.state = .StateCreating ∨ m.state = .StateSettingTime) :
    Update env (.key "esc") m
        = .ok ⟨{ m with state := .StateBrowse, textInput := m.textInput.Blur }, [], []⟩ ∧
      (m.state ≠ .StateSettingTime → m.textInput.value = "" →
        Update env (.key "enter") m
          = .ok ⟨{ m with state := .StateBrowse, textInput := m.textInput.Blur }, [], []⟩) := by
  constructor
  · rw [Update_input env "esc" m h]
    unfold updateInput
    rw [if_neg (by decide), if_pos rfl]
  · intro hs hv
    rw [Update_input env "enter" m h]
    unfold updateInput
    rw [if_pos rfl, if_neg hs, if_pos hv]

/-- Witness of C18: the default start model after the `n` key. -/
theorem cancel_keeps_store_witness :
    Update (sampleEnv 6 []) (.key "esc")
        { sampleModel hints 7 with state := .StateCreating }
      = .ok ⟨{ sampleModel hints 7 with state := .StateBrowse }, [], []⟩ ∧
    Update (sampleEnv 6 []) (.key "enter")
        { sampleModel hints 7 with state := .StateCreating }
      = .ok ⟨{ sampleModel hints 7 with state := .StateBrowse }, [], []⟩ :=
  ⟨(cancel_keeps_store (sampleEnv 6 []) { sampleModel hints 7 with state := .StateCreating }
      (Or.inr (Or.inl rfl))).1,
   (cancel_keeps_store (sampleEnv 6 []) { sampleModel hints 7 with state := .StateCreating }
      (Or.inr (Or.inl rfl))).2 (by decide) rfl⟩

/-! ## Toggling twice -/

theorem perm_cons_eraseIdx (l : List Task) :
    ∀ (i : Nat) (a : Task), l[i]? = some a → l.Perm (a :: l.eraseIdx i) := by
  induction l with
  | nil => intro i a h; simp at h
  | cons b l ih =>
    intro i a h
    cases i with
    | zero =>
      simp only [List.getElem?_cons_zero, Option.some.injEq] at h
      subst h
      exact List.Perm.refl _
    | succ i =>
      simp only [List.getElem?_cons_succ] at h
      simp only [List.eraseIdx_cons_succ]
      exact ((ih i a h).cons b).trans (List.Perm.swap a b _)

theorem set_perm_cons_eraseIdx (l : List Task) :
    ∀ (i : Nat) (a : Task), i < l.length → (l.set i a).Perm (a :: l.eraseIdx i) := by
  induction l with
  | nil => intro i a h; simp at h
  | cons b l ih =>
    intro i a h
    cases i with
    | zero => exact List.Perm.refl _
    | succ i =>
      simp only [List.set_cons_succ, List.eraseIdx_cons_succ]
      exact ((ih i a (by simpa using h)).cons b).trans (List.Perm.swap a b _)

/-- Replacing, in two lists that are permutations of each other, one
occurrence of the same element by `b` gives permutations of each other. -/
theorem set_perm_set (l1 l2 : List Task) (i j : Nat) (a b : Task) (hp : l1.Perm l2)
    (hi : l1[i]? = some a) (hj : l2[j]? = some a) : (l1.set i b).Perm (l2.set j b) := by
  have hi' : i < l1.length := (List.getElem?_eq_some_iff.1 hi).1
  have hj' : j < l2.length := (List.getElem?_eq_some_iff.1 hj).1
  have h1 := perm_cons_eraseIdx l1 i a hi
  have h2 := perm_cons_eraseIdx l2 j a hj
  have h3 : (l1.eraseIdx i).Perm (l2.eraseIdx j) :=
    (List.perm_cons a).1 ((h1.symm.trans hp).trans h2)
  exact (set_perm_cons_eraseIdx l1 i b hi').trans
    ((h3.cons b).trans (set_perm_cons_eraseIdx l2 j b hj').symm)

theorem getElem?_set_self_of_lt (l : List Task) (i : Nat) (a : Task) (h : i < l.length) :
    (l.set i a)[i]? = some a := by
  simp [List.getElem?_set, h]

/-- C19, amended: in browse state with the cursor on a task `T` that is not
done, two toggle-complete commands in a row, when the re-sorting after the
first leaves the completed `T` at the cursor position, leave the store a
permutation of the original one with `T` replaced by `T` with `Done = false`
and `IsAnimatingCheck = false` (its `AnimStart` and `AnimType` are those the
first toggle wrote); the second toggle schedules no tick. -/
theorem toggle_twice_restores (env1 env2 : Env) (m : model) (T : Task) (r1 : Result)
    (hb : m.state = .StateBrowse) (hT : taskAt m.tasks m.cursor = .ok T)
    (hd : T.Done = false) (h1 : Update env1 (.key " ") m = .ok r1)
    (hstay : taskAt r1.next.tasks r1.next.cursor
      = .ok (completed T env1.now r1.next.lastAnim)) :
    ∃ r2, Update env2 (.key " ") r1.next = .ok r2 ∧ r2.cmds = [] ∧
      r2.next.tasks.Perm (m.tasks.set m.cursor.toNat
        { completed T env1.now r1.next.lastAnim with
            Done := false, IsAnimatingCheck := false }) := by
  rw [Update_browse env1 " " m hb] at h1
  have h1' : toggleCommand env1 m = .ok r1 := h1
  obtain ⟨_, _, hlt, hget⟩ := taskAt_mem _ _ _ hT
  obtain ⟨_, _, hlt1, hget1⟩ := taskAt_mem _ _ _ hstay
  have hb1 : r1.next.state = .StateBrowse := by
    rcases toggleCommand_ok env1 m r1 h1' with ⟨_, rfl⟩ | ⟨_, _, _, _, _, _, _, rfl⟩
    · exact hb
    · exact hb
  have hp1 : r1.next.tasks.Perm
      (m.tasks.set m.cursor.toNat (completed T env1.now r1.next.lastAnim)) := by
    rcases toggleCommand_ok env1 m r1 h1' with ⟨hlen, _⟩ | ⟨t0, t1, la, cmds, _, hsel, htt, rfl⟩
    · omega
    · rw [hT] at hsel
      obtain rfl := Except.ok.inj hsel
      rcases toggleTask_ok env1 _ _ _ _ _ htt with ⟨_, _, _, rfl⟩ | ⟨hd1, _, _, _⟩
      · exact sliceStable_perm _ _
      · rw [hd] at hd1
        exact absurd hd1 (by decide)
  have h2 : toggleCommand env2 r1.next
      = .ok ⟨applySort { r1.next with
                tasks := r1.next.tasks.set r1.next.cursor.toNat
                  { completed T env1.now r1.next.lastAnim with
                      Done := false, IsAnimatingCheck := false } }, [], []⟩ := by
    unfold toggleCommand
    rw [if_pos (Nat.lt_of_le_of_lt (Nat.zero_le _) hlt1), hstay]
    simp only [toggleTask, completed, Bool.not_true, Bool.false_eq_true, if_false]
  refine ⟨_, (Update_browse env2 " " _ hb1).trans h2, rfl, ?_⟩
  refine (sliceStable_perm _ _).trans ?_
  have h3 := set_perm_set r1.next.tasks
    (m.tasks.set m.cursor.toNat (completed T env1.now r1.next.lastAnim))
    r1.next.cursor.toNat m.cursor.toNat (completed T env1.now r1.next.lastAnim)
    { completed T env1.now r1.next.lastAnim with Done := false, IsAnimatingCheck := false }
    hp1 hget1 (getElem?_set_self_of_lt _ _ _ hlt)
  rw [List.set_set] at h3
  exact h3

/-- Witness of the amended C19: sorting off, the cursor on the first
onboarding task, the draw 3. -/
theorem toggle_twice_restores_witness :
    ∃ r2, Update (sampleEnv 6 []) (.key " ")
        { sampleModel (completed firstHint 5 3 :: hints.tail) 0 with lastAnim := 3 } = .ok r2 ∧
      r2.cmds = [] ∧
      r2.next.tasks.Perm ((sampleModel hints 0).tasks.set (sampleModel hints 0).cursor.toNat
        { completed firstHint 5 3 with Done := false, IsAnimatingCheck := false }) :=
  toggle_twice_restores (sampleEnv 5 [3]) (sampleEnv 6 []) (sampleModel hints 0) firstHint
    ⟨{ sampleModel (completed firstHint 5 3 :: hints.tail) 0 with lastAnim := 3 }, [.tick], []⟩
    rfl rfl rfl rfl rfl

/-- C19 as stated fails when the re-sort moves the task.  From the default
start model the `s` key selects incomplete-first order; the space key then
completes the first task, which the re-sort moves behind the tasks that are not
done, and the second space key completes the task that has taken its place.
After the two toggles the first onboarding task (`ID` 1) is done and
check-animating. -/
theorem toggle_twice_other_task :
    run [(sampleEnv 4 [], .key "s")] (sampleModel hints 0) = .ok sortedHints ∧
      taskAt sortedHints.tasks sortedHints.cursor = .ok firstHint ∧
      ∃ m, run [(sampleEnv 5 [3], .key " "), (sampleEnv 6 [7], .key " ")] sortedHints = .ok m ∧
        m.tasks.map (fun t => (t.ID, t.Done, t.IsAnimatingCheck))
          = [(3, false, false), (5, false, false), (6, false, false), (7, false, false),
             (1, true, true), (2, true, true), (4, true, false)] :=
  ⟨rfl, rfl, _, rfl, rfl⟩

/-! ## Editing across ticks -/

/-- C20: the code at two failing inputs.  (1) From the default start model:
`d` on the first task, `down`, `e` on the second task `T`, a tick 300 ms later
that removes the first task, a key that makes the buffer `renamed`, `enter`.
The tick leaves the cursor at position 1, which now holds the third task: `T`
keeps its title and the third task is renamed.  (2) From a data file with one
task: `d`, `e`, a tick 300 ms later that removes the task, `enter`: the store
is empty and the commit fails with an index out of range. -/
theorem edit_commits_elsewhere :
    (∃ m, Reach Always m ∧
      run [(sampleEnv 0 [], .key "d"), (sampleEnv 1 [], .key "down"),
           (sampleEnv 2 [], .key "e"), (sampleEnv 300000002 [], .tick),
           (typingEnv 300000003 "renamed", .key "x"),
           (sampleEnv 300000004 [], .key "enter")] (sampleModel hints 0) = .ok m ∧
      m.tasks.map (fun t => (t.ID, t.Title))
        = [(2, "Press 'e' to edit the selected task"), (3, "renamed"),
           (4, "Press 'space' to check/uncheck"), (5, "Press '@' to set a timer notification"),
           (6, "Press 's' to cycle sort modes"), (7, "Press 't' to change the color theme")]) ∧
    (∃ m, startModel (some oneTaskFile) 0 = .ok m ∧ Reach Always m ∧
      run [(sampleEnv 0 [], .key "d"), (sampleEnv 1 [], .key "e"),
           (sampleEnv 300000002 [], .tick)] m
        = .ok ⟨[], .StateEditing, SortOff, 0, 0, 0, 0, 0,
               ⟨"call home", "", 50, 256, "", true, 9⟩⟩ ∧
      run [(sampleEnv 0 [], .key "d"), (sampleEnv 1 [], .key "e"),
           (sampleEnv 300000002 [], .tick), (sampleEnv 300000003 [], .key "enter")] m
        = .error .indexOutOfRange) := by
  constructor
  · have h0 : Reach Always (sampleModel hints 0) := Reach.start none 0 _ rfl
    have h1 := Reach.step (sampleEnv 0 []) (.key "d") _ _ h0 trivial rfl
    have h2 := Reach.step (sampleEnv 1 []) (.key "down") _ _ h1 trivial rfl
    have h3 := Reach.step (sampleEnv 2 []) (.key "e") _ _ h2 trivial rfl
    have h4 := Reach.step (sampleEnv 300000002 []) .tick _ _ h3 trivial rfl
    have h5 := Reach.step (typingEnv 300000003 "renamed") (.key "x") _ _ h4 trivial rfl
    have h6 := Reach.step (sampleEnv 300000004 []) (.key "enter") _ _ h5 trivial rfl
    exact ⟨_, h6, rfl, rfl⟩
  · exact ⟨_, rfl, Reach.start (some oneTaskFile) 0 _ rfl, rfl, rfl⟩

/-! ## Notifications of a tick -/

theorem alertsOf_eq (now : Int) (t : Task) :
    alertsOf now t = if due now t then [t.Title] else [] := by
  by_cases h1 : t.IsAnimatingCheck = true <;>
  by_cases h2 : now - t.AnimStart > checkAnimDuration <;>
  by_cases h3 : t.Done = true <;> by_cases h4 : t.DueAt = 0 <;>
  by_cases h5 : now > t.DueAt <;> by_cases h6 : t.Notified = true <;>
  simp [alertsOf, due, timerStep, checkStep, h1, h2, h3, h4, h5, h6]

theorem settle_notified (now : Int) (t : Task) :
    (settle now t).Notified = (t.Notified || due now t) := by
  by_cases h1 : t.IsAnimatingCheck = true <;>
  by_cases h2 : now - t.AnimStart > checkAnimDuration <;>
  by_cases h3 : t.Done = true <;> by_cases h4 : t.DueAt = 0 <;>
  by_cases h5 : now > t.DueAt <;> by_cases h6 : t.Notified = true <;>
  simp [settle, due, timerStep, checkStep, h1, h2, h3, h4, h5, h6]

theorem sweep_alerts_behind (now : Int) (rp : List Task) :
    ∀ s : TickState, s.tasks ≠ [] →
      (sweep now rp s).alerts
        = s.alerts ++ (rp.filter (fun x => !expired now x)).flatMap (alertsOf now) := by
  induction rp with
  | nil => intro s _; simp [sweep]
  | cons x rp ih =>
    intro s hs
    simp only [sweep]
    cases hx : expired now x with
    | false =>
      rw [ih _ (by simp [pass, hx])]
      simp [pass, hx, List.filter_cons, List.flatMap_cons]
    | true =>
      obtain ⟨y, suf, hys⟩ := List.exists_cons_of_ne_nil hs
      rw [ih _ (by simp [pass, hx, hys])]
      simp [pass, hx, hys, List.filter_cons]

theorem sweep_alerts (now : Int) (rp : List Task) :
    ∀ s : TickState, s.tasks = [] →
      (sweep now rp s).alerts
        = s.alerts ++ (rp.takeWhile (expired now)).flatMap (alertsOf now)
            ++ (rp.filter (fun x => !expired now x)).flatMap (alertsOf now) := by
  induction rp with
  | nil => intro s _; simp [sweep]
  | cons x rp ih =>
    intro s hs
    simp only [sweep]
    cases hx : expired now x with
    | false =>
      rw [sweep_alerts_behind now rp _ (by simp [pass, hx])]
      simp [pass, hx, List.filter_cons, List.flatMap_cons, List.takeWhile_cons]
    | true =>
      rw [ih _ (by simp [pass, hx, hs])]
      simp [pass, hx, hs, List.filter_cons, List.flatMap_cons, List.takeWhile_cons]

theorem sweep_alerts_none (now : Int) (rp : List Task) :
    ∀ s : TickState, (∀ x ∈ rp, alertsOf now x = []) → (sweep now rp s).alerts = s.alerts := by
  induction rp with
  | nil => intro s _; rfl
  | cons x rp ih =>
    intro s h
    simp only [sweep]
    rw [ih _ (fun y hy => h y (List.mem_cons_of_mem x hy))]
    have hx := h x (List.mem_cons_self x rp)
    cases he : expired now x with
    | false => simp [pass, he, hx]
    | true => cases hs : s.tasks <;> simp [pass, he, hs, hx]

theorem flatMap_alertsOf (now : Int) (l : List Task) :
    l.flatMap (alertsOf now) = (l.filter (due now)).map Task.Title := by
  induction l with
  | nil => rfl
  | cons x l ih =>
    rw [List.flatMap_cons, ih, alertsOf_eq]
    cases hd : due now x <;> simp [List.filter_cons, hd]

theorem takeWhile_expired_nil (now : Int) (l : List Task)
    (h : ∀ t, l.getLast? = some t → expired now t = false) :
    l.reverse.takeWhile (expired now) = [] := by
  cases hr : l.reverse with
  | nil => rfl
  | cons x rest =>
    have hl : l.getLast? = some x := by
      rw [List.getLast?_eq_head?_reverse, hr]
      rfl
    simp [List.takeWhile_cons, h x hl]

/-- C16, amended: a tick never fails.  The tasks it does not remove are the
tasks that are not expired, in order.  The notifier calls of the tick are, in
call order: one call for each task of the run of removed tasks at the end of
the store that is due (not done, `DueAt` set, `now` after `DueAt`,
`Notified = false`), last task first, and then exactly one call for each task
the tick does not remove that is due, last task first; there is no other call.
When the last task of the store is not removed, the calls are those for the
tasks that stay alone.  Every task that stays has `Notified = true` afterwards
exactly if it had it before or was notified.  A second tick on the resulting
store, at any time `now2` such that no task has its deadline in `[now, now2)`,
in particular at the same time, invokes the notifier zero times. -/
theorem tick_notifies (env : Env) (m : model) :
    ∃ r, Update env .tick m = .ok r ∧
      r.next.tasks = (m.tasks.filter (fun t => !expired env.now t)).map (settle env.now) ∧
      r.alerts
        = ((m.tasks.reverse.takeWhile (expired env.now)).filter (due env.now)).map Task.Title
          ++ ((m.tasks.filter (fun t => !expired env.now t)).reverse.filter (due env.now)).map
              Task.Title ∧
      ((∀ t, m.tasks.getLast? = some t → expired env.now t = false) →
        r.alerts
          = ((m.tasks.filter (fun t => !expired env.now t)).reverse.filter (due env.now)).map
              Task.Title) ∧
      List.Forall₂ (fun t t1 => t1.Notified = (t.Notified || due env.now t))
        (m.tasks.filter (fun t => !expired env.now t)) r.next.tasks ∧
      ∀ env2 : Env, (∀ t ∈ r.next.tasks, ¬ (env.now ≤ t.DueAt ∧ t.DueAt < env2.now)) →
        ∃ r2, Update env2 .tick r.next = .ok r2 ∧ r2.alerts = [] := by
  have hal : (sweep env.now m.tasks.reverse ⟨[], m.cursor, false, []⟩).alerts
      = ((m.tasks.reverse.takeWhile (expired env.now)).filter (due env.now)).map Task.Title
        ++ ((m.tasks.filter (fun t => !expired env.now t)).reverse.filter (due env.now)).map
            Task.Title := by
    rw [sweep_alerts env.now _ _ rfl, List.nil_append, flatMap_alertsOf env.now
      (m.tasks.reverse.filter _), flatMap_alertsOf env.now
      (m.tasks.reverse.takeWhile _), List.filter_reverse]
  refine ⟨_, updateTick_eq env m, updateTick_tasks env m, hal, ?_, ?_, ?_⟩
  · intro h
    show (sweep env.now m.tasks.reverse ⟨[], m.cursor, false, []⟩).alerts = _
    rw [hal, takeWhile_expired_nil env.now m.tasks h]
    rfl
  · show List.Forall₂ _ _ (sweep env.now m.tasks.reverse ⟨[], m.cursor, false, []⟩).tasks
    rw [updateTick_tasks, List.forall₂_map_right_iff, List.forall₂_same]
    intro t _
    exact settle_notified env.now t
  · intro env2 h2
    refine ⟨_, updateTick_eq env2 _, ?_⟩
    show (sweep env2.now _ ⟨[], _, false, []⟩).alerts = []
    apply sweep_alerts_none
    intro x hx
    have hx' : x ∈ (sweep env.now m.tasks.reverse ⟨[], m.cursor, false, []⟩).tasks :=
      List.mem_reverse.1 hx
    have hno := h2 x hx'
    rw [updateTick_tasks] at hx'
    simp only [List.mem_map, List.mem_filter] at hx'
    obtain ⟨t, _, rfl⟩ := hx'
    rw [alertsOf_eq]
    have hn := settle_notified env.now t
    obtain ⟨_, _, hDone, hDue, _⟩ := settle_fields env.now t
    rw [hDue] at hno
    have : due env2.now (settle env.now t) = false := by
      unfold due
      rw [hDone, hDue, hn]
      unfold due
      by_cases h3 : t.Done = true <;> by_cases h4 : t.DueAt = 0 <;>
      by_cases h5 : env.now > t.DueAt <;> by_cases h6 : t.Notified = true <;>
      by_cases h7 : env2.now > t.DueAt <;>
        simp [h3, h4, h5, h6, h7]
      exact hno ⟨by omega, by omega⟩
    simp [this]

/-- C16 as stated fails in two ways.  (1) In the store of a task whose deletion
animation is over and whose deadline has passed unnotified, followed by another
task, the tick removes the first task and notifies nothing.  (2) In the store
of one task with its deadline at the instant 10, a tick at the instant 5
notifies nothing and leaves the store as it is, and a second tick at the later
instant 20 invokes the notifier. -/
theorem tick_notifier_misses :
    (due 300000000 dyingDueTask = true ∧
      Update (sampleEnv 300000000 []) .tick (sampleModel [dyingDueTask, firstHint] 0)
        = .ok ⟨sampleModel [firstHint] 0, [], []⟩) ∧
    (Update (sampleEnv 5 []) .tick (sampleModel [timedTask] 0)
        = .ok ⟨sampleModel [timedTask] 0, [.tick], []⟩ ∧
      Update (sampleEnv 20 []) .tick (sampleModel [timedTask] 0)
        = .ok ⟨sampleModel [{ timedTask with Notified := true }] 0, [.tick], ["pay rent"]⟩) :=
  ⟨⟨rfl, rfl⟩, rfl, rfl⟩

/-! ## Fractions -/

theorem ediv_mono_frac (a b c d : Int) (hb : 0 < b) (hd : 0 < d) (h : a * d ≤ c * b) :
    a / b ≤ c / d := by
  rw [Int.le_ediv_iff_mul_le hd]
  have h1 : a / b * b ≤ a := Int.ediv_mul_le a (ne_of_gt hb)
  have h2 : a / b * b * d ≤ c * b := le_trans (Int.mul_le_mul_of_nonneg_right h1 (le_of_lt hd)) h
  have h3 : a / b * d * b ≤ c * b := by
    have : a / b * d * b = a / b * b * d := by ring
    rw [this]; exact h2
  exact le_of_mul_le_mul_right h3 hb

theorem fdiv_mono_frac (a b c d : Int) (hb : 0 < b) (hd : 0 < d) (h : a * d ≤ c * b) :
    Int.fdiv a b ≤ Int.fdiv c d := by
  rw [Int.fdiv_eq_ediv a (le_of_lt hb), Int.fdiv_eq_ediv c (le_of_lt hd)]
  exact ediv_mono_frac a b c d hb hd h

theorem tdiv_mono_frac (a b c d : Int) (hb : 0 < b) (hd : 0 < d) (h : a * d ≤ c * b) :
    Int.tdiv a b ≤ Int.tdiv c d := by
  by_cases ha : 0 ≤ a
  · have hc : 0 ≤ c := by
      by_contra hc
      have h1 : c * b < 0 := Int.mul_neg_of_neg_of_pos (not_le.1 hc) hb
      have h2 : 0 ≤ a * d := Int.mul_nonneg ha (le_of_lt hd)
      omega
    rw [Int.tdiv_eq_ediv ha (le_of_lt hb), Int.tdiv_eq_ediv hc (le_of_lt hd)]
    exact ediv_mono_frac a b c d hb hd h
  · have ha' : 0 ≤ -a := by omega
    have e1 : Int.tdiv a b = -((-a) / b) := by
      rw [← Int.tdiv_eq_ediv ha' (le_of_lt hb), Int.neg_tdiv, neg_neg]
    by_cases hc : 0 ≤ c
    · have h1 : 0 ≤ (-a) / b := Int.ediv_nonneg ha' (le_of_lt hb)
      have h2 : 0 ≤ Int.tdiv c d := Int.tdiv_nonneg hc (le_of_lt hd)
      omega
    · have hc' : 0 ≤ -c := by omega
      have e2 : Int.tdiv c d = -((-c) / d) := by
        rw [← Int.tdiv_eq_ediv hc' (le_of_lt hd), Int.neg_tdiv, neg_neg]
      rw [e1, e2]
      have := ediv_mono_frac (-c) d (-a) b hd hb (by
        have : -c * b = -(c * b) := by ring
        have : -a * d = -(a * d) := by ring
        omega)
      omega

theorem progressOf_cases (e : Int) :
    (progressOf (Seconds e) = Frac.ofInt 1 ∧ 290000000 < e) ∨
      (progressOf (Seconds e) = ⟨e * 1000000000, 1000000000 * 290000000⟩ ∧ e ≤ 290000000) := by
  unfold progressOf Seconds Frac.div Frac.lt Frac.ofInt checkAnimDuration millisecond
  by_cases h : 290000000 < e
  · left
    refine ⟨?_, h⟩
    rw [if_pos]
    simp only [decide_eq_true_eq]
    omega
  · right
    refine ⟨?_, by omega⟩
    rw [if_neg]
    · norm_num
    · simp only [decide_eq_true_eq]
      omega

theorem progressOf_pos (e : Int) : 0 < (progressOf (Seconds e)).den := by
  rcases progressOf_cases e with ⟨h, _⟩ | ⟨h, _⟩ <;> rw [h] <;> simp [Frac.ofInt]

theorem progressOf_mono (e1 e2 : Int) (h : e1 ≤ e2) :
    (progressOf (Seconds e1)).num * (progressOf (Seconds e2)).den
      ≤ (progressOf (Seconds e2)).num * (progressOf (Seconds e1)).den := by
  rcases progressOf_cases e1 with ⟨h1, g1⟩ | ⟨h1, g1⟩ <;>
  rcases progressOf_cases e2 with ⟨h2, g2⟩ | ⟨h2, g2⟩ <;>
    rw [h1, h2] <;> simp only [Frac.ofInt] <;> omega

theorem progressOf_one (e : Int) (h : checkAnimDuration ≤ e) :
    (progressOf (Seconds e)).num = (progressOf (Seconds e)).den := by
  have h' : 290000000 ≤ e := by
    unfold checkAnimDuration millisecond at h
    omega
  rcases progressOf_cases e with ⟨h1, _⟩ | ⟨h1, g1⟩
  · rw [h1]; rfl
  · rw [h1]
    have : e = 290000000 := by omega
    subst this
    norm_num

theorem floor_mul_mono (p q : Frac) (n : Int) (hn : 0 ≤ n) (hp : 0 < p.den) (hq : 0 < q.den)
    (h : p.num * q.den ≤ q.num * p.den) :
    (p.mul (Frac.ofInt n)).floor ≤ (q.mul (Frac.ofInt n)).floor := by
  unfold Frac.floor Frac.mul Frac.ofInt
  apply fdiv_mono_frac _ _ _ _ (by simpa using hp) (by simpa using hq)
  have := Int.mul_le_mul_of_nonneg_right h hn
  simp only [mul_one]
  calc p.num * n * q.den = p.num * q.den * n := by ring
    _ ≤ q.num * p.den * n := this
    _ = q.num * n * p.den := by ring

theorem trunc_mul_mono (p q : Frac) (n : Int) (hn : 0 ≤ n) (hp : 0 < p.den) (hq : 0 < q.den)
    (h : p.num * q.den ≤ q.num * p.den) :
    (p.mul (Frac.ofInt n)).trunc ≤ (q.mul (Frac.ofInt n)).trunc := by
  unfold Frac.trunc Frac.mul Frac.ofInt
  apply tdiv_mono_frac _ _ _ _ (by simpa using hp) (by simpa using hq)
  have := Int.mul_le_mul_of_nonneg_right h hn
  simp only [mul_one]
  calc p.num * n * q.den = p.num * q.den * n := by ring
    _ ≤ q.num * p.den * n := this
    _ = q.num * n * p.den := by ring

theorem trunc_mul_mono' (p q : Frac) (n : Int) (hn : 0 ≤ n) (hp : 0 < p.den) (hq : 0 < q.den)
    (h : p.num * q.den ≤ q.num * p.den) :
    ((Frac.ofInt n).mul p).trunc ≤ ((Frac.ofInt n).mul q).trunc := by
  unfold Frac.trunc Frac.mul Frac.ofInt
  apply tdiv_mono_frac _ _ _ _ (by simpa using hp) (by simpa using hq)
  have := Int.mul_le_mul_of_nonneg_right h hn
  simp only [one_mul]
  calc n * p.num * q.den = p.num * q.den * n := by ring
    _ ≤ q.num * p.den * n := this
    _ = n * q.num * p.den := by ring

theorem floor_mul_one (p : Frac) (n : Int) (hp : 0 < p.den) (h : p.num = p.den) :
    (p.mul (Frac.ofInt n)).floor = n := by
  unfold Frac.floor Frac.mul Frac.ofInt
  simp only [mul_one, h]
  rw [Int.fdiv_eq_ediv _ (le_of_lt hp), Int.mul_comm]
  exact Int.mul_ediv_cancel n (ne_of_gt hp)

theorem trunc_mul_one (p : Frac) (n : Int) (hp : 0 < p.den) (h : p.num = p.den) :
    (p.mul (Frac.ofInt n)).trunc = n := by
  unfold Frac.trunc Frac.mul Frac.ofInt
  simp only [mul_one, h]
  rw [Int.mul_comm]
  exact Int.mul_tdiv_cancel n (ne_of_gt hp)

theorem trunc_mul_one' (p : Frac) (n : Int) (hp : 0 < p.den) (h : p.num = p.den) :
    ((Frac.ofInt n).mul p).trunc = n := by
  unfold Frac.trunc Frac.mul Frac.ofInt
  simp only [one_mul, h]
  exact Int.mul_tdiv_cancel n (ne_of_gt hp)

/-! ## Position loops -/

theorem forBytes_length (body : Int → Nat → List Piece)
    (hb : ∀ i b, (body i b).length = 1) :
    ∀ (bs : List Nat) (k : Int), (forBytes body k bs).length = bs.length := by
  intro bs
  induction bs with
  | nil => intro k; rfl
  | cons b bs ih =>
    intro k
    simp only [forBytes, List.length_append, hb, ih, List.length_cons]
    omega

theorem forBytes_pos (body : Int → Nat → List Piece) (R : Piece → Prop) (C : Int → Prop)
    (hb : ∀ i b, ∃ q, body i b = [q] ∧ (R q ↔ C i)) :
    ∀ (bs : List Nat) (k : Int) (j : Nat) (p : Piece),
      (forBytes body k bs)[j]? = some p → (R p ↔ C (k + j)) := by
  intro bs
  induction bs with
  | nil => intro k j p h; simp [forBytes] at h
  | cons b bs ih =>
    intro k j p h
    obtain ⟨q, hq, hR⟩ := hb k b
    simp only [forBytes, hq, List.singleton_append] at h
    cases j with
    | zero =>
      simp only [List.getElem?_cons_zero, Option.some.injEq] at h
      subst h
      simpa using hR
    | succ j =>
      simp only [List.getElem?_cons_succ] at h
      have := ih (k + 1) j p h
      rw [this]
      have e : k + 1 + (j : Int) = k + ((j + 1 : Nat) : Int) := by push_cast; ring
      rw [e]

theorem struck_strikeStyle (theme : Theme) (s : String) :
    ((strikeStyle theme).Render s).struck = true := rfl

theorem progressOut_length (e : Effect) (he : e.progressDriven = true) (theme : Theme)
    (P : Frac) (text : String) :
    (progressOut e theme P text).length = (goBytes text).length := by
  cases e <;> simp only [Effect.progressDriven, Bool.false_eq_true] at he <;>
    simp only [progressOut, wipeRight, wipeLeft, typewriter, converge, zipper, centerStrike,
      loading] <;>
    apply forBytes_length <;> intro i b
  · rcases lt_trichotomy i (P.mul (Frac.ofInt (goBytes text).length)).floor with h | h | h
    · simp [h, ne_of_lt h, not_lt_of_gt h]
    · simp [h]
    · simp [h, ne_of_gt h, not_lt_of_gt h]
  · rcases lt_trichotomy i
      (((goBytes text).length : Int) - 1 - (P.mul (Frac.ofInt (goBytes text).length)).floor)
      with h | h | h
    · simp [h, ne_of_lt h, not_lt_of_gt h]
    · simp [h]
    · simp [h, ne_of_gt h, not_lt_of_gt h]
  · split_ifs <;> rfl
  · split_ifs <;> rfl
  · dsimp only; split_ifs <;> rfl
  · dsimp only; split_ifs <;> rfl
  · split_ifs <;> rfl

theorem progressOut_resolved (e : Effect) (he : e.progressDriven = true) (theme : Theme)
    (P : Frac) (text : String) (j : Nat) (p : Piece)
    (h : (progressOut e theme P text)[j]? = some p) :
    resolved e p = true ↔ resolvedAt e P (goBytes text).length j := by
  have key : ∀ (body : Int → Nat → List Piece),
      progressOut e theme P text = forBytes body 0 (goBytes text) →
      (∀ i b, ∃ q, body i b = [q] ∧
        (resolved e q = true ↔ resolvedAt e P (goBytes text).length i)) →
      (resolved e p = true ↔ resolvedAt e P (goBytes text).length j) := by
    intro body hout hb
    rw [hout] at h
    have := forBytes_pos body (fun q => resolved e q = true)
      (resolvedAt e P (goBytes text).length) hb (goBytes text) 0 j p h
    simpa using this
  cases e <;> simp only [Effect.progressDriven, Bool.false_eq_true] at he
  · refine key _ rfl ?_
    intro i b
    rcases lt_trichotomy i (P.mul (Frac.ofInt (goBytes text).length)).floor with h | h | h
    · exact ⟨(strikeStyle theme).Render (byteString b), by simp [h, ne_of_lt h, not_lt_of_gt h],
        by simp [resolved, resolvedAt, h, struck_strikeStyle]⟩
    · exact ⟨((NewStyle.Background theme.Secondary).Foreground theme.Bg).Render (byteString b), by simp [h],
        by simp [resolved, resolvedAt, h, Piece.struck, Style.Render, Style.Foreground,
          Style.Background, NewStyle]⟩
    · exact ⟨raw (byteString b), by simp [h, ne_of_gt h, not_lt_of_gt h],
        by simp [resolved, resolvedAt, not_lt_of_gt h, Piece.struck, raw]⟩
  · refine key _ rfl ?_
    intro i b
    rcases lt_trichotomy i
      (((goBytes text).length : Int) - 1 - (P.mul (Frac.ofInt (goBytes text).length)).floor)
      with h | h | h
    · exact ⟨raw (byteString b), by simp [h, ne_of_lt h, not_lt_of_gt h],
        by simp [resolved, resolvedAt, not_lt_of_gt h, Piece.struck, raw]⟩
    · exact ⟨((NewStyle.Background theme.Accent).Foreground theme.Bg).Render (byteString b), by simp [h],
        by simp [resolved, resolvedAt, h, Piece.struck, Style.Render, Style.Foreground,
          Style.Background, NewStyle]⟩
    · exact ⟨(strikeStyle theme).Render (byteString b), by simp [h, ne_of_gt h, not_lt_of_gt h],
        by simp [resolved, resolvedAt, h, struck_strikeStyle]⟩
  · refine key _ rfl ?_
    intro i b
    by_cases h : i ≤ ((Frac.ofInt (goBytes text).length).mul P).trunc
    · exact ⟨(NewStyle.Foreground theme.Success).Render (byteString b), if_pos h,
        by simp [resolved, resolvedAt, h, Style.Render]⟩
    · exact ⟨raw " ", if_neg h, by simp [resolved, resolvedAt, h, raw]⟩
  · refine key _ rfl ?_
    intro i b
    by_cases h : i < ((Frac.ofInt (Int.tdiv (goBytes text).length 2)).mul P).trunc ∨
        i ≥ ((goBytes text).length : Int)
          - ((Frac.ofInt (Int.tdiv (goBytes text).length 2)).mul P).trunc
    · exact ⟨_, if_pos h, by simp only [resolved, resolvedAt, struck_strikeStyle, true_iff]; exact h⟩
    · exact ⟨_, if_neg h, by
        simp only [resolved, resolvedAt, Piece.struck, Style.Render, Style.Foreground, NewStyle,
          Bool.false_eq_true, false_iff]
        exact h⟩
  · refine key _ rfl ?_
    intro i b
    by_cases h : (if i ≥ Int.tdiv (goBytes text).length 2
        then ((goBytes text).length : Int) - 1 - i else i)
          < (P.mul (Frac.ofInt (Int.tdiv (goBytes text).length 2))).trunc
    · exact ⟨_, if_pos h, by simp only [resolved, resolvedAt, struck_strikeStyle, true_iff]; exact h⟩
    · exact ⟨_, if_neg h, by
        simp only [resolved, resolvedAt, Piece.struck, Style.Render, Style.Foreground,
          Style.Background, NewStyle, Bool.false_eq_true, false_iff]
        exact h⟩
  · refine key _ rfl ?_
    intro i b
    by_cases h : (((i - Int.tdiv (goBytes text).length 2).natAbs : Nat) : Int)
          < (P.mul (Frac.ofInt (Int.tdiv (goBytes text).length 2))).trunc
    · exact ⟨_, if_pos h, by simp only [resolved, resolvedAt, struck_strikeStyle, true_iff]; exact h⟩
    · exact ⟨_, if_neg h, by
        simp only [resolved, resolvedAt, Piece.struck, raw, Bool.false_eq_true, false_iff]
        exact h⟩
  · refine key _ rfl ?_
    intro i b
    by_cases h : i < (P.mul (Frac.ofInt (goBytes text).length)).trunc
    · exact ⟨_, if_pos h, by simp [resolved, resolvedAt, h, Style.Render]⟩
    · exact ⟨_, if_neg h, by simp [resolved, resolvedAt, h, Style.Render]⟩

theorem tdiv_two_nonneg (n : Int) (hn : 0 ≤ n) : 0 ≤ Int.tdiv n 2 :=
  Int.tdiv_nonneg hn (by decide)

theorem resolvedAt_mono (e : Effect) (p q : Frac) (n i : Int) (hn : 0 ≤ n)
    (hp : 0 < p.den) (hq : 0 < q.den) (h : p.num * q.den ≤ q.num * p.den)
    (hr : resolvedAt e p n i) : resolvedAt e q n i := by
  have f1 := floor_mul_mono p q n hn hp hq h
  have t1 := trunc_mul_mono p q n hn hp hq h
  have t2 := trunc_mul_mono' p q n hn hp hq h
  have t3 := trunc_mul_mono p q (Int.tdiv n 2) (tdiv_two_nonneg n hn) hp hq h
  have t4 := trunc_mul_mono' p q (Int.tdiv n 2) (tdiv_two_nonneg n hn) hp hq h
  cases e <;> simp only [resolvedAt] at hr ⊢ <;> omega

theorem effectOf_id (e : Effect) : effectOf e.id = some e := by
  cases e <;> rfl

theorem renderCheckAnim_progress (lib : Lib) (now : Int) (r : Rng) (t : Task) (theme : Theme)
    (e : Effect) (he : e.progressDriven = true) (ht : t.AnimType = e.id) :
    renderCheckAnim lib now r t theme
      = .ok (progressOut e theme (progressOf (Seconds (now - t.AnimStart))) t.Title) := by
  unfold renderCheckAnim
  rw [ht, effectOf_id]
  cases e <;> simp only [Effect.progressDriven, Bool.false_eq_true] at he <;> rfl

/-- C12: the progress-driven effects are monotonic in time.  For each of
`AnimWipeRight`, `AnimWipeLeft`, `AnimTypewriter`, `AnimConverge`, `AnimZipper`,
`AnimCenterStrike` and `AnimLoading`, every text and every two clock readings
`now1 <= now2` (elapsed times `now1 - AnimStart <= now2 - AnimStart`), both
renderings succeed and every position that is rendered resolved (struck
through, revealed, or filled) in the first is rendered resolved in the
second. -/
theorem resolved_stays (lib : Lib) (theme : Theme) (e : Effect) (t : Task) (now1 now2 : Int)
    (r1 r2 : Rng) (he : e.progressDriven = true) (ht : t.AnimType = e.id)
    (hnow : now1 ≤ now2) :
    ∃ o1 o2, renderCheckAnim lib now1 r1 t theme = .ok o1 ∧
      renderCheckAnim lib now2 r2 t theme = .ok o2 ∧
      ∀ (i : Nat) (p : Piece), o1[i]? = some p → resolved e p = true →
        ∃ q, o2[i]? = some q ∧ resolved e q = true := by
  refine ⟨_, _, renderCheckAnim_progress lib now1 r1 t theme e he ht,
    renderCheckAnim_progress lib now2 r2 t theme e he ht, ?_⟩
  intro i p hp hres
  have hlt : i < (goBytes t.Title).length := by
    rw [← progressOut_length e he theme (progressOf (Seconds (now1 - t.AnimStart))) t.Title]
    exact (List.getElem?_eq_some_iff.1 hp).1
  have hlt2 : i < (progressOut e theme (progressOf (Seconds (now2 - t.AnimStart)))
      t.Title).length := by
    rw [progressOut_length e he]
    exact hlt
  refine ⟨_, List.getElem?_eq_getElem hlt2, ?_⟩
  rw [progressOut_resolved e he theme _ t.Title i _ (List.getElem?_eq_getElem hlt2)]
  rw [progressOut_resolved e he theme _ t.Title i p hp] at hres
  exact resolvedAt_mono e _ _ _ _ (Int.ofNat_nonneg _) (progressOf_pos _) (progressOf_pos _)
    (progressOf_mono _ _ (by omega)) hres

theorem progressOut_one (e : Effect) (theme : Theme) (P : Frac) (text : String)
    (hP : 0 < P.den) (h : P.num = P.den) :
    progressOut e theme P text = progressOut e theme (Frac.ofInt 1) text := by
  have h1 : (0 : Int) < (Frac.ofInt 1).den := by decide
  have h2 : (Frac.ofInt 1).num = (Frac.ofInt 1).den := rfl
  cases e <;>
    simp only [progressOut, wipeRight, wipeLeft, typewriter, converge, zipper, centerStrike,
      loading, floor_mul_one P _ hP h, trunc_mul_one P _ hP h, trunc_mul_one' P _ hP h,
      floor_mul_one (Frac.ofInt 1) _ h1 h2, trunc_mul_one (Frac.ofInt 1) _ h1 h2,
      trunc_mul_one' (Frac.ofInt 1) _ h1 h2]

/-- C13: the progress-driven effects are constant once the animation is over.
For each of the seven progress-driven effects, every text and any two clock
readings with `now - AnimStart >= checkAnimDuration`, the two renderings are
the same, whatever the generators. -/
theorem terminal_constant (lib : Lib) (theme : Theme) (e : Effect) (t : Task)
    (now1 now2 : Int) (r1 r2 : Rng) (he : e.progressDriven = true) (ht : t.AnimType = e.id)
    (h1 : now1 - t.AnimStart ≥ checkAnimDuration) (h2 : now2 - t.AnimStart ≥ checkAnimDuration) :
    renderCheckAnim lib now1 r1 t theme = renderCheckAnim lib now2 r2 t theme ∧
      ∃ out, renderCheckAnim lib now1 r1 t theme = .ok out := by
  rw [renderCheckAnim_progress lib now1 r1 t theme e he ht,
    renderCheckAnim_progress lib now2 r2 t theme e he ht,
    progressOut_one e theme _ t.Title (progressOf_pos _) (progressOf_one _ h1),
    progressOut_one e theme _ t.Title (progressOf_pos _) (progressOf_one _ h2)]
  exact ⟨rfl, _, rfl⟩

/-- Witness of C12: the right wipe of a four-byte text half way and at about
two thirds of the animation. -/
theorem resolved_stays_witness :
    ∃ o1 o2, renderCheckAnim sampleLib 145000000 (fun _ => 0) (animTask "abcd" .AnimWipeRight)
        sampleTheme = .ok o1 ∧
      renderCheckAnim sampleLib 200000000 (fun _ => 1) (animTask "abcd" .AnimWipeRight)
        sampleTheme = .ok o2 ∧
      ∀ (i : Nat) (p : Piece), o1[i]? = some p → resolved .AnimWipeRight p = true →
        ∃ q, o2[i]? = some q ∧ resolved .AnimWipeRight q = true :=
  resolved_stays sampleLib sampleTheme .AnimWipeRight (animTask "abcd" .AnimWipeRight)
    145000000 200000000 (fun _ => 0) (fun _ => 1) rfl rfl (by decide)

/-- Witness of C13: the zipper on a four-byte text at 290 ms and at one
second. -/
theorem terminal_constant_witness :
    renderCheckAnim sampleLib 290000000 (fun _ => 0) (animTask "abcd" .AnimZipper) sampleTheme
        = renderCheckAnim sampleLib 1000000000 (fun _ => 1) (animTask "abcd" .AnimZipper)
            sampleTheme ∧
      ∃ out, renderCheckAnim sampleLib 290000000 (fun _ => 0) (animTask "abcd" .AnimZipper)
        sampleTheme = .ok out :=
  terminal_constant sampleLib sampleTheme .AnimZipper (animTask "abcd" .AnimZipper)
    290000000 1000000000 (fun _ => 0) (fun _ => 1) rfl rfl (by decide) (by decide)

/-- C14: the code at three failing inputs, each rendered 300 ms after the
animation started, when `progress` is 1.  `AnimConverge` and `AnimZipper` on
the three-letter title `abc` leave the middle letter in the unresolved style
(accent colour, respectively the highlight), and `AnimCenterStrike` on the
two-letter title `ab` leaves the first letter unstyled: none of the three
renderings is struck through at every position. -/
theorem terminal_unresolved :
    renderCheckAnim sampleLib 300000000 (fun _ => 0) (animTask "abc" .AnimConverge) sampleTheme
        = .ok [(strikeStyle sampleTheme).Render "a",
               (NewStyle.Foreground sampleTheme.Accent).Render "b",
               (strikeStyle sampleTheme).Render "c"] ∧
      resolved .AnimConverge ((NewStyle.Foreground sampleTheme.Accent).Render "b") = false ∧
    renderCheckAnim sampleLib 300000000 (fun _ => 0) (animTask "abc" .AnimZipper) sampleTheme
        = .ok [(strikeStyle sampleTheme).Render "a",
               ((NewStyle.Background sampleTheme.Accent).Foreground sampleTheme.Bg).Render "b",
               (strikeStyle sampleTheme).Render "c"] ∧
      resolved .AnimZipper
        (((NewStyle.Background sampleTheme.Accent).Foreground sampleTheme.Bg).Render "b")
          = false ∧
    renderCheckAnim sampleLib 300000000 (fun _ => 0) (animTask "ab" .AnimCenterStrike)
        sampleTheme = .ok [raw "a", (strikeStyle sampleTheme).Render "b"] ∧
      resolved .AnimCenterStrike (raw "a") = false :=
  ⟨rfl, rfl, rfl, rfl, rfl, rfl⟩

/-- At `progress = 1` the wipes, the typewriter and the loading bar render
every position resolved. -/
theorem terminal_all_resolved (lib : Lib) (theme : Theme) (e : Effect) (t : Task) (now : Int)
    (r : Rng)
    (he : e = .AnimWipeRight ∨ e = .AnimWipeLeft ∨ e = .AnimTypewriter ∨ e = .AnimLoading)
    (ht : t.AnimType = e.id) (h : now - t.AnimStart ≥ checkAnimDuration) :
    ∃ out, renderCheckAnim lib now r t theme = .ok out ∧
      out.length = (goBytes t.Title).length ∧ ∀ p ∈ out, resolved e p = true := by
  have hd : e.progressDriven = true := by
    rcases he with rfl | rfl | rfl | rfl <;> rfl
  refine ⟨_, renderCheckAnim_progress lib now r t theme e hd ht,
    progressOut_length e hd theme _ t.Title, ?_⟩
  intro p hp
  obtain ⟨i, hi⟩ := List.mem_iff_getElem?.1 hp
  have hlt : i < (goBytes t.Title).length := by
    rw [← progressOut_length e hd theme (progressOf (Seconds (now - t.AnimStart))) t.Title]
    exact (List.getElem?_eq_some_iff.1 hi).1
  rw [progressOut_resolved e hd theme _ t.Title i p hi]
  have f1 := floor_mul_one _ ((goBytes t.Title).length : Int) (progressOf_pos _)
    (progressOf_one _ h)
  have t1 := trunc_mul_one _ ((goBytes t.Title).length : Int) (progressOf_pos _)
    (progressOf_one _ h)
  have t2 := trunc_mul_one' _ ((goBytes t.Title).length : Int) (progressOf_pos _)
    (progressOf_one _ h)
  rcases he with rfl | rfl | rfl | rfl <;> simp only [resolvedAt] <;> omega

/-- At `progress = 1` `AnimConverge` and `AnimZipper` leave the middle position
of a text with an odd number of bytes unresolved. -/
theorem terminal_middle_unresolved (lib : Lib) (theme : Theme) (e : Effect) (t : Task)
    (now : Int) (r : Rng) (k : Nat) (he : e = .AnimConverge ∨ e = .AnimZipper)
    (ht : t.AnimType = e.id) (h : now - t.AnimStart ≥ checkAnimDuration)
    (hodd : (goBytes t.Title).length = 2 * k + 1) :
    ∃ out p, renderCheckAnim lib now r t theme = .ok out ∧ out[k]? = some p ∧
      resolved e p = false := by
  have hd : e.progressDriven = true := by
    rcases he with rfl | rfl <;> rfl
  have hlt : k < (progressOut e theme (progressOf (Seconds (now - t.AnimStart)))
      t.Title).length := by
    rw [progressOut_length e hd]
    omega
  refine ⟨_, _, renderCheckAnim_progress lib now r t theme e hd ht,
    List.getElem?_eq_getElem hlt, ?_⟩
  rw [Bool.eq_false_iff, Ne, progressOut_resolved e hd theme _ t.Title k _
    (List.getElem?_eq_getElem hlt)]
  have hn : ((goBytes t.Title).length : Int) = 2 * (k : Int) + 1 := by
    rw [hodd]; push_cast; rfl
  have hm : Int.tdiv (2 * (k : Int) + 1) 2 = k := by
    rw [Int.tdiv_eq_ediv (by omega) (by decide)]
    omega
  have t1 := trunc_mul_one _ (k : Int) (progressOf_pos (now - t.AnimStart))
    (progressOf_one _ h)
  have t2 := trunc_mul_one' _ (k : Int) (progressOf_pos (now - t.AnimStart))
    (progressOf_one _ h)
  clear hlt
  rcases he with rfl | rfl <;> simp only [resolvedAt, hn, hm, t1, t2] <;> omega

/-- At `progress = 1` `AnimCenterStrike` leaves the first position of every
non-empty text unresolved. -/
theorem terminal_first_unresolved (lib : Lib) (theme : Theme) (t : Task) (now : Int) (r : Rng)
    (ht : t.AnimType = Effect.AnimCenterStrike.id)
    (h : now - t.AnimStart ≥ checkAnimDuration) (hne : 0 < (goBytes t.Title).length) :
    ∃ out p, renderCheckAnim lib now r t theme = .ok out ∧ out[0]? = some p ∧
      resolved .AnimCenterStrike p = false := by
  have hlt : 0 < (progressOut .AnimCenterStrike theme
      (progressOf (Seconds (now - t.AnimStart))) t.Title).length := by
    rw [progressOut_length .AnimCenterStrike rfl]
    exact hne
  refine ⟨_, _, renderCheckAnim_progress lib now r t theme .AnimCenterStrike rfl ht,
    List.getElem?_eq_getElem hlt, ?_⟩
  rw [Bool.eq_false_iff, Ne, progressOut_resolved .AnimCenterStrike rfl theme _ t.Title 0 _
    (List.getElem?_eq_getElem hlt)]
  have hm : 0 ≤ Int.tdiv ((goBytes t.Title).length : Int) 2 :=
    tdiv_two_nonneg _ (Int.ofNat_nonneg _)
  have t1 := trunc_mul_one _ (Int.tdiv ((goBytes t.Title).length : Int) 2)
    (progressOf_pos (now - t.AnimStart)) (progressOf_one _ h)
  simp only [resolvedAt, t1]
  omega

/-! ## The empty title -/

theorem goBytes_empty : goBytes "" = [] := rfl

theorem runes_empty : runes "" = [] := rfl

theorem elemAt_three (a b c : String) (i : Int) (h0 : 0 ≤ i) (h3 : i < 3) :
    ∃ x, elemAt [a, b, c] i = .ok x := by
  have : i = 0 ∨ i = 1 ∨ i = 2 := by omega
  rcases this with rfl | rfl | rfl
  · exact ⟨a, rfl⟩
  · exact ⟨b, rfl⟩
  · exact ⟨c, rfl⟩

theorem traffic_ok (theme : Theme) (e : Int) (text : String) (he : 0 ≤ e) :
    ∃ c, traffic theme (Seconds e) text = .ok [(NewStyle.Foreground c).Render text] := by
  unfold traffic
  dsimp only
  have h0 : 0 ≤ ((Seconds e).mul (Frac.ofInt 10)).trunc := by
    show 0 ≤ Int.tdiv (e * 10) (1000000000 * 1)
    exact Int.tdiv_nonneg (by omega) (by decide)
  obtain ⟨x, hx⟩ := elemAt_three theme.Warning "#FFFF00" theme.Success
    (Int.tmod ((Seconds e).mul (Frac.ofInt 10)).trunc 3)
    (Int.tmod_nonneg 3 h0) (Int.tmod_lt_of_pos _ (by decide))
  rw [hx]
  exact ⟨x, rfl⟩

/-- C15: the empty title.  For every value of `AnimType` (the 30 effects and
every value without a case), every clock reading not before `AnimStart` and
every generator, `renderCheckAnim` on a task with the empty title succeeds and
its rendering shows no character; `renderDeleteAnim` on the empty string
succeeds with the empty rendering. -/
theorem render_empty (lib : Lib) (now : Int) (r : Rng) (t : Task) (theme : Theme)
    (ht : t.Title = "") (hnow : t.AnimStart ≤ now) :
    (∃ out, renderCheckAnim lib now r t theme = .ok out ∧ visible out = 0) ∧
      renderDeleteAnim r "" theme = .ok [] := by
  refine ⟨?_, rfl⟩
  unfold renderCheckAnim
  rw [ht]
  dsimp only
  cases effectOf t.AnimType with
  | none => exact ⟨_, rfl, rfl⟩
  | some e =>
    cases e
    case AnimTraffic =>
      obtain ⟨c, hc⟩ := traffic_ok theme (now - t.AnimStart) "" (by omega)
      exact ⟨_, hc, rfl⟩
    all_goals exact ⟨[], rfl, rfl⟩

/-- Witness of C15: the traffic light on the empty title, one second into the
animation. -/
theorem render_empty_witness :
    (∃ out, renderCheckAnim sampleLib 1000000000 (fun _ => 0) (animTask "" .AnimTraffic)
        sampleTheme = .ok out ∧ visible out = 0) ∧
      renderDeleteAnim (fun _ => 0) "" sampleTheme = .ok [] :=
  render_empty sampleLib 1000000000 (fun _ => 0) (animTask "" .AnimTraffic) sampleTheme rfl
    (by decide)

/-! ## Bytes and characters -/

theorem visible_append (a b : List Piece) : visible (a ++ b) = visible a + visible b := by
  simp [visible]

theorem forEach_visible {α : Type} (body : α → Rng → Except Fault (List Piece × Rng))
    (c : Nat) (hb : ∀ x r, ∃ ps r1, body x r = .ok (ps, r1) ∧ visible ps = c) :
    ∀ (xs : List α) (r : Rng), ∃ out, forEach body xs r = .ok out ∧
      visible out = c * xs.length := by
  intro xs
  induction xs with
  | nil => intro r; exact ⟨[], rfl, by simp [visible]⟩
  | cons x xs ih =>
    intro r
    obtain ⟨ps, r1, h1, h2⟩ := hb x r
    obtain ⟨rest, h3, h4⟩ := ih r1
    refine ⟨ps ++ rest, ?_, ?_⟩
    · simp only [forEach, h1, h3]
    · rw [visible_append, h2, h4, List.length_cons]
      ring

theorem elemAt_mod {α : Type} (table : List α) (k : Nat) (h : 0 < table.length) :
    ∃ a, elemAt table ((k % table.length : Nat) : Int) = .ok a := by
  unfold elemAt
  have hlt : k % table.length < table.length := Nat.mod_lt _ h
  rw [if_pos (Int.ofNat_nonneg _)]
  simp only [Int.toNat_ofNat]
  rw [List.getElem?_eq_getElem hlt]
  exact ⟨_, rfl⟩

theorem byteString_length (b : Nat) : (byteString b).length = 1 := rfl

/-- For every text and every generator `AnimMatrix` succeeds and shows one
character for each byte of the text. -/
theorem matrix_visible (theme : Theme) (text : String) (r : Rng) :
    ∃ out, matrix theme text r = .ok out ∧ visible out = (goBytes text).length := by
  have := forEach_visible (fun (_ : Nat) (r : Rng) =>
      match elemAt (goBytes "H3LL0W0RLD$#@!%*&^")
          ((r.Intn (goBytes "H3LL0W0RLD$#@!%*&^").length).1) with
      | .error e => .error e
      | .ok c => .ok ([(NewStyle.Foreground theme.Success).Render (byteString c)],
          (r.Intn (goBytes "H3LL0W0RLD$#@!%*&^").length).2)) 1
    (by
      intro x r
      obtain ⟨a, ha⟩ := elemAt_mod (goBytes "H3LL0W0RLD$#@!%*&^") (r 0) (by decide)
      refine ⟨[(NewStyle.Foreground theme.Success).Render (byteString a)], r.next, ?_, rfl⟩
      simp only [Rng.Intn]
      rw [ha])
    (goBytes text) r
  simpa [matrix] using this

/-- C11: the code at failing inputs.  The title `é` is one character, two
bytes in the Go string.  `AnimMatrix`, with its loop over the bytes, shows two
characters, for this title and one for each byte of any title; `AnimReverse`
shows the two bytes as the two characters `©` and `Ã`; `AnimWipeRight` shows
two characters.  `AnimRainbow`, with its loop over the characters of the
title, shows the one character. -/
theorem visible_counts_bytes :
    "é".length = 1 ∧ (goBytes "é").length = 2 ∧
    (∀ (lib : Lib) (now : Int) (r : Rng) (t : Task) (theme : Theme),
      t.AnimType = Effect.AnimMatrix.id →
      ∃ out, renderCheckAnim lib now r t theme = .ok out ∧
        visible out = (goBytes t.Title).length) ∧
    renderCheckAnim sampleLib 100000000 (fun _ => 0) (animTask "é" .AnimMatrix) sampleTheme
      = .ok [(NewStyle.Foreground sampleTheme.Success).Render "H",
             (NewStyle.Foreground sampleTheme.Success).Render "H"] ∧
    renderCheckAnim sampleLib 100000000 (fun _ => 0) (animTask "é" .AnimReverse) sampleTheme
      = .ok [(NewStyle.Foreground sampleTheme.Warning).Render "©",
             (NewStyle.Foreground sampleTheme.Warning).Render "Ã"] ∧
    (∃ out, renderCheckAnim sampleLib 100000000 (fun _ => 0) (animTask "é" .AnimWipeRight)
      sampleTheme = .ok out ∧ visible out = 2) ∧
    renderCheckAnim sampleLib 100000000 (fun _ => 0) (animTask "é" .AnimRainbow) sampleTheme
      = .ok [(NewStyle.Foreground sampleTheme.Accent).Render "é"] := by
  refine ⟨rfl, rfl, ?_, rfl, rfl, ⟨_, rfl, rfl⟩, rfl⟩
  intro lib now r t theme ht
  unfold renderCheckAnim
  rw [ht]
  exact matrix_visible theme t.Title r

theorem utf8Size_ge_one (c : Char) : 1 ≤ c.utf8Size := by
  unfold Char.utf8Size
  dsimp only
  split_ifs <;> omega

theorem utf8Size_two (c : Char) (h : ¬ c.val ≤ 0x7F) : 2 ≤ c.utf8Size := by
  unfold Char.utf8Size
  dsimp only
  have h' : ¬ c.val ≤ UInt32.ofNatCore 127 (by decide) := h
  rw [if_neg h']
  split_ifs <;> omega

theorem goBytes_length_cons (c : Char) (cs : List Char) :
    (goBytes ⟨c :: cs⟩).length = c.utf8Size + (goBytes ⟨cs⟩).length := by
  simp [goBytes, List.flatMap_cons]

/-- A Go string has at least as many bytes as characters. -/
theorem length_le_goBytes (s : String) : s.length ≤ (goBytes s).length := by
  obtain ⟨cs⟩ := s
  induction cs with
  | nil => exact Nat.le_refl _
  | cons c cs ih =>
    rw [goBytes_length_cons]
    have := utf8Size_ge_one c
    have h2 : (String.mk (c :: cs)).length = (String.mk cs).length + 1 := rfl
    omega

/-- A Go string with a character outside ASCII has more bytes than
characters. -/
theorem length_lt_goBytes (s : String) (h : ∃ c ∈ s.data, ¬ c.val ≤ 0x7F) :
    s.length < (goBytes s).length := by
  obtain ⟨cs⟩ := s
  induction cs with
  | nil => simp at h
  | cons c cs ih =>
    rw [goBytes_length_cons]
    have h2 : (String.mk (c :: cs)).length = (String.mk cs).length + 1 := rfl
    obtain ⟨d, hd, hv⟩ := h
    rcases List.mem_cons.1 hd with rfl | hmem
    · have := utf8Size_two d hv
      have := length_le_goBytes ⟨cs⟩
      omega
    · have := ih ⟨d, hmem, hv⟩
      have := utf8Size_ge_one c
      omega

/-- For every title with a character outside ASCII, every clock reading and
every generator, `AnimMatrix` shows more characters than the title has. -/
theorem matrix_shows_more (lib : Lib) (now : Int) (r : Rng) (t : Task) (theme : Theme)
    (ht : t.AnimType = Effect.AnimMatrix.id) (h : ∃ c ∈ t.Title.data, ¬ c.val ≤ 0x7F) :
    ∃ out, renderCheckAnim lib now r t theme = .ok out ∧ t.Title.length < visible out := by
  unfold renderCheckAnim
  rw [ht]
  obtain ⟨out, h1, h2⟩ := matrix_visible theme t.Title r
  exact ⟨out, h1, h2 ▸ length_lt_goBytes t.Title h⟩

/-- The bound on the clock reading in `render_empty` is needed by one effect:
with a clock reading 200 ms before `AnimStart` the index `int(elapsed*10) % 3`
of `AnimTraffic` is `-2` and the look-up in `colors` is out of range, for the
empty title as for any other.  `AnimStart` is written from the clock and never
loaded from the file, so the program does not render with such a reading. -/
theorem traffic_before_start :
    renderCheckAnim sampleLib (-200000000) (fun _ => 0) (animTask "" .AnimTraffic) sampleTheme
      = .error Fault.indexOutOfRange := rfl

/-! ## The cursor across a tick -/

theorem pass_length (now : Int) (n : Nat) (x : Task) (s : TickState) :
    (pass now n x s).tasks.length
      = if expired now x then s.tasks.length else s.tasks.length + 1 := by
  unfold pass
  by_cases he : expired now x = true
  · cases hs : s.tasks <;> simp [he]
  · simp [he]

theorem pass_cursor (now : Int) (n : Nat) (x : Task) (s : TickState) :
    (pass now n x s).cursor
      = if expired now x then
          (if s.cursor ≥ ((n + s.tasks.length : Nat) : Int) ∧ s.cursor > 0
           then s.cursor - 1 else s.cursor)
        else s.cursor := by
  unfold pass
  by_cases he : expired now x = true
  · cases hs : s.tasks <;> simp [he]
  · simp [he]

/-- The passes keep the cursor between 0 and the length of the slice. -/
theorem sweep_cursor_le (now : Int) (rp : List Task) :
    ∀ s : TickState, 0 ≤ s.cursor → s.cursor ≤ ((rp.length + s.tasks.length : Nat) : Int) →
      0 ≤ (sweep now rp s).cursor ∧
        (sweep now rp s).cursor ≤ ((sweep now rp s).tasks.length : Int) := by
  induction rp with
  | nil =>
    intro s h0 h1
    simp only [List.length_nil, Nat.zero_add] at h1
    exact ⟨h0, h1⟩
  | cons x rp ih =>
    intro s h0 h1
    simp only [sweep]
    have hl := pass_length now rp.length x s
    have hc := pass_cursor now rp.length x s
    simp only [List.length_cons] at h1
    apply ih
    · rw [hc]; split_ifs <;> omega
    · rw [hc, hl]; push_cast at h1 ⊢; split_ifs <;> omega

/-- The passes keep a cursor that selects a task on a task, as long as one is
left. -/
theorem sweep_cursor_lt (now : Int) (rp : List Task) :
    ∀ s : TickState, 0 ≤ s.cursor →
      (s.cursor < ((rp.length + s.tasks.length : Nat) : Int) ∨ s.cursor = 0) →
      (sweep now rp s).cursor < ((sweep now rp s).tasks.length : Int) ∨
        (sweep now rp s).cursor = 0 := by
  induction rp with
  | nil =>
    intro s _ h1
    simp only [List.length_nil, Nat.zero_add] at h1
    exact h1
  | cons x rp ih =>
    intro s h0 h1
    simp only [sweep]
    have hl := pass_length now rp.length x s
    have hc := pass_cursor now rp.length x s
    simp only [List.length_cons] at h1
    apply ih
    · rw [hc]; split_ifs <;> omega
    · rw [hc, hl]; push_cast at h1 ⊢; split_ifs <;> omega

/-- C21: the cursor stays in range across a tick.  For every model with
`0 <= cursor <= len(tasks)` and every clock reading, the tick succeeds, and
after it the cursor is non-negative and at most the length of the new list;
if the cursor was less than `len(tasks)` before the tick and the new list is
not empty, the cursor is less than the length of the new list. -/
theorem tick_cursor_in_range (env : Env) (m : model)
    (h0 : 0 ≤ m.cursor) (h1 : m.cursor ≤ (m.tasks.length : Int)) :
    ∃ r, Update env .tick m = .ok r ∧ 0 ≤ r.next.cursor ∧
      r.next.cursor ≤ (r.next.tasks.length : Int) ∧
      (m.cursor < (m.tasks.length : Int) → r.next.tasks ≠ [] →
        r.next.cursor < (r.next.tasks.length : Int)) := by
  refine ⟨_, updateTick_eq env m, ?_⟩
  have hle := sweep_cursor_le env.now m.tasks.reverse ⟨[], m.cursor, false, []⟩ h0
    (by simpa using h1)
  refine ⟨hle.1, hle.2, ?_⟩
  intro hlt hne
  have hs := sweep_cursor_lt env.now m.tasks.reverse ⟨[], m.cursor, false, []⟩ h0
    (Or.inl (by simpa using hlt))
  rcases hs with hs | hs
  · exact hs
  · have hpos : 0 < (sweep env.now m.tasks.reverse ⟨[], m.cursor, false, []⟩).tasks.length :=
      List.length_pos.2 hne
    show (sweep env.now m.tasks.reverse ⟨[], m.cursor, false, []⟩).cursor < _
    rw [hs]
    exact_mod_cast hpos

/-- Witness of C21: a tick that removes the first and the last of three tasks,
with the cursor on the last. -/
theorem tick_cursor_in_range_witness :
    (0 : Int) ≤ (sampleModel dyingEnds 2).cursor ∧
    (sampleModel dyingEnds 2).cursor ≤ ((sampleModel dyingEnds 2).tasks.length : Int) ∧
    ∃ r, Update (sampleEnv 300000000 []) .tick (sampleModel dyingEnds 2) = .ok r ∧
      0 ≤ r.next.cursor ∧ r.next.cursor ≤ (r.next.tasks.length : Int) ∧
      ((sampleModel dyingEnds 2).cursor < ((sampleModel dyingEnds 2).tasks.length : Int) →
        r.next.tasks ≠ [] → r.next.cursor < (r.next.tasks.length : Int)) :=
  ⟨by decide, by decide,
    tick_cursor_in_range (sampleEnv 300000000 []) (sampleModel dyingEnds 2)
      (by decide) (by decide)⟩

/-- A tick that removes two tasks at once: the first and the last of three are
cut out and the cursor moves from the third position to the only one left. -/
theorem tick_removes_two :
    Update (sampleEnv 300000000 []) .tick (sampleModel dyingEnds 2)
      = .ok ⟨sampleModel [⟨2, "b", false, 0, false, false, false, 0, 0⟩] 0, [], []⟩ := rfl

/-! ## What a tick does for a task it removes -/

/-- A task the tick removes from the last position of the slice is still
passed by the second and third `if` of the loop body: the tick succeeds, the
new list is made of the tasks in front that stay, and if the removed task is
due its title is passed to the notifier, and if it asks for a tick (its check
animation is running, or it is not done and has a deadline) a tick is
scheduled. -/
theorem removed_last_acts (env : Env) (m : model) (front : List Task) (x : Task)
    (hm : m.tasks = front ++ [x]) (hx : expired env.now x = true) :
    ∃ r, Update env .tick m = .ok r ∧
      r.next.tasks = (front.filter (fun t => !expired env.now t)).map (settle env.now) ∧
      (due env.now x = true → x.Title ∈ r.alerts) ∧
      (asksTick env.now x = true → r.cmds = [.tick]) := by
  refine ⟨_, updateTick_eq env m, ?_, ?_, ?_⟩
  · show (sweep env.now m.tasks.reverse ⟨[], m.cursor, false, []⟩).tasks = _
    rw [updateTick_tasks, hm]
    simp [List.filter_append, hx]
  · intro hd
    show x.Title ∈ (sweep env.now m.tasks.reverse ⟨[], m.cursor, false, []⟩).alerts
    rw [sweep_alerts env.now _ _ rfl, hm]
    simp [List.takeWhile_cons, hx, alertsOf_eq, hd]
  · intro ha
    show (if (sweep env.now m.tasks.reverse ⟨[], m.cursor, false, []⟩).needsTick then [Cmd.tick]
      else []) = [Cmd.tick]
    rw [hm, List.reverse_append, List.reverse_singleton, List.singleton_append]
    simp only [sweep]
    have hn := sweep_needsTick_mono env.now front.reverse
      (pass env.now front.reverse.length x ⟨[], m.cursor, false, []⟩) (by simp [pass, hx, ha])
    simp only [hn, if_true]

/-- A task the tick removes from a position that is not the last of the slice
has no effect on the notifier calls and on the scheduling: with a task `y`
that stays behind it, the tick gives the alerts and commands it gives without
the removed task. -/
theorem removed_inner_silent (now : Int) (n : Nat) (x : Task) (s : TickState)
    (hx : expired now x = true) (hs : s.tasks ≠ []) :
    (pass now n x s).tasks = s.tasks ∧ (pass now n x s).needsTick = s.needsTick ∧
      (pass now n x s).alerts = s.alerts := by
  obtain ⟨y, suf, hys⟩ := List.exists_cons_of_ne_nil hs
  simp [pass, hx, hys]

/-- C22: the code at failing inputs, ticks that remove the last task of the
store.  (1) The removed task is not done and its deadline has passed: the tick
passes its title to the notifier and schedules a further tick, although the
task that stays asks for none (the tick after it schedules nothing).  (2) The
removed task was still check-animating, 250 ms after the deletion started: the
tick schedules a further tick.  (3) A run from the data file with one task:
`@`, a key, `enter` set a deadline 100 ms ahead, `d` deletes the task, and the
tick 300 ms later empties the store, invokes the notifier for the task and
schedules a further tick. -/
theorem removed_task_still_acts :
    (Update (sampleEnv 300000000 []) .tick (sampleModel [firstHint, dyingDueTask] 1)
        = .ok ⟨sampleModel [firstHint] 0, [.tick], ["pay rent"]⟩ ∧
      Update (sampleEnv 300000001 []) .tick (sampleModel [firstHint] 0)
        = .ok ⟨sampleModel [firstHint] 0, [], []⟩) ∧
    Update (sampleEnv 250000000 []) .tick (sampleModel [firstHint, dyingCheckTask] 1)
      = .ok ⟨sampleModel [firstHint] 0, [.tick], []⟩ ∧
    (∃ m0 m, startModel (some oneTaskFile) 0 = .ok m0 ∧
      run [(sampleEnv 0 [], .key "@"), (parsingEnv 1 "100ms" 100000000, .key "x"),
           (parsingEnv 2 "100ms" 100000000, .key "enter"), (sampleEnv 3 [], .key "d")] m0
        = .ok m ∧
      Reach Always m ∧
      m.tasks = [⟨1, "call home", false, 100000002, false, false, true, 0, 3⟩] ∧
      Update (sampleEnv 300000003 []) .tick m
        = .ok ⟨{ m with tasks := [] }, [.tick], ["call home"]⟩) := by
  refine ⟨⟨rfl, rfl⟩, rfl, ?_⟩
  have h0 : Reach Always (sampleModel oneTaskFile.Tasks 0) :=
    Reach.start (some oneTaskFile) 0 _ rfl
  have h1 := Reach.step (sampleEnv 0 []) (.key "@") _ _ h0 trivial rfl
  have h2 := Reach.step (parsingEnv 1 "100ms" 100000000) (.key "x") _ _ h1 trivial rfl
  have h3 := Reach.step (parsingEnv 2 "100ms" 100000000) (.key "enter") _ _ h2 trivial rfl
  have h4 := Reach.step (sampleEnv 3 []) (.key "d") _ _ h3 trivial rfl
  exact ⟨_, _, rfl, rfl, h4, rfl, rfl⟩

/-! ## Ticks in flight -/

/-- C23 as stated fails on a run from the default start model, where no tick
is pending.  The `d` key on the first task schedules a tick; `down` and the `d`
key on the second task, 2 ns later and before the first tick fires, schedule
another: two ticks are pending in a reachable state.  Each of the two `TickMsg` that follow finds a
task deleting and schedules its successor, so two ticks stay pending, as two
chains side by side.  The same with the space key in place of the second
`d`, and with a deadline commit after a `d`. -/
theorem second_tick_chain :
    (∃ p, deliverAll [(sampleEnv 0 [], .key "d"), (sampleEnv 1 [], .key "down"),
          (sampleEnv 2 [], .key "d")] ⟨sampleModel hints 0, 0⟩ = some p ∧ p.ticks = 2 ∧
      Reach Always p.m ∧
      ∃ q, deliverAll [(sampleEnv 16000000 [], .tick), (sampleEnv 16000002 [], .tick),
          (sampleEnv 32000000 [], .tick), (sampleEnv 32000002 [], .tick)] p = some q ∧
        q.ticks = 2) ∧
    (∃ p, deliverAll [(sampleEnv 0 [], .key "d"), (sampleEnv 1 [], .key "down"),
          (sampleEnv 2 [7], .key " ")] ⟨sampleModel hints 0, 0⟩ = some p ∧ p.ticks = 2) ∧
    (∃ p, deliverAll [(sampleEnv 0 [], .key "d"), (sampleEnv 1 [], .key "@"),
          (sampleEnv 2 [], .key "enter")] ⟨sampleModel hints 0, 0⟩ = some p ∧ p.ticks = 2) := by
  refine ⟨⟨_, rfl, rfl, ?_, _, rfl, rfl⟩, ⟨_, rfl, rfl⟩, ⟨_, rfl, rfl⟩⟩
  have h0 : Reach Always (sampleModel hints 0) := Reach.start none 0 _ rfl
  have h1 := Reach.step (sampleEnv 0 []) (.key "d") _ _ h0 trivial rfl
  have h2 := Reach.step (sampleEnv 1 []) (.key "down") _ _ h1 trivial rfl
  exact Reach.step (sampleEnv 2 []) (.key "d") _ _ h2 trivial rfl

theorem deliverAll_append (es fs : List (Env × Msg)) :
    ∀ p q, deliverAll es p = some q → deliverAll (es ++ fs) p = deliverAll fs q := by
  induction es with
  | nil =>
    intro p q h
    simp only [deliverAll, Option.some.injEq] at h
    rw [← h]
    rfl
  | cons e es ih =>
    intro p q h
    obtain ⟨env, msg⟩ := e
    simp only [List.cons_append, deliverAll] at h ⊢
    cases hd : deliver env msg p with
    | none => rw [hd] at h; cases h
    | some p1 =>
      rw [hd] at h
      exact ih p1 q h

theorem deadlineKeys_first :
    deliverAll deadlineKeys ⟨sampleModel hints 0, 0⟩ = some ⟨timedHints, 1⟩ := rfl

theorem deadlineKeys_again (k : Nat) :
    deliverAll deadlineKeys ⟨timedHints, k⟩ = some ⟨timedHints, k + 1⟩ := by
  have h1 : Update (parsingEnv 5 "1h" 3600000000000) (.key "@") timedHints
      = .ok ⟨{ timedHints with
                 state := .StateSettingTime
                 textInput := ⟨"", "e.g. 10m, 1h2s, 10s...", 50, 256, "", true, 0⟩ },
             [.blink], []⟩ := rfl
  have h2 : Update (parsingEnv 5 "1h" 3600000000000) (.key "x")
      { timedHints with
                 state := .StateSettingTime
                 textInput := ⟨"", "e.g. 10m, 1h2s, 10s...", 50, 256, "", true, 0⟩ }
      = .ok ⟨{ timedHints with
                 state := .StateSettingTime
                 textInput := ⟨"1h", "e.g. 10m, 1h2s, 10s...", 50, 256, "", true, 0⟩ },
             [.input], []⟩ := rfl
  have h3 : Update (parsingEnv 5 "1h" 3600000000000) (.key "enter")
      { timedHints with
                 state := .StateSettingTime
                 textInput := ⟨"1h", "e.g. 10m, 1h2s, 10s...", 50, 256, "", true, 0⟩ }
      = .ok ⟨timedHints, [.tick], []⟩ := rfl
  simp [deadlineKeys, deliverAll, deliver, h1, h2, h3, ticksOf]

/-- The number of pending ticks has no bound: `n + 1` deadline commits on the
first onboarding task leave `n + 1` ticks pending, and since the task has an
unresolved deadline every `TickMsg` schedules its successor, so the number
never goes down. -/
theorem tick_chains_unbounded (n : Nat) :
    deliverAll (List.replicate (n + 1) deadlineKeys).flatten ⟨sampleModel hints 0, 0⟩
        = some ⟨timedHints, n + 1⟩ ∧
      ∀ now : Int, now ≤ 3600000000005 →
        deliver (sampleEnv now []) .tick ⟨timedHints, n + 1⟩ = some ⟨timedHints, n + 1⟩ := by
  constructor
  · induction n with
    | zero => rfl
    | succ n ih =>
      have hrep : (List.replicate (n + 1 + 1) deadlineKeys).flatten
          = (List.replicate (n + 1) deadlineKeys).flatten ++ deadlineKeys := by
        rw [List.replicate_succ' (n + 1), List.flatten_append]
        simp
      rw [hrep, deliverAll_append _ _ _ _ ih, deadlineKeys_again]
  · intro now hnow
    have ht : Update (sampleEnv now []) .tick timedHints = .ok ⟨timedHints, [.tick], []⟩ := by
      show updateTick (sampleEnv now []) timedHints = _
      rw [updateTick_eq]
      have hn : ¬ now > 3600000000005 := by omega
      simp [timedHints, sampleModel, hints, firstHint, sweep, pass, expired, settle, asksTick,
        alertsOf, checkStep, timerStep, sampleEnv, hn]
    simp [deliver, ht, ticksOf]

/-! ## The theme index -/

theorem applySort_themeIndex (m : model) : (applySort m).themeIndex = m.themeIndex := rfl

theorem lookup_range (i : Int) (h : (if 0 ≤ i then themes[i.toNat]? else none) ≠ none) :
    0 ≤ i ∧ i < (themes.length : Int) := by
  by_cases h0 : 0 ≤ i
  · rw [if_pos h0] at h
    refine ⟨h0, ?_⟩
    by_contra hge
    apply h
    apply List.getElem?_eq_none
    omega
  · rw [if_neg h0] at h
    exact absurd rfl h

/-- Start-up fails on every data file with a negative theme index: the check
of `main` covers `themeIndex >= len(themes)` only, and the look-up
`themes[initialModel.themeIndex]` that follows is out of range. -/
theorem startModel_negative (d : AppData) (now : Int) (h : d.ThemeIndex < 0) :
    startModel (some d) now = .error .indexOutOfRange := by
  unfold startModel initialModel loadData
  dsimp only
  have hlen : ¬ d.ThemeIndex ≥ (themes.length : Int) := by
    have : (0 : Int) ≤ (themes.length : Int) := Int.ofNat_nonneg _
    omega
  rw [if_neg hlen]
  dsimp only
  rw [if_neg (by omega)]

/-- A start-up that succeeds gives a model whose theme index is in range. -/
theorem startModel_themeOk (file : Option AppData) (now : Int) (m : model)
    (h : startModel file now = .ok m) : ThemeOk m := by
  unfold startModel initialModel at h
  dsimp only at h
  split at h
  · rename_i x hx
    simp only [Except.ok.injEq] at h
    subst h
    rw [ThemeOk, applySort_themeIndex]
    exact lookup_range _ (by rw [hx]; simp)
  · simp at h

/-- Start-up succeeds on every data file with a theme index that is not
negative, and on a missing or undecodable file. -/
theorem startModel_ok (d : AppData) (now : Int) (h : 0 ≤ d.ThemeIndex) :
    ∃ m, startModel (some d) now = .ok m := by
  unfold startModel initialModel loadData
  dsimp only
  by_cases hlen : d.ThemeIndex ≥ (themes.length : Int)
  · rw [if_pos hlen]
    exact ⟨_, rfl⟩
  · rw [if_neg hlen]
    dsimp only
    rw [if_pos h]
    have hlt : d.ThemeIndex.toNat < themes.length := by omega
    rw [List.getElem?_eq_getElem hlt]
    exact ⟨_, rfl⟩

theorem commitCreate_themeIndex (env : Env) (m : model) :
    (commitCreate env m).next.themeIndex = m.themeIndex := by
  unfold commitCreate
  dsimp only
  split_ifs <;> rfl

theorem updateInput_themeIndex (env : Env) (k : String) (m : model) (r : Result)
    (h : updateInput env k m = .ok r) : r.next.themeIndex = m.themeIndex := by
  unfold updateInput at h
  split_ifs at h
  · unfold commitDeadline at h
    dsimp only at h
    split at h
    · simp only [Except.ok.injEq] at h; subst h; rfl
    · simp at h
  · simp only [Except.ok.injEq] at h; subst h; rfl
  · simp only [Except.ok.injEq] at h; subst h; exact commitCreate_themeIndex env m
  · unfold commitEdit at h
    split at h
    · simp only [Except.ok.injEq] at h; subst h; rfl
    · simp at h
  · simp only [Except.ok.injEq] at h; subst h; rfl
  · simp only [Except.ok.injEq] at h; subst h; rfl

theorem updateBrowse_themeOk (env : Env) (k : String) (m : model) (r : Result)
    (hm : ThemeOk m) (h : updateBrowse env k m = .ok r) : ThemeOk r.next := by
  unfold updateBrowse at h
  by_cases h1 : k = "q" ∨ k = "ctrl+c"
  · rw [if_pos h1] at h
    simp only [Except.ok.injEq] at h; subst h; exact hm
  rw [if_neg h1] at h
  by_cases h2 : k = "up" ∨ k = "k"
  · rw [if_pos h2] at h
    simp only [Except.ok.injEq] at h; subst h
    dsimp only; split_ifs <;> exact hm
  rw [if_neg h2] at h
  by_cases h3 : k = "down" ∨ k = "j"
  · rw [if_pos h3] at h
    simp only [Except.ok.injEq] at h; subst h
    dsimp only; split_ifs <;> exact hm
  rw [if_neg h3] at h
  by_cases h4 : k = "t"
  · rw [if_pos h4] at h
    dsimp only at h
    split at h
    · rename_i x hx
      simp only [Except.ok.injEq] at h; subst h
      exact lookup_range _ (by rw [hx]; simp)
    · simp at h
  rw [if_neg h4] at h
  by_cases h5 : k = "s"
  · rw [if_pos h5] at h
    simp only [Except.ok.injEq] at h; subst h; exact hm
  rw [if_neg h5] at h
  by_cases h6 : k = "n"
  · rw [if_pos h6] at h
    simp only [Except.ok.injEq] at h; subst h; exact hm
  rw [if_neg h6] at h
  by_cases h7 : k = "e"
  · rw [if_pos h7] at h
    split_ifs at h
    · split at h
      · simp only [Except.ok.injEq] at h; subst h; exact hm
      · simp at h
    · simp only [Except.ok.injEq] at h; subst h; exact hm
  rw [if_neg h7] at h
  by_cases h8 : k = "@"
  · rw [if_pos h8] at h
    split_ifs at h <;> (simp only [Except.ok.injEq] at h; subst h; exact hm)
  rw [if_neg h8] at h
  by_cases h9 : k = "d"
  · rw [if_pos h9] at h
    rcases deleteCommand_ok env m r h with ⟨_, rfl⟩ | ⟨ts, _, _, rfl⟩ <;> exact hm
  rw [if_neg h9] at h
  by_cases h10 : k = " " ∨ k = "enter"
  · rw [if_pos h10] at h
    rcases toggleCommand_ok env m r h with ⟨_, rfl⟩ | ⟨t0, t1, la, cmds, _, _, _, rfl⟩ <;> exact hm
  rw [if_neg h10] at h
  simp only [Except.ok.injEq] at h; subst h; exact hm

/-- Every event that succeeds keeps the theme index in range. -/
theorem Update_themeOk (env : Env) (msg : Msg) (m : model) (r : Result)
    (hm : ThemeOk m) (h : Update env msg m = .ok r) : ThemeOk r.next := by
  unfold Update at h
  cases msg with
  | key k =>
    dsimp only at h
    split_ifs at h
    · unfold ThemeOk
      rw [updateInput_themeIndex env k m r h]
      exact hm
    · exact updateBrowse_themeOk env k m r hm h
  | windowSize w h1 =>
    simp only [Except.ok.injEq] at h; subst h; exact hm
  | tick =>
    dsimp only at h
    rw [updateTick_eq] at h
    simp only [Except.ok.injEq] at h; subst h; exact hm
  | other =>
    simp only [Except.ok.injEq] at h; subst h; exact hm

/-- In every model a run reaches the theme index is in range, and the look-up
`themes[m.themeIndex]` of `View` succeeds. -/
theorem reach_themeOk (G : model → Msg → Prop) (m : model) (h : Reach G m) :
    ThemeOk m ∧ ∃ th, currentTheme m = .ok th := by
  have hok : ThemeOk m := by
    induction h with
    | start file now m hs => exact startModel_themeOk file now m hs
    | step env msg m r _ _ hu ih => exact Update_themeOk env msg m r ih hu
  refine ⟨hok, ?_⟩
  unfold currentTheme elemAt
  rw [if_pos hok.1]
  have h0 : 0 ≤ m.themeIndex := hok.1
  have h1 : m.themeIndex < (themes.length : Int) := hok.2
  have hlt : m.themeIndex.toNat < themes.length := by omega
  rw [List.getElem?_eq_getElem hlt]
  exact ⟨_, rfl⟩

/-- The cycle-theme command on a model whose theme index is in range succeeds
and gives the next index, the first after the last. -/
theorem cycle_theme_ok (env : Env) (m : model) (hs : m.state = .StateBrowse) (hm : ThemeOk m) :
    ∃ r, Update env (.key "t") m = .ok r ∧ ThemeOk r.next ∧
      r.next.themeIndex = (m.themeIndex + 1) % (themes.length : Int) := by
  have hidx : 0 ≤ Int.tmod (m.themeIndex + 1) (themes.length : Int) ∧
      Int.tmod (m.themeIndex + 1) (themes.length : Int) < (themes.length : Int) ∧
      Int.tmod (m.themeIndex + 1) (themes.length : Int)
        = (m.themeIndex + 1) % (themes.length : Int) := by
    have h0 : 0 ≤ m.themeIndex := hm.1
    have hpos : (0 : Int) < (themes.length : Int) := by decide
    rw [Int.tmod_eq_emod (by omega) (by omega)]
    exact ⟨Int.emod_nonneg _ (by omega), Int.emod_lt_of_pos _ hpos, rfl⟩
  have hlt : (Int.tmod (m.themeIndex + 1) (themes.length : Int)).toNat < themes.length := by
    omega
  have hu : Update env (.key "t") m
      = .ok ⟨{ m with themeIndex := Int.tmod (m.themeIndex + 1) (themes.length : Int) },
             [], []⟩ := by
    rw [Update_browse env "t" m hs]
    unfold updateBrowse
    rw [if_neg (by decide), if_neg (by decide), if_neg (by decide), if_pos rfl]
    dsimp only
    rw [if_pos hidx.1, List.getElem?_eq_getElem hlt]
  exact ⟨_, hu, ⟨hidx.1, hidx.2.1⟩, hidx.2.2⟩

/-- C24: the code at a failing input, the data file with the onboarding tasks
and `themeIndex` equal to `-1`.  The file loads as it is.  The check of `main`
resets an index of `len(themes)` or more (the index 10 becomes 0) and lets the
negative index through, and the look-up `themes[initialModel.themeIndex]` that
follows is out of range: start-up fails.  With the index 9 start-up
succeeds. -/
theorem negative_theme_index_fails :
    loadData (some negativeThemeFile) 0 = negativeThemeFile ∧
    startModel (some negativeThemeFile) 0 = .error .indexOutOfRange ∧
    startModel (some { negativeThemeFile with ThemeIndex := 10 }) 0
      = .ok (sampleModel hints 0) ∧
    startModel (some { negativeThemeFile with ThemeIndex := 9 }) 0
      = .ok { sampleModel hints 0 with themeIndex := 9 } :=
  ⟨rfl, rfl, rfl, rfl⟩

/-- Handling a `TickMsg` starts no chain of its own: it takes one pending tick
and schedules at most one. -/
theorem tick_keeps_pending (env : Env) (p q : Pending)
    (h : deliver env .tick p = some q) : q.ticks ≤ p.ticks := by
  unfold deliver at h
  by_cases h0 : p.ticks = 0
  · simp [h0] at h
  · have hu : Update env .tick p.m = updateTick env p.m := rfl
    rw [if_neg (by simp [h0]), hu, updateTick_eq] at h
    simp only [if_true, Option.some.injEq] at h
    subst h
    dsimp only
    split_ifs
    · simp [ticksOf]; omega
    · simp [ticksOf]

theorem updateInput_ticks (env : Env) (k : String) (m : model) (r : Result)
    (h : updateInput env k m = .ok r) :
    ticksOf r.cmds ≤ 1 ∧ (k ≠ "enter" → ticksOf r.cmds = 0) := by
  unfold updateInput at h
  split_ifs at h with h1 h2 h3 h4 h5
  · unfold commitDeadline at h
    dsimp only at h
    split at h
    · simp only [Except.ok.injEq] at h; subst h
      exact ⟨by simp [ticksOf], fun hk => absurd h1 hk⟩
    · simp at h
  · simp only [Except.ok.injEq] at h; subst h; exact ⟨by simp [ticksOf], fun _ => rfl⟩
  · simp only [Except.ok.injEq] at h; subst h
    have hc : (commitCreate env m).cmds = [] := rfl
    rw [hc]
    exact ⟨by simp [ticksOf], fun _ => rfl⟩
  · unfold commitEdit at h
    split at h
    · simp only [Except.ok.injEq] at h; subst h; exact ⟨by simp [ticksOf], fun _ => rfl⟩
    · simp at h
  · simp only [Except.ok.injEq] at h; subst h; exact ⟨by simp [ticksOf], fun _ => rfl⟩
  · simp only [Except.ok.injEq] at h; subst h; exact ⟨by simp [ticksOf], fun _ => rfl⟩

theorem toggleCommand_ticks (env : Env) (m : model) (r : Result)
    (h : toggleCommand env m = .ok r) : ticksOf r.cmds ≤ 1 := by
  rcases toggleCommand_ok env m r h with ⟨_, rfl⟩ | ⟨t0, t1, la, cmds, _, _, ht, rfl⟩
  · simp [ticksOf]
  · rcases toggleTask_ok env m.lastAnim t0 t1 la cmds ht with ⟨_, _, hc, _⟩ | ⟨_, _, hc, _⟩ <;>
      (subst hc; simp [ticksOf])

theorem updateBrowse_ticks (env : Env) (k : String) (m : model) (r : Result)
    (h : updateBrowse env k m = .ok r) :
    ticksOf r.cmds ≤ 1 ∧ (k ≠ "d" → k ≠ " " → k ≠ "enter" → ticksOf r.cmds = 0) := by
  unfold updateBrowse at h
  by_cases h1 : k = "q" ∨ k = "ctrl+c"
  · rw [if_pos h1] at h
    simp only [Except.ok.injEq] at h; subst h; exact ⟨by simp [ticksOf], fun _ _ _ => rfl⟩
  rw [if_neg h1] at h
  by_cases h2 : k = "up" ∨ k = "k"
  · rw [if_pos h2] at h
    simp only [Except.ok.injEq] at h; subst h; exact ⟨by simp [ticksOf], fun _ _ _ => rfl⟩
  rw [if_neg h2] at h
  by_cases h3 : k = "down" ∨ k = "j"
  · rw [if_pos h3] at h
    simp only [Except.ok.injEq] at h; subst h; exact ⟨by simp [ticksOf], fun _ _ _ => rfl⟩
  rw [if_neg h3] at h
  by_cases h4 : k = "t"
  · rw [if_pos h4] at h
    dsimp only at h
    split at h
    · simp only [Except.ok.injEq] at h; subst h; exact ⟨by simp [ticksOf], fun _ _ _ => rfl⟩
    · simp at h
  rw [if_neg h4] at h
  by_cases h5 : k = "s"
  · rw [if_pos h5] at h
    simp only [Except.ok.injEq] at h; subst h; exact ⟨by simp [ticksOf], fun _ _ _ => rfl⟩
  rw [if_neg h5] at h
  by_cases h6 : k = "n"
  · rw [if_pos h6] at h
    simp only [Except.ok.injEq] at h; subst h; exact ⟨by simp [ticksOf], fun _ _ _ => rfl⟩
  rw [if_neg h6] at h
  by_cases h7 : k = "e"
  · rw [if_pos h7] at h
    split_ifs at h
    · split at h
      · simp only [Except.ok.injEq] at h; subst h; exact ⟨by simp [ticksOf], fun _ _ _ => rfl⟩
      · simp at h
    · simp only [Except.ok.injEq] at h; subst h; exact ⟨by simp [ticksOf], fun _ _ _ => rfl⟩
  rw [if_neg h7] at h
  by_cases h8 : k = "@"
  · rw [if_pos h8] at h
    split_ifs at h <;>
      (simp only [Except.ok.injEq] at h; subst h; exact ⟨by simp [ticksOf], fun _ _ _ => rfl⟩)
  rw [if_neg h8] at h
  by_cases h9 : k = "d"
  · rw [if_pos h9] at h
    refine ⟨?_, fun hd => absurd h9 hd⟩
    rcases deleteCommand_ok env m r h with ⟨_, rfl⟩ | ⟨ts, _, _, rfl⟩ <;> simp [ticksOf]
  rw [if_neg h9] at h
  by_cases h10 : k = " " ∨ k = "enter"
  · rw [if_pos h10] at h
    refine ⟨toggleCommand_ticks env m r h, fun _ hs he => ?_⟩
    rcases h10 with hk | hk
    · exact absurd hk hs
    · exact absurd hk he
  rw [if_neg h10] at h
  simp only [Except.ok.injEq] at h; subst h; exact ⟨by simp [ticksOf], fun _ _ _ => rfl⟩

/-- The ticks one event schedules: at most one, and none unless the message is
a `TickMsg` or one of the keys `d`, space and `enter`. -/
theorem Update_ticks (env : Env) (msg : Msg) (m : model) (r : Result)
    (h : Update env msg m = .ok r) :
    ticksOf r.cmds ≤ 1 ∧ (msg ≠ .tick → schedules msg = false → ticksOf r.cmds = 0) := by
  unfold Update at h
  cases msg with
  | key k =>
    dsimp only at h
    have hk : schedules (.key k) = false → k ≠ "d" ∧ k ≠ " " ∧ k ≠ "enter" := by
      intro hs
      simp only [schedules, Msg.key.injEq, decide_eq_false_iff_not, not_or] at hs
      exact hs
    split_ifs at h
    · obtain ⟨ha, hb⟩ := updateInput_ticks env k m r h
      exact ⟨ha, fun _ hs => hb (hk hs).2.2⟩
    · obtain ⟨ha, hb⟩ := updateBrowse_ticks env k m r h
      exact ⟨ha, fun _ hs => hb (hk hs).1 (hk hs).2.1 (hk hs).2.2⟩
  | windowSize w h1 =>
    simp only [Except.ok.injEq] at h; subst h; exact ⟨by simp [ticksOf], fun _ _ => rfl⟩
  | tick =>
    dsimp only at h
    rw [updateTick_eq] at h
    simp only [Except.ok.injEq] at h; subst h
    refine ⟨?_, fun hne => absurd rfl hne⟩
    dsimp only
    split_ifs <;> simp [ticksOf]
  | other =>
    simp only [Except.ok.injEq] at h; subst h; exact ⟨by simp [ticksOf], fun _ _ => rfl⟩

theorem deliver_ticks (env : Env) (msg : Msg) (p q : Pending)
    (h : deliver env msg p = some q) :
    q.ticks ≤ p.ticks + (if schedules msg then 1 else 0) := by
  unfold deliver at h
  by_cases h0 : msg = .tick ∧ p.ticks = 0
  · rw [if_pos h0] at h
    cases h
  rw [if_neg h0] at h
  cases hu : Update env msg p.m with
  | error e => rw [hu] at h; cases h
  | ok r =>
    rw [hu] at h
    simp only [Option.some.injEq] at h
    subst h
    obtain ⟨ha, hb⟩ := Update_ticks env msg p.m r hu
    dsimp only
    by_cases ht : msg = .tick
    · subst ht
      have hp : p.ticks ≠ 0 := fun hz => h0 ⟨rfl, hz⟩
      have hs : schedules .tick = false := rfl
      simp only [if_true, hs, Bool.false_eq_true, if_false]
      omega
    · rw [if_neg ht]
      cases hs : schedules msg with
      | true => simp only [if_true]; omega
      | false =>
        rw [hb ht hs]
        simp

/-- C23, amended: the pending ticks are bounded by the keys that schedule
them.  Counting a tick as pending from the moment a handler schedules it until
its `TickMsg` is handled, after every run of events from a model with no tick
pending, the initial model among them, the number of pending ticks is at most
the number of `d`, space and `enter` keys handled in the run (from `n` pending
ticks, at most `n` more than that number); every single event raises the
number by at most one, and only when it is one of these keys; handling a
`TickMsg` never raises it. -/
theorem pending_ticks_bounded (es : List (Env × Msg)) (p q : Pending)
    (h : deliverAll es p = some q) :
    q.ticks ≤ p.ticks + scheduling es ∧
      (∀ (env : Env) (msg : Msg) (q1 : Pending), deliver env msg q = some q1 →
        q1.ticks ≤ q.ticks + 1 ∧ (schedules msg = false → q1.ticks ≤ q.ticks)) := by
  constructor
  · induction es generalizing p with
    | nil =>
      simp only [deliverAll, Option.some.injEq] at h
      subst h
      exact Nat.le_add_right _ _
    | cons e es ih =>
      obtain ⟨env, msg⟩ := e
      simp only [deliverAll] at h
      cases hd : deliver env msg p with
      | none => rw [hd] at h; cases h
      | some p1 =>
        rw [hd] at h
        have h1 := deliver_ticks env msg p p1 hd
        have h2 := ih p1 h
        have hs : scheduling ((env, msg) :: es)
            = (if schedules msg then 1 else 0) + scheduling es := by
          unfold scheduling
          cases hm : schedules msg <;> simp [List.filter_cons, hm, Nat.add_comm]
        rw [hs]
        omega
  · intro env msg q1 hq
    have h1 := deliver_ticks env msg q q1 hq
    constructor
    · split_ifs at h1 <;> omega
    · intro hs
      simpa [hs] using h1

/-- Witness of C23, amended: the two deletions on the onboarding tasks leave two
ticks pending, as many as there were `d` keys. -/
theorem pending_ticks_bounded_witness :
    ∃ q, deliverAll twoDeletes ⟨sampleModel hints 0, 0⟩ = some q ∧ q.ticks = 2 ∧
      scheduling twoDeletes = 2 ∧
      q.ticks ≤ (⟨sampleModel hints 0, 0⟩ : Pending).ticks + scheduling twoDeletes :=
  ⟨_, rfl, rfl, rfl,
    (pending_ticks_bounded twoDeletes ⟨sampleModel hints 0, 0⟩ _ rfl).1⟩

end Todo
